import Mathlib

/-!
# Fault: the assertion compiler and the emitter of the model-to-SMT lowering

A shallow embedding of `smt/asserts.go` and of parts of `smt/generator.go`
(round tracker, temporal logic, rule emitter, the instruction switch of the
lowering), followed by theorems about them.

Conventions of the embedding

* A Go panic is the `Except.error` result, carrying the panic message.
* A Go `map[int][]string` is an association list with pairwise distinct keys;
  a lookup of an absent key yields `none` (Go: the zero value and `ok = false`).
* Go `int` values that are used as unbounded counters are `Int` or `Nat`.
* Code that mutates the generator takes it as an argument and returns it.
* The variable table (package `variables`) and the fork model (package `forks`)
  are not embedded: what a definition needs of them is one of its parameters.
-/

set_option linter.dupNamespace false

namespace Fault

/-! ## Go runtime helpers -/

deriving instance DecidableEq for Except

/-- Go `strings.Join(xs, sep)`. -/
def strJoin (xs : List String) (sep : String) : String := sep.intercalate xs

/-- Go `strings.Split(s, "_")` on the characters of `s`: the pieces between
consecutive underscores; always at least one piece. -/
def splitUnderscoreChars : List Char → List (List Char)
  | [] => [[]]
  | c :: cs =>
    if c = '_' then [] :: splitUnderscoreChars cs
    else
      match splitUnderscoreChars cs with
      | [] => [[c]]
      | p :: ps => (c :: p) :: ps

/-- Go `strings.Split(id, "_")`. -/
def splitUnderscore (s : String) : List String :=
  (splitUnderscoreChars s.data).map String.mk

/-- Value of a run of decimal digits. -/
def digitsValue (cs : List Char) : Nat :=
  cs.foldl (fun n c => 10 * n + (c.toNat - 48)) 0

/-- Go `strconv.Atoi` on a 64-bit platform: an optional sign followed by one
or more decimal digits, whose value fits the `int` range; `none` is the
error result. -/
def Atoi (s : String) : Option Int :=
  let cs := s.data
  let neg := cs.head? = some '-'
  let ds := if cs.head? = some '-' ∨ cs.head? = some '+' then cs.tail else cs
  if ds.isEmpty || !(ds.all Char.isDigit) then none
  else
    let v : Int := if neg then -(digitsValue ds : Int) else (digitsValue ds : Int)
    if v < -9223372036854775808 ∨ 9223372036854775807 < v then none else some v

/-! ## Data model -/

/-- Go `map[int][]string`: round index to the terms rendered for that round. -/
abbrev RoundMap := List (Nat × List String)

/-- Map read `m[i]` with the `ok` flag. -/
def RoundMap.get (m : RoundMap) (i : Nat) : Option (List String) := m.lookup i

/-- Map read `m[i]` without the flag: the nil slice when the key is absent. -/
def RoundMap.getD (m : RoundMap) (i : Nat) : List String := (m.lookup i).getD []

/-- Map write `m[i] = v`. -/
def RoundMap.set : RoundMap → Nat → List String → RoundMap
  | [], i, v => [(i, v)]
  | (k, w) :: rest, i, v =>
    if k = i then (k, v) :: rest else (k, w) :: RoundMap.set rest i v

/-- The type `rules.States`: one operand of an invariant with its per-round terms. -/
structure States where
  Base : String := ""
  Terminal : Bool := false
  States : RoundMap := []
  Constant : Bool := false
deriving DecidableEq, Repr

/-- The type `rules.StateGroup`: an ordered list of `States` and the set of bases
they were read from (`util.StringSet`, kept in insertion order). -/
structure StateGroup where
  Wraps : List States := []
  Bases : List String := []
deriving DecidableEq, Repr

/-- The method `rules.NewStateGroup`. -/
def NewStateGroup : StateGroup := {}

/-- The method `StateGroup.AddWrap`. -/
def StateGroup.AddWrap (sg : StateGroup) (w : States) : StateGroup :=
  { sg with Wraps := sg.Wraps ++ [w] }

/-- The method `StringSet.Add` applied to `sg.Bases`. -/
def StateGroup.AddBase (sg : StateGroup) (v : String) : StateGroup :=
  { sg with Bases := if v ∈ sg.Bases then sg.Bases else sg.Bases ++ [v] }

/-- A reverse-index entry `[]int{num, idx, idx2}` of `RVarLookup`. -/
structure VarRound where
  num : Int
  round : Nat
  pos : Nat
deriving DecidableEq, Repr

/-- The type `forks.Choice`, with the fields that `newChoice` sets. -/
structure Choice where
  Base : String
  Branch : String
  Values : List Int
deriving DecidableEq, Repr

/-- The type `forks.Fork`, a Go `map[string][]*Choice`: a base and its choices, the
bases pairwise distinct. -/
abbrev Fork := List (String × List Choice)

/-- The parts of `variables.VarData` that the embedded code reads and writes: the
map `SSA` from a base to its current state index, and the map `Loads` from the
scoped name of a temporary to the identifier of the value it loads. The phi
stack of the variable table is not part of the embedding. -/
structure VarData where
  SSA : List (String × Int) := []
  Loads : List (String × String) := []
deriving DecidableEq, Repr

/-- The fields of `Generator` used by the round tracker, the assertion compiler, the
emitter and the joins of the lowering: the round log, the four lists of
generated SMT text, the forks, the variable table (the field `variables`, a
reserved word here, is `vars`) and the name of the function being lowered
(`@__run` in a new generator). -/
structure Generator where
  Rounds : Int := 0
  RoundVars : List (List (List String)) := []
  RVarLookup : List (String × List VarRound) := []
  asserts : List String := []
  inits : List String := []
  constants : List String := []
  rules : List String := []
  forks : List Fork := []
  vars : VarData := {}
  currentFunction : String := "@__run"
deriving DecidableEq, Repr

/-- The AST nodes an assertion can hold (package `ast`). `IndexExpression`
carries the text `e.Index.String()` of its index, `FloatLiteral` and the
literal nodes the text `fmt.Sprint(e.Value)` prints when it is not an integer
or a Boolean; `Other` stands for every node kind without a case of its own. -/
inductive Expression where
  | InfixExpression (left : Expression) (operator : String) (right : Expression)
  | AssertVar (instances : List String)
  | IntegerLiteral (value : Int)
  | FloatLiteral (value : String)
  | Boolean (value : Bool)
  | StringLiteral (value : String)
  | PrefixExpression (operator : String) (right : Expression)
  | Nil
  | IndexExpression (left : Expression) (index : String)
  | Other
deriving DecidableEq, Repr

/-- The node `ast.InvariantClause`. -/
structure InvariantClause where
  Left : Expression
  Operator : String
  Right : Expression
deriving DecidableEq, Repr

/-- The node `ast.AssertionStatement`. -/
structure AssertionStatement where
  Constraint : InvariantClause
  Assume : Bool := false
  Temporal : String := ""
  TemporalFilter : String := ""
  TemporalN : Int := 0
deriving DecidableEq, Repr

/-! ## Round tracker (`generator.go`) -/

/-- The method `Generator.newRound`. -/
def newRound (g : Generator) : Generator :=
  { g with RoundVars := g.RoundVars ++ [[]] }

/-- The method `Generator.currentRound`. -/
def currentRound (g : Generator) : Int := (g.RoundVars.length : Int) - 1

/-- Map read `g.RVarLookup[base]`. -/
def lookupBase (g : Generator) (base : String) : List VarRound :=
  (g.RVarLookup.lookup base).getD []

/-- Map update `m[base] = append(m[base], e)`. -/
def appendLookup : List (String × List VarRound) → String → VarRound →
    List (String × List VarRound)
  | [], base, e => [(base, [e])]
  | (k, es) :: rest, base, e =>
    if k = base then (k, es ++ [e]) :: rest else (k, es) :: appendLookup rest base e

/-- The method `Generator.addVarToRoundLookup`. -/
def addVarToRoundLookup (g : Generator) (base : String) (num : Int) (idx idx2 : Nat) :
    Generator :=
  { g with RVarLookup := appendLookup g.RVarLookup base ⟨num, idx, idx2⟩ }

/-- The method `Generator.initVarRound`. -/
def initVarRound (g : Generator) (base : String) (num : Int) : Generator :=
  { g with RoundVars := [[[base, toString num]]] }

/-- The method `Generator.addVarToRound`. -/
def addVarToRound (g : Generator) (base : String) (num : Int) : Generator :=
  if currentRound g = -1 then
    let g1 := initVarRound g base num
    addVarToRoundLookup g1 base num 0
      ((g1.RoundVars.getD (currentRound g1).toNat []).length - 1)
  else
    let cur := (currentRound g).toNat
    let rv := g.RoundVars.set cur (g.RoundVars.getD cur [] ++ [[base, toString num]])
    let g1 := { g with RoundVars := rv }
    addVarToRoundLookup g1 base num cur ((g1.RoundVars.getD cur []).length - 1)

/-- The method `Generator.lookupVarSpecificState`. -/
def lookupVarSpecificState (g : Generator) (base : String) (state : Int) :
    Except String (List VarRound) :=
  match (lookupBase g base).find? (fun b => b.num = state) with
  | some b => .ok [b]
  | none => .error ("state " ++ toString state ++ " of variable " ++ base ++ " is missing")

/-- The method `Generator.lookupVarRounds`. -/
def lookupVarRounds (g : Generator) (base : String) (num : String) :
    Except String (List VarRound) :=
  if num = "" then .ok (lookupBase g base)
  else
    match Atoi num with
    | none => .error ("strconv.Atoi: parsing " ++ num ++ ": invalid syntax")
    | some state => lookupVarSpecificState g base state

/-- Map update `ir[i] = append(ir[i], s)`. -/
def RoundMap.push (m : RoundMap) (i : Nat) (s : String) : RoundMap :=
  m.set i (m.getD i ++ [s])

/-- The method `Generator.varRounds`. -/
def varRounds (g : Generator) (base : String) (num : String) : Except String RoundMap :=
  match lookupVarRounds g base num with
  | .error e => .error e
  | .ok states =>
    .ok (states.foldl (fun ir s => ir.push s.round (base ++ "_" ++ toString s.num)) [])

/-- The round indices `0, 1, .., g.Rounds` of `for i := 0; i <= g.Rounds; i++`. -/
def roundIdx (g : Generator) : List Nat := List.range (g.Rounds + 1).toNat

/-! ## Helpers of package `util` and `llvm` -/

/-- Modelled from the spec: `util.PairCombinations` is not among the sources; the
pairing rule "cross the other side's per-round states with the constant" and
"take the full cross product" makes it the product of the two lists, each pair a
two-element slice, the left list varying slowest. -/
def PairCombinations (list1 list2 : List String) : List (List String) :=
  list1.flatMap (fun a => list2.map (fun b => [a, b]))

/-- Modelled from the spec: `util.Cartesian` is not among the sources; the counting
filters "take the Cartesian product of the two sides' per-round states". -/
def Cartesian (list1 list2 : List String) : List (List String) :=
  list1.flatMap (fun a => list2.map (fun b => [a, b]))

/-- Modelled from the spec: `util.Combinations` is not among the sources; the
counting filters range over "every size-N subset of the product". -/
def Combinations (c : List (List String)) (n : Int) : List (List (List String)) :=
  if n < 0 then [] else List.sublistsLen n.toNat c

/-- Modelled from the spec: `util.NotInSet` is not among the sources; it yields the
"complement" of a subset within the product. -/
def NotInSet (o c : List (List String)) : List (List String) :=
  c.filter (fun p => !(o.contains p))

/-- Modelled from the spec: the table `llvm.OP_NEGATE` is not among the sources;
"a static table mapping" each operator to its logical negation; an operator
without entry reads as the empty string. -/
def OP_NEGATE (op : String) : String :=
  if op = "=" then "!="
  else if op = "==" then "!="
  else if op = "!=" then "=="
  else if op = "<" then ">="
  else if op = "<=" then ">"
  else if op = ">" then "<="
  else if op = ">=" then "<"
  else if op = "&&" then "||"
  else if op = "||" then "&&"
  else ""

/-- Modelled from the spec: `util.DiffStrSets` is not among the sources; the
symmetric difference of two string sets, which is empty exactly when "left and
right are asserts on the same variable". The assertion compiler below takes the
difference as a parameter; this definition instantiates it. -/
def DiffStrSets (s1 s2 : List String) : List String :=
  s1.filter (fun x => !(s2.contains x)) ++ s2.filter (fun x => !(s1.contains x))

/-! ## Assertion compiler (`asserts.go`) -/

/-- The function `smtlibOperators`. -/
def smtlibOperators (op : String) : String :=
  if op = "==" then "="
  else if op = "!=" then "not"
  else if op = "||" then "or"
  else if op = "&&" then "and"
  else op

/-- The function `captureState`: the state suffix of an instance name, and the
flags `a` (all states) and `c` (constant). -/
def captureState (id : String) : String × Bool × Bool :=
  let raw := splitUnderscore id
  let a := decide (2 < raw.length)
  let c := !a
  let last := raw.getLastD ""
  match Atoi last with
  | none => ("", a, c)
  | some _ => (last, false, false)

/-- The function `invalidBase`. -/
def invalidBase (base : String) : Bool :=
  base = "__string" || base = "__bool" || base = "__float" || base = "__int" || base = ""

/-- One iteration of the loop of `packageStateGraph`. -/
def packageOne (a : List String) (op : String) : Except String String :=
  match a with
  | [x] => .ok x
  | [] => .error "runtime error: index out of range [0] with length 0"
  | a0 :: a1 :: _ =>
    if op = "not" ∧ a0 = "false" then .ok ("(" ++ op ++ " " ++ a1 ++ ")")
    else if op = "not" ∧ a1 = "false" then .ok ("(" ++ op ++ " " ++ a0 ++ ")")
    else if op = "not" then .ok ("(" ++ op ++ " (= " ++ a0 ++ " " ++ a1 ++ "))")
    else .ok ("(" ++ op ++ " " ++ a0 ++ " " ++ a1 ++ ")")

/-- The function `packageStateGraph`. -/
def packageStateGraph : List (List String) → String → Except String (List String)
  | [], _ => .ok []
  | a :: rest, op =>
    match packageOne a op with
    | .error e => .error e
    | .ok s =>
      match packageStateGraph rest op with
      | .error e => .error e
      | .ok product => .ok (s :: product)

/-- The method `Generator.mergePairs`. -/
def mergePairs (l r : String) (leftLead : Bool) : List String :=
  if leftLead then [l, r] else [r, l]

/-- The method `Generator.writeAssertlessRule` (`generator.go`). -/
def writeAssertlessRule (op x y : String) : String :=
  if y ≠ "" then "(" ++ op ++ " " ++ x ++ " " ++ y ++ ")"
  else "(" ++ op ++ " " ++ x ++ ")"

/-- The method `Generator.writeAssert` (`generator.go`). -/
def writeAssert (op stmt : String) : String :=
  if op = "" then "(assert " ++ stmt ++ ")"
  else "(assert (" ++ op ++ " " ++ stmt ++ "))"

/-- The method `Generator.flattenStates`. -/
def flattenStates (g : Generator) (sg : StateGroup) : List String :=
  sg.Wraps.flatMap (fun w => (roundIdx g).flatMap (fun i => w.States.getD i))

/-- The method `Generator.joinStates`. -/
def joinStates (g : Generator) (sg : StateGroup) (operator : String) : String :=
  match flattenStates g sg with
  | [a] => a
  | asserts => writeAssertlessRule operator (strJoin asserts " ") ""

/-- The loop over one round of `Generator.termCombos`: the pairs collected from the
records `rounds`, and the latest identifiers of the two bases afterwards. -/
def termCombosRound (lbase rbase : String) :
    List (List String) → String → String →
      Except String (List (List String) × String × String)
  | [], llast, rlast => .ok ([], llast, rlast)
  | vr :: rest, llast, rlast =>
    match vr.head? with
    | none => .error "runtime error: index out of range [0] with length 0"
    | some b =>
      let llast1 := if b = lbase then strJoin vr "_" else llast
      let c1 := if b = lbase ∧ rlast ≠ "" then [[llast1, rlast]] else []
      let rlast1 := if b = rbase then strJoin vr "_" else rlast
      let c2 := if b = rbase ∧ llast1 ≠ "" then [[llast1, rlast1]] else []
      match termCombosRound lbase rbase rest llast1 rlast1 with
      | .error e => .error e
      | .ok (c, st) => .ok (c1 ++ c2 ++ c, st)

/-- The loop over the rounds of `Generator.termCombos`. -/
def termCombosFrom (lbase rbase : String) :
    List (List (List String)) → String → String → Except String (List (List (List String)))
  | [], _, _ => .ok []
  | rounds :: rest, llast, rlast =>
    match termCombosRound lbase rbase rounds llast rlast with
    | .error e => .error e
    | .ok (c, llast1, rlast1) =>
      match termCombosFrom lbase rbase rest llast1 rlast1 with
      | .error e => .error e
      | .ok cs => .ok (c :: cs)

/-- The method `Generator.termCombos`; entry `i` of the result is `combos[i]`. -/
def termCombos (g : Generator) (lbase rbase : String) :
    Except String (List (List (List String))) :=
  termCombosFrom lbase rbase g.RoundVars "" ""

/-- A loop `for i := 0; i <= g.Rounds; i++` that may write `st[i]` in each pass. -/
def forRounds (f : Nat → Except String (Option (List String))) :
    List Nat → Except String RoundMap
  | [] => .ok []
  | i :: rest =>
    match f i with
    | .error e => .error e
    | .ok v =>
      match forRounds f rest with
      | .error e => .error e
      | .ok m => .ok (match v with | some x => (i, x) :: m | none => m)

/-- The method `Generator.balance`. -/
def balance (g : Generator) (vr con : States) (operator : String) : Except String RoundMap :=
  forRounds (fun i =>
    match vr.States.get i with
    | none => .ok none
    | some v =>
      match packageStateGraph (PairCombinations v (con.States.getD 0)) operator with
      | .error e => .error e
      | .ok t => .ok (some t)) (roundIdx g)

/-- The inner loop of the same-base rule of `mergeByRound`: the pairs built for the
states of the long side from position `idx` on. -/
def sameBasePairs (short : Option (List String)) (leftLead : Bool) :
    Nat → List String → Except String (List (List String))
  | _, [] => .ok []
  | idx, s :: rest =>
    let p : Except String (List String) :=
      match short with
      | some sstates =>
        if idx < sstates.length then .ok (mergePairs s (sstates.getD idx "") leftLead)
        else
          match sstates.getLast? with
          | some x => .ok (mergePairs s x leftLead)
          | none => .error "runtime error: index out of range [-1]"
      | none => .error "runtime error: index out of range [-1]"
    match p with
    | .error e => .error e
    | .ok pr =>
      match sameBasePairs short leftLead (idx + 1) rest with
      | .error e => .error e
      | .ok pairs => .ok (pr :: pairs)

/-- The states of one side in round `i` for the general rule of `mergeByRound`:
the recorded ones, else the carried last state (`none` is the nil slice), else
state `0` of the base. -/
def roundOrLast (side : States) (i : Nat) (last : Option (List String)) :
    Except String (List String) :=
  match side.States.get i with
  | some l => .ok l
  | none =>
    match last with
    | none =>
      if invalidBase side.Base then .error "assert left variable base name is invalid"
      else .ok [side.Base ++ "_" ++ "0"]
    | some ll => .ok ll

/-- The loop of the general rule of `mergeByRound`, with the carried `llast` and
`rlast`. -/
def crossRounds (left right : States) (operator : String) :
    List Nat → Option (List String) → Option (List String) → Except String RoundMap
  | [], _, _ => .ok []
  | i :: rest, llast, rlast =>
    match roundOrLast left i llast with
    | .error e => .error e
    | .ok l =>
      match roundOrLast right i rlast with
      | .error e => .error e
      | .ok r =>
        match packageStateGraph (PairCombinations l r) operator with
        | .error e => .error e
        | .ok t =>
          match l.getLast?, r.getLast? with
          | some ll, some rl =>
            match crossRounds left right operator rest (some [ll]) (some [rl]) with
            | .error e => .error e
            | .ok m => .ok ((i, t) :: m)
          | _, _ => .error "runtime error: slice bounds out of range [-1:]"

/-- The loop `for i, c := range combos { st[i] = packageStateGraph(c, operator) }`. -/
def packageRounds (operator : String) : Nat → List (List (List String)) → Except String RoundMap
  | _, [] => .ok []
  | i, c :: rest =>
    match packageStateGraph c operator with
    | .error e => .error e
    | .ok t =>
      match packageRounds operator (i + 1) rest with
      | .error e => .error e
      | .ok m => .ok ((i, t) :: m)

/-- The method `Generator.mergeByRound`. -/
def mergeByRound (g : Generator) (left right : States) (operator : String) :
    Except String States :=
  if left.Constant ∧ right.Constant then
    match packageStateGraph
        (PairCombinations (left.States.getD 0) (right.States.getD 0)) operator with
    | .error e => .error e
    | .ok t => .ok { States := [(0, t)] }
  else if left.Base = right.Base ∧ (left.Base ≠ "" ∧ right.Base ≠ "") then
    let leftLead := decide (right.States.length ≤ left.States.length)
    let long := if leftLead then left.States else right.States
    let short := if leftLead then right.States else left.States
    match forRounds (fun i =>
        match sameBasePairs (short.get i) leftLead 0 (long.getD i) with
        | .error e => .error e
        | .ok pairs =>
          match packageStateGraph pairs operator with
          | .error e => .error e
          | .ok t => .ok (some t)) (roundIdx g) with
    | .error e => .error e
    | .ok st => .ok { Base := left.Base, States := st }
  else if left.Constant then
    match balance g right left operator with
    | .error e => .error e
    | .ok st => .ok { Base := right.Base, States := st }
  else if right.Constant then
    match balance g left right operator with
    | .error e => .error e
    | .ok st => .ok { Base := left.Base, States := st }
  else if left.Terminal ∧ right.Terminal then
    match termCombos g left.Base right.Base with
    | .error e => .error e
    | .ok combos =>
      match packageRounds operator 0 combos with
      | .error e => .error e
      | .ok st => .ok { States := st }
  else
    match crossRounds left right operator (roundIdx g) none none with
    | .error e => .error e
    | .ok st => .ok { States := st }

/-- The inner loop of `mergeInvariantInfix` over `right.Wraps`. -/
def mergeWrapsRight (g : Generator) (l : States) (operator : String) :
    List States → Except String (List States)
  | [] => .ok []
  | r :: rest =>
    match mergeByRound g l r operator with
    | .error e => .error e
    | .ok state =>
      match mergeWrapsRight g l operator rest with
      | .error e => .error e
      | .ok states => .ok (state :: states)

/-- The outer loop of `mergeInvariantInfix` over `left.Wraps`; `right` is `none`
for the nil pointer, which is dereferenced once per left wrap. -/
def mergeWraps (g : Generator) (right : Option StateGroup) (operator : String) :
    List States → Except String (List States)
  | [] => .ok []
  | l :: rest =>
    match right with
    | none => .error "runtime error: invalid memory address or nil pointer dereference"
    | some r =>
      match mergeWrapsRight g l operator r.Wraps with
      | .error e => .error e
      | .ok states =>
        match mergeWraps g right operator rest with
        | .error e => .error e
        | .ok more => .ok (states ++ more)

/-- The method `Generator.mergeInvariantInfix`; `none` is the nil `*StateGroup`. -/
def mergeInvariantInfix (g : Generator) (left right : Option StateGroup)
    (operator : String) : Except String StateGroup :=
  match left with
  | none => .error "runtime error: invalid memory address or nil pointer dereference"
  | some l =>
    match mergeWraps g right operator l.Wraps with
    | .error e => .error e
    | .ok states => .ok { Wraps := states }

/-- The panic of `Generator.parseInvariant` on an expression, if it panics: it
does so exactly on a node kind without a case of its own. -/
def parseInvariantPanic : Expression → Option String
  | .InfixExpression l _ r =>
    match parseInvariantPanic l with
    | some e => some e
    | none => parseInvariantPanic r
  | .PrefixExpression _ r => parseInvariantPanic r
  | .Other => some "illegal node in assert or assume"
  | _ => none

/-- The loop of the `AssertVar` case of `parseInvariantNode`. -/
def assertVarWraps (g : Generator) : List String → StateGroup → Except String StateGroup
  | [], wg => .ok wg
  | v :: rest, wg =>
    match varRounds g v (captureState v).1 with
    | .error e => .error e
    | .ok vr =>
      assertVarWraps g rest
        ((wg.AddBase v).AddWrap
          { Base := v, Terminal := true, States := vr, Constant := (captureState v).2.2 })

/-- The loop of the `IndexExpression` case of `parseInvariantNode`. -/
def indexWraps (g : Generator) (index : String) :
    List String → StateGroup → Except String StateGroup
  | [], wg => .ok wg
  | v :: rest, wg =>
    match varRounds g v index with
    | .error e => .error e
    | .ok vr =>
      indexWraps g index rest
        ((wg.AddBase v).AddWrap { Base := v, States := vr, Constant := true })

/-- A literal of `parseInvariantNode`: one constant state in round 0. -/
def literalGroup (base value : String) : StateGroup :=
  NewStateGroup.AddWrap { Base := base, States := [(0, [value])], Constant := true }

/-- The method `Generator.parseInvariantNode`; the result `none` is the nil pointer
returned for `ast.Nil`. A prefix expression hands its operand to
`parseInvariant`, whose results (`Invariant`, `Wrap`, `WrapGroup`, nil) are never a
`*rules.States` nor a `*rules.StateGroup`, so the second type assertion panics. -/
def parseInvariantNode (g : Generator) :
    Expression → Bool → Except String (Option StateGroup)
  | .InfixExpression l op r, stateRange =>
    match parseInvariantNode g l stateRange with
    | .error e => .error e
    | .ok left =>
      match parseInvariantNode g r stateRange with
      | .error e => .error e
      | .ok right =>
        match mergeInvariantInfix g left right (smtlibOperators op) with
        | .error e => .error e
        | .ok sg => .ok (some sg)
  | .AssertVar instances, _ =>
    match assertVarWraps g instances NewStateGroup with
    | .error e => .error e
    | .ok wg => .ok (some wg)
  | .IntegerLiteral v, _ => .ok (some (literalGroup "__int" (toString v)))
  | .FloatLiteral v, _ => .ok (some (literalGroup "__float" v))
  | .Boolean v, _ => .ok (some (literalGroup "__bool" (toString v)))
  | .StringLiteral v, _ => .ok (some (literalGroup "__string" v))
  | .PrefixExpression _ r, _ =>
    match parseInvariantPanic r with
    | some e => .error e
    | none => .error "interface conversion: rules.Rule is not *rules.StateGroup"
  | .Nil, _ => .ok none
  | .IndexExpression l index, _ =>
    match l with
    | .AssertVar instances =>
      match indexWraps g index instances NewStateGroup with
      | .error e => .error e
      | .ok wg => .ok (some wg)
    | _ => .error "interface conversion: ast.Expression is not *ast.AssertVar"
  | .Other, _ => .error "illegal node in assert or assume"

/-- The clause `(op a b)` written for one pair of the product; a pair with fewer
than two entries panics on the index. -/
def onClause (op : String) (p : List String) : Except String String :=
  match p with
  | a :: b :: _ => .ok ("(" ++ op ++ " " ++ a ++ " " ++ b ++ ")")
  | _ => .error "runtime error: index out of range"

/-- The off-clause of the `nmt` filter for one pair. -/
def offClause (op : String) (p : List String) : Except String String :=
  match p with
  | a :: b :: _ =>
    if op = "=" then .ok ("(not (" ++ op ++ " " ++ a ++ " " ++ b ++ "))")
    else .ok ("(" ++ OP_NEGATE op ++ " " ++ a ++ " " ++ b ++ ")")
  | _ => .error "runtime error: index out of range"

/-- A loop that renders every pair of a list with `f`. -/
def clauses (f : List String → Except String String) :
    List (List String) → Except String (List String)
  | [] => .ok []
  | p :: rest =>
    match f p with
    | .error e => .error e
    | .ok s =>
      match clauses f rest with
      | .error e => .error e
      | .ok ss => .ok (s :: ss)

/-- A group `(op s1 .. sn)`, or the term itself when there is exactly one. -/
def groupOrSingle (op : String) (xs : List String) : String :=
  match xs with
  | [x] => x
  | _ => "(" ++ op ++ " " ++ strJoin xs " " ++ ")"

/-- The function `impliesOnOffPairs`. -/
def impliesOnOffPairs (ons : List (List (List String))) (c : List (List String)) :
    List (List (List String) × List (List String)) :=
  ons.map (fun o => (o, NotInSet o c))

/-- The loop of the `nmt` case of `expandAssertStateGraph`. -/
def nmtTerms (op : String) :
    List (List (List String) × List (List String)) → Except String (List (List String))
  | [] => .ok []
  | p :: rest =>
    match clauses (onClause op) p.1 with
    | .error e => .error e
    | .ok o =>
      match clauses (offClause op) p.2 with
      | .error e => .error e
      | .ok f =>
        match nmtTerms op rest with
        | .error e => .error e
        | .ok x => .ok ([groupOrSingle "or" o, groupOrSingle "and" f] :: x)

/-- The loop of the `nft` case of `expandAssertStateGraph`. -/
def nftTerms (op : String) :
    List (List (List String) × List (List String)) → Except String (List (List String))
  | [] => .ok []
  | p :: rest =>
    match clauses (onClause op) p.1 with
    | .error e => .error e
    | .ok o =>
      match nftTerms op rest with
      | .error e => .error e
      | .ok x => .ok ([groupOrSingle "and" o] :: x)

/-- The function `expandAssertStateGraph`. -/
def expandAssertStateGraph (list1 list2 : List String) (op temporalFilter : String)
    (temporalN : Int) : Except String (List String) :=
  let c := Cartesian list1 list2
  if temporalFilter = "nmt" then
    match nmtTerms op (impliesOnOffPairs (Combinations c temporalN) c) with
    | .error e => .error e
    | .ok x => packageStateGraph x "and"
  else if temporalFilter = "nft" then
    match nftTerms op (impliesOnOffPairs (Combinations c temporalN) c) with
    | .error e => .error e
    | .ok x => packageStateGraph x "or"
  else packageStateGraph c op

/-- The loop of `Generator.eventuallyAlways`: pass `i` sees the suffix `ir[i:]` and
appends its conjunction to `progression`. -/
def progression : List String → List String
  | [] => []
  | t :: rest => ("(and " ++ strJoin (t :: rest) " " ++ ")") :: progression rest

/-- The method `Generator.eventuallyAlways` (`generator.go`). -/
def eventuallyAlways (ir : List String) : String :=
  "(or " ++ strJoin (progression ir) " " ++ ")"

/-- The method `Generator.applyTemporalLogic` (`generator.go`). -/
def applyTemporalLogic (temp : String) (ir : List String) (temporalFilter onOp offOp : String) :
    Except String String :=
  if 1 < ir.length then
    if temp = "eventually" then .ok ("(" ++ onOp ++ " " ++ strJoin ir " " ++ ")")
    else if temp = "always" then .ok ("(" ++ offOp ++ " " ++ strJoin ir " " ++ ")")
    else if temp = "eventually-always" then .ok (eventuallyAlways ir)
    else
      let op := if temporalFilter = "nft" then "or"
        else if temporalFilter = "nmt" then "or" else offOp
      .ok ("(" ++ op ++ " " ++ strJoin ir " " ++ ")")
  else
    match ir.head? with
    | some t => .ok t
    | none => .error "runtime error: index out of range [0] with length 0"

/-- The panic message of the guard of `parseAssert`. -/
abbrev mixMsg : String := "cannot mix temporal logic with when/then assertions"

/-- The method `Generator.parseAssert`. The string-set difference `util.DiffStrSets`
is the parameter `diff`. -/
def parseAssert (diff : List String → List String → List String) (g : Generator)
    (a : AssertionStatement) : Except String String :=
  let stateRange := decide (a.Constraint.Operator = "then")
  if stateRange ∧ (a.TemporalFilter ≠ "" ∨ a.Temporal ≠ "") then
    .error mixMsg
  else
    match parseInvariantNode g a.Constraint.Left stateRange with
    | .error e => .error e
    | .ok left =>
      match parseInvariantNode g a.Constraint.Right stateRange with
      | .error e => .error e
      | .ok right =>
        let op := smtlibOperators a.Constraint.Operator
        if stateRange then
          match mergeInvariantInfix g left right "or" with
          | .error e => .error e
          | .ok sg => .ok (joinStates g sg "and")
        else
          let onOp := if a.Assume then "or" else "and"
          let offOp := if a.Assume then "and" else "or"
          match left, right with
          | some l, some r =>
            if (diff l.Bases r.Bases).length = 0 ∧
                (a.Temporal ≠ "" ∨ a.TemporalFilter ≠ "") then
              match mergeInvariantInfix g left right op with
              | .error e => .error e
              | .ok sg => applyTemporalLogic a.Temporal (flattenStates g sg) a.TemporalFilter onOp offOp
            else if a.Temporal ≠ "" ∨ a.TemporalFilter ≠ "" then
              match expandAssertStateGraph (flattenStates g l) (flattenStates g r) op
                  a.TemporalFilter a.TemporalN with
              | .error e => .error e
              | .ok ir => applyTemporalLogic a.Temporal ir a.TemporalFilter onOp offOp
            else
              let operator := if a.Assume then "and" else "or"
              if operator = op then
                .ok (joinStates g { Wraps := l.Wraps ++ r.Wraps } operator)
              else
                match mergeInvariantInfix g left right op with
                | .error e => .error e
                | .ok sg => .ok (joinStates g sg operator)
          | _, _ => .error "runtime error: invalid memory address or nil pointer dereference"

/-- The list `ir` that `parseAssert` hands to `applyTemporalLogic` when the statement
carries a temporal modifier or filter and its sides lowered to `l` and `r`: the
merged states when the two sides read the same bases, the expanded product
otherwise. -/
def temporalTerms (diff : List String → List String → List String) (g : Generator)
    (a : AssertionStatement) (l r : StateGroup) : Except String (List String) :=
  if (diff l.Bases r.Bases).length = 0 then
    match mergeInvariantInfix g (some l) (some r) (smtlibOperators a.Constraint.Operator) with
    | .error e => .error e
    | .ok sg => .ok (flattenStates g sg)
  else
    expandAssertStateGraph (flattenStates g l) (flattenStates g r)
      (smtlibOperators a.Constraint.Operator) a.TemporalFilter a.TemporalN

/-- The loop of `Generator.newAssumes` (`generator.go`): the generator after the
assumes were appended to `g.asserts`. -/
def newAssumes (diff : List String → List String → List String) (g : Generator) :
    List AssertionStatement → Except String Generator
  | [] => .ok g
  | v :: rest =>
    match parseAssert diff g v with
    | .error e => .error e
    | .ok a => newAssumes diff { g with asserts := g.asserts ++ [writeAssert "" a] } rest

/-- The loop of `Generator.newAsserts` that collects `arule`. -/
def assertRules (diff : List String → List String → List String) (g : Generator) :
    List AssertionStatement → Except String (List String)
  | [] => .ok []
  | v :: rest =>
    match parseAssert diff g v with
    | .error e => .error e
    | .ok a =>
      match assertRules diff g rest with
      | .error e => .error e
      | .ok arule => .ok (a :: arule)

/-- The method `Generator.newAsserts` (`generator.go`). -/
def newAsserts (diff : List String → List String → List String) (g : Generator)
    (asserts : List AssertionStatement) : Except String Generator :=
  match assertRules diff g asserts with
  | .error e => .error e
  | .ok arule =>
    match arule with
    | [] => .ok g
    | [a] => .ok { g with asserts := g.asserts ++ [writeAssert "" a] }
    | _ => .ok { g with asserts := g.asserts ++ [writeAssert "or" (strJoin arule "")] }

/-! ## Rule emitter (`generator.go`) -/

/-- The rule kinds of package `rules` that `writeRule` reads, with the fields it
reads. `Choices.X` is a list of `*rules.Ands`, given by their rule lists; `Other`
stands for every other value of the interface `rules.Rule` (the nil interface
included) and carries the type name that `%T` prints. -/
inductive Rule where
  | Infix (X Y : Rule) (Ty Op : String)
  | Ite (Cond : Rule) (T F : List Rule)
  | Wrap (Value : String)
  | Phi (BaseVar EndState : String) (Nums : List Int)
  | Ands (X : List Rule)
  | Choices (X : List (List Rule)) (Op : String)
  | Other (typeName : String)

/-- The method `Generator.writeBranch`. -/
def writeBranch (ty cond t f : String) : String :=
  "(" ++ ty ++ " " ++ cond ++ " " ++ t ++ " " ++ f ++ ")"

/-- The method `Generator.declareVar`. -/
def declareVar (g : Generator) (id t : String) : Generator :=
  { g with inits := g.inits ++ ["(declare-fun " ++ id ++ " () " ++ t ++ ")"] }

/-- The method `Generator.writeInitRule`. -/
def writeInitRule (g : Generator) (id t val : String) : Generator × String :=
  (declareVar g id t, "(assert (= " ++ id ++ " " ++ val ++ "))")

/-- The method `Generator.formatEnds`. -/
def formatEnds (k : String) (nums : List Int) (id : String) : String :=
  strJoin (nums.map (fun v => writeAssertlessRule "=" id (k ++ "_" ++ toString v))) " "

/-- The method `Generator.unpackCondRule`. -/
def unpackCondRule : Rule → Except String String
  | .Wrap v => .ok v
  | .Infix X Y _ op =>
    match unpackCondRule X with
    | .error e => .error e
    | .ok x =>
      match unpackCondRule Y with
      | .error e => .error e
      | .ok y => .ok (writeAssertlessRule op x y)
  | .Ite _ _ _ => .error "*rules.Ite is not a valid rule type"
  | .Phi _ _ _ => .error "*rules.Phi is not a valid rule type"
  | .Ands _ => .error "*rules.Ands is not a valid rule type"
  | .Choices _ _ => .error "*rules.Choices is not a valid rule type"
  | .Other t => .error (t ++ " is not a valid rule type")

/-- The method `Generator.writeCond`, applied to `r.Cond.(*rules.Infix)`: the type
assertion panics on every rule that is not an `Infix`. -/
def writeCond : Rule → Except String String
  | .Infix X Y _ op =>
    match unpackCondRule Y with
    | .error e => .error e
    | .ok y =>
      match unpackCondRule X with
      | .error e => .error e
      | .ok x => .ok (writeAssertlessRule op x y)
  | _ => .error "interface conversion: rules.Rule is not *rules.Infix"

/-- The branch text of `writeRule` for an `Ite`: the conjunction of the ends, the
single end, or the empty string. -/
def branchText (ends : List String) : String :=
  if 1 < ends.length then writeAssertlessRule "and" (strJoin ends " ") ""
  else ends.headD ""

/-- The tail of the `Infix` case of `writeRule`, once both operands are written:
an unknown value only declares the variable, `or` writes the operands back to
back, another operator gives a term, and the empty operator and `=` give an
initialisation. -/
def infixRule (g : Generator) (x y ty op : String) : Generator × String :=
  if y = "0x3DA3CA8CB153A753" then (declareVar g x ty, "")
  else if op = "or" then (g, writeAssert "or" (x ++ y))
  else if op ≠ "" ∧ op ≠ "=" then (g, writeAssertlessRule op x y)
  else writeInitRule g x ty y

/-- The tail of the `Choices` case of `writeRule`. -/
def choicesRule (op ands : String) : String :=
  if op = "or" then writeAssert op ands else writeAssert "" ands

mutual
/-- The method `Generator.writeRule`; the type lookup `variables.LookupType(base, nil)`
is the parameter `lookupType`. The generator is threaded through because a rule
may declare variables. -/
def writeRule (lookupType : String → String) (g : Generator) :
    Rule → Except String (Generator × String)
  | .Infix X Y ty op =>
    match unpackRule lookupType g Y with
    | .error e => .error e
    | .ok (g1, y) =>
      match unpackRule lookupType g1 X with
      | .error e => .error e
      | .ok (g2, x) => .ok (infixRule g2 x y ty op)
  | .Ite cond T F =>
    match writeCond cond with
    | .error e => .error e
    | .ok c =>
      match writeBranchRules lookupType g T with
      | .error e => .error e
      | .ok (g1, tEnds) =>
        match writeBranchRules lookupType g1 F with
        | .error e => .error e
        | .ok (g2, fEnds) =>
          .ok (g2, writeAssert "" (writeBranch "ite" c (branchText tEnds) (branchText fEnds)))
  | .Wrap v => .ok (g, v)
  | .Phi base endState nums =>
    .ok (declareVar g endState (lookupType base), writeAssert "or" (formatEnds base nums endState))
  | .Ands X =>
    match writeAnds lookupType g X with
    | .error e => .error e
    | .ok (g1, ands) => .ok (g1, writeAssertlessRule "and" ands "")
  | .Choices X op =>
    match writeChoices lookupType g X with
    | .error e => .error e
    | .ok (g1, ands) => .ok (g1, choicesRule op ands)
  | .Other t => .error (t ++ " is not a valid rule type")

/-- The method `Generator.unpackRule`. It hands an `Infix`, an `Ands` and a
`Choices` to `writeRule`, whose cases are written out here. -/
def unpackRule (lookupType : String → String) (g : Generator) :
    Rule → Except String (Generator × String)
  | .Wrap v => .ok (g, v)
  | .Infix X Y ty op =>
    match unpackRule lookupType g Y with
    | .error e => .error e
    | .ok (g1, y) =>
      match unpackRule lookupType g1 X with
      | .error e => .error e
      | .ok (g2, x) => .ok (infixRule g2 x y ty op)
  | .Ands X =>
    match writeAnds lookupType g X with
    | .error e => .error e
    | .ok (g1, ands) => .ok (g1, writeAssertlessRule "and" ands "")
  | .Choices X op =>
    match writeChoices lookupType g X with
    | .error e => .error e
    | .ok (g1, ands) => .ok (g1, choicesRule op ands)
  | .Ite _ _ _ => .error "*rules.Ite is not a valid rule type"
  | .Phi _ _ _ => .error "*rules.Phi is not a valid rule type"
  | .Other t => .error (t ++ " is not a valid rule type")

/-- The method `Generator.writeBranchRule`, applied to `t.(*rules.Infix)`: the type
assertion panics on every rule that is not an `Infix`. -/
def writeBranchRule (lookupType : String → String) (g : Generator) :
    Rule → Except String (Generator × String)
  | .Infix X Y _ op =>
    match unpackRule lookupType g Y with
    | .error e => .error e
    | .ok (g1, y) =>
      match unpackRule lookupType g1 X with
      | .error e => .error e
      | .ok (g2, x) => .ok (g2, "(" ++ op ++ " " ++ x ++ " " ++ y ++ ")")
  | _ => .error "interface conversion: rules.Rule is not *rules.Infix"

/-- The loops of `writeRule` over the branches `r.T` and `r.F` of an `Ite`. -/
def writeBranchRules (lookupType : String → String) (g : Generator) :
    List Rule → Except String (Generator × List String)
  | [] => .ok (g, [])
  | t :: rest =>
    match writeBranchRule lookupType g t with
    | .error e => .error e
    | .ok (g1, s) =>
      match writeBranchRules lookupType g1 rest with
      | .error e => .error e
      | .ok (g2, ss) => .ok (g2, s :: ss)

/-- The loop of `writeRule` over `r.X` of an `Ands`: an `Infix` is written by
`writeBranchRule`, every other rule by `writeRule`, the texts back to back. -/
def writeAnds (lookupType : String → String) (g : Generator) :
    List Rule → Except String (Generator × String)
  | [] => .ok (g, "")
  | x :: rest =>
    match (match x with
      | .Infix _ _ _ _ => writeBranchRule lookupType g x
      | _ => writeRule lookupType g x) with
    | .error e => .error e
    | .ok (g1, s) =>
      match writeAnds lookupType g1 rest with
      | .error e => .error e
      | .ok (g2, ands) => .ok (g2, s ++ ands)

/-- The loop of `writeRule` over `r.X` of a `Choices`, each entry an `Ands`. -/
def writeChoices (lookupType : String → String) (g : Generator) :
    List (List Rule) → Except String (Generator × String)
  | [] => .ok (g, "")
  | x :: rest =>
    match writeAnds lookupType g x with
    | .error e => .error e
    | .ok (g1, s) =>
      match writeChoices lookupType g1 rest with
      | .error e => .error e
      | .ok (g2, ands) => .ok (g2, writeAssertlessRule "and" s "" ++ ands)
end

/-- The loop of `Generator.generateRules` over one list of rules. -/
def writeRules (lookupType : String → String) (g : Generator) :
    List Rule → Except String (Generator × List String)
  | [] => .ok (g, [])
  | ru :: rest =>
    match writeRule lookupType g ru with
    | .error e => .error e
    | .ok (g1, s) =>
      match writeRules lookupType g1 rest with
      | .error e => .error e
      | .ok (g2, ss) => .ok (g2, s :: ss)

/-- The method `Generator.generateRules` on the raw rules `rawRules`. -/
def generateRules (lookupType : String → String) (g : Generator)
    (rawRules : List (List Rule)) : Except String (Generator × List String) :=
  writeRules lookupType g rawRules.flatten

/-- The method `Generator.SMT`. -/
def SMT (g : Generator) : String :=
  "(set-logic QF_NRA)" ++ strJoin g.inits "\n" ++ strJoin g.constants "\n" ++
    strJoin g.rules "\n" ++ strJoin g.asserts "\n"

/-! ## Instruction lowering (`generator.go`) -/

/-- The method `Generator.compareRuleOp`. -/
def compareRuleOp (op : String) : String :=
  if op = "false" then "false"
  else if op = "oeq" then "="
  else if op = "eq" then "="
  else if op = "oge" then ">="
  else if op = "ogt" then ">"
  else if op = "ole" then "<="
  else if op = "olt" then "<"
  else if op = "one" then "!="
  else if op = "ne" then "!="
  else if op = "true" then "true"
  else if op = "ueq" then "="
  else if op = "uge" then ">="
  else if op = "ugt" then ">"
  else if op = "ule" then "<="
  else if op = "ult" then "<"
  else if op = "une" then "!="
  else op

/-- The method `Generator.createCompareRule`; `none` is the nil `*rules.Wrap`. -/
def createCompareRule (op : String) : String × Option Rule :=
  let op1 := compareRuleOp op
  if op1 = "false" then (op1, some (.Wrap "False"))
  else if op1 = "true" then (op1, some (.Wrap "True"))
  else (op1, none)

/-- The method `Generator.isBuiltIn`. -/
def isBuiltIn (c : String) : Bool := c = "@advance" || c = "@stay"

/-- The instructions of a block, by the cases of the type switch of
`parseInstruct`, with the operands as the text `Ident()` prints; `Other` stands
for every instruction type without a case and carries the name `%T` prints. -/
inductive Inst where
  | InstAlloca (id : String)
  | InstLoad (id src : String)
  | InstStore (src dst : String)
  | InstFAdd (id x y : String)
  | InstFSub (id x y : String)
  | InstFMul (id x y : String)
  | InstFDiv (id x y : String)
  | InstFRem (id x y : String)
  | InstFCmp (id pred x y : String)
  | InstICmp (id pred x y : String)
  | InstCall (id callee : String) (args meta : List String)
  | InstXor (id x y : String)
  | InstAnd (id x y : String)
  | InstOr (id x y : String)
  | InstBitCast (id src : String)
  | Other (typeName : String)
deriving DecidableEq, Repr

/-- The method `Generator.parseBuiltIn` on a call with the arguments `args`. A call
without arguments returns the empty rule list at once. The body that follows,
for a call with arguments, works on the variable table of package `variables`;
it is the parameter `advance`, and `σ` is the state of the lowering. -/
def parseBuiltIn {σ : Type} (advance : σ → List String → Bool → Except String (σ × List Rule))
    (st : σ) (args : List String) (complex : Bool) : Except String (σ × List Rule) :=
  if args.length = 0 then .ok (st, [])
  else advance st args complex

/-- The method `Generator.parseInstruct` on the instructions of a block: `st` is
the state of the lowering and `ru` the rules collected so far. The cases that
do nothing (`alloca`, `frem`, `bitcast`), the call of a built-in without
metadata and the panic of the default case are as in the source; the bodies of
the other cases work on the variable table and the call stack and are the
parameter `handle`. -/
def parseInstruct {σ : Type} (handle : σ × List Rule → Inst → Except String (σ × List Rule))
    (advance : σ → List String → Bool → Except String (σ × List Rule)) :
    σ × List Rule → List Inst → Except String (σ × List Rule)
  | s, [] => .ok s
  | s, inst :: rest =>
    match inst with
    | .InstAlloca _ => parseInstruct handle advance s rest
    | .InstFRem _ _ _ => parseInstruct handle advance s rest
    | .InstBitCast _ _ => parseInstruct handle advance s rest
    | .Other t => .error ("unrecognized instruction: " ++ t)
    | .InstCall _ callee args meta =>
      if isBuiltIn callee ∧ meta.length = 0 then
        match parseBuiltIn advance s.1 args false with
        | .error e => .error e
        | .ok (st1, r) => parseInstruct handle advance (st1, s.2 ++ r) rest
      else
        match handle s inst with
        | .error e => .error e
        | .ok s1 => parseInstruct handle advance s1 rest
    | _ =>
      match handle s inst with
      | .error e => .error e
      | .ok s1 => parseInstruct handle advance s1 rest

/-- The declaration line `declareVar` writes for an identifier and its sort. -/
def declaration (id t : String) : String := "(declare-fun " ++ id ++ " () " ++ t ++ ")"

/-- An initialisation rule `id = val` of sort `t`, as `createRule` builds it: an
`Infix` with operator `=` over two plain operands. -/
def initRule (d : String × String × String) : Rule :=
  .Infix (.Wrap d.1) (.Wrap d.2.2) d.2.1 "="

/-- The marker `0x3DA3CA8CB153A753` of an unknown or uncertain value. -/
abbrev unknownValue : String := "0x3DA3CA8CB153A753"

/-- An `Infix` over two plain operands, given as operator, left and right text. -/
def plainInfix (d : String × String × String) : Rule :=
  .Infix (.Wrap d.2.1) (.Wrap d.2.2) "" d.1

/-- The text `(op x y)` of an `Infix` over two plain operands. -/
def plainText (d : String × String × String) : String :=
  "(" ++ d.1 ++ " " ++ d.2.1 ++ " " ++ d.2.2 ++ ")"

/-- Whether an instruction is not an `frem`. -/
def notFRem : Inst → Bool
  | .InstFRem _ _ _ => false
  | _ => true

/-! ## Helpers of package `variables`, `forks` and `util` for the joins -/

/-- Map read `g.variables.SSA[id]`: the zero value for an absent key. -/
def ssaOf (vd : VarData) (id : String) : Int := (vd.SSA.lookup id).getD 0

/-- Map write `SSA[id] = n`. -/
def setSSA : List (String × Int) → String → Int → List (String × Int)
  | [], id, n => [(id, n)]
  | (k, m) :: rest, id, n => if k = id then (k, n) :: rest else (k, m) :: setSSA rest id n

/-- Modelled from the spec: `VarData.AdvanceSSA` is not among the sources; "`advance`
returns the next unused state index and updates the current map": index 0 for a
base without entry, the successor of the current index otherwise, and the
identifier `base_N` of the new state. -/
def AdvanceSSA (vd : VarData) (id : String) : VarData × String :=
  match vd.SSA.lookup id with
  | none => ({ vd with SSA := setSSA vd.SSA id 0 }, id ++ "_" ++ toString (0 : Int))
  | some n => ({ vd with SSA := setSSA vd.SSA id (n + 1) }, id ++ "_" ++ toString (n + 1))

/-- Modelled from the spec: `VarData.GetSSA` is not among the sources; the current
state of a base, "rendered `base_N`". -/
def GetSSA (vd : VarData) (id : String) : String := id ++ "_" ++ toString (ssaOf vd id)

/-- Modelled from the spec: `VarData.GetVarBase` is not among the sources; it reads
an identifier `base_N` back into the pair of its base and its state index,
splitting at the last underscore. -/
def GetVarBase (id : String) : String × Int :=
  let raw := splitUnderscore id
  (strJoin raw.dropLast "_", (Atoi (raw.getLastD "")).getD 0)

/-- Modelled from the spec: `VarData.IsTemp` is not among the sources; "identifiers
whose base starts with `%` are temporaries". -/
def IsTemp (id : String) : Bool := id.data.head? = some '%'

/-- Modelled from the spec: `Choice.GetEnd` is not among the sources; the "terminal
state" of the base in the branch, the last of the values. -/
def Choice.GetEnd (c : Choice) : Int := c.Values.getLastD 0

/-- Modelled from the spec: `Choice.AddChoiceValue` is not among the sources; the
state indices of consecutive writes in one branch "accumulate into `values`". -/
def Choice.AddChoiceValue (c : Choice) (n : Int) : Choice := { c with Values := c.Values ++ [n] }

/-- Modelled from the spec: `util.Intersection` is not among the sources; with the
flag set it yields the entries of the first list that are not in the second
(the "other" branches), without it the entries that are in both. -/
def Intersection (l1 l2 : List String) (complement : Bool) : List String :=
  if complement then l1.filter (fun x => !(l2.contains x)) else l1.filter (fun x => l2.contains x)

/-! ## Forks and joins (`generator.go`) -/

/-- The method `Generator.newFork`; `inPhi` is the flag `g.inPhiState.Check()`. -/
def newFork (inPhi : Bool) (g : Generator) : Generator :=
  if g.forks.length = 0 then { g with forks := g.forks ++ [[]] }
  else if inPhi then { g with forks := g.forks.dropLast ++ [[]] }
  else { g with forks := g.forks ++ [[]] }

/-- The method `Generator.getCurrentFork`: the last fork; the index panics when there
is none. -/
def getCurrentFork (g : Generator) : Except String Fork :=
  match g.forks.getLast? with
  | some f => .ok f
  | none => .error "runtime error: index out of range [-1]"

/-- The method `Generator.newChoice`. -/
def newChoice (base : String) (n : Int) (b : String) : Choice := ⟨base, b, [n]⟩

/-- Map write `fork[base] = cs`. -/
def setFork : Fork → String → List Choice → Fork
  | [], base, cs => [(base, cs)]
  | (k, v) :: rest, base, cs =>
    if k = base then (k, cs) :: rest else (k, v) :: setFork rest base cs

/-- The second loop of `Generator.buildForkChoice`, over the identifiers
`stateChanges` that `allStateChangesInRule` collected from the rules of the
branch `b`; `seenVar` is the list of the bases the map `seenVar` marks. -/
def buildForkLoop (b : String) : List String → Fork → List String → Fork
  | [], fork, _ => fork
  | s :: rest, fork, seenVar =>
    let base := (GetVarBase s).1
    let n := (GetVarBase s).2
    match fork.lookup base with
    | some cs =>
      match cs.getLast? with
      | some c =>
        if seenVar.contains base ∧ c.Branch = b then
          buildForkLoop b rest (setFork fork base (cs.dropLast ++ [c.AddChoiceValue n])) seenVar
        else
          buildForkLoop b rest (setFork fork base (cs ++ [newChoice base n b])) (base :: seenVar)
      | none =>
        buildForkLoop b rest (setFork fork base (cs ++ [newChoice base n b])) (base :: seenVar)
    | none => buildForkLoop b rest (setFork fork base [newChoice base n b]) (base :: seenVar)

/-- The method `Generator.buildForkChoice` on the identifiers `stateChanges` collected
from the rules of the branch `b`: the current fork is rebuilt and stored back. -/
def buildForkChoice (g : Generator) (stateChanges : List String) (b : String) :
    Except String Generator :=
  match getCurrentFork g with
  | .error e => .error e
  | .ok fork => .ok { g with forks := g.forks.dropLast ++ [buildForkLoop b stateChanges fork []] }

/-- The method `Generator.capRule`; the type lookup `variables.LookupType(k, nil)` is
the parameter `lookupType`. The provenance edges it adds to `g.Results` are not
part of the embedding. -/
def capRule (lookupType : String → String) (k : String) (nums : List Int) (id : String) :
    List Rule :=
  nums.map (fun v =>
    if lookupType k = "Bool" then .Infix (.Wrap id) (.Wrap (k ++ "_" ++ toString v)) "Bool" "="
    else .Infix (.Wrap id) (.Wrap (k ++ "_" ++ toString v)) "Real" "=")

/-- The loop of `Generator.capCond` over the entries of the fork, with the map `phis`
as an association list. -/
def capCondLoop (lookupType : String → String) (b : String) :
    Fork → Generator → List (String × Int) → Generator × List (String × Int) × List Rule
  | [], g, phis => (g, phis, [])
  | (k, v) :: rest, g, phis =>
    let s : Generator × List (String × Int) × String :=
      match phis.lookup k with
      | none =>
        let a := AdvanceSSA g.vars k
        let g1 := declareVar { g with vars := a.1 } a.2 (lookupType k)
        let i := (GetVarBase a.2).2
        (addVarToRound g1 k i, phis ++ [(k, i)], a.2)
      | some phi => (g, phis, k ++ "_" ++ toString phi)
    let rs := (v.filter (fun c => c.Branch = b)).flatMap
      (fun c => capRule lookupType k [c.GetEnd] s.2.2)
    let r := capCondLoop lookupType b rest s.1 s.2.1
    (r.1, r.2.1, rs ++ r.2.2)

/-- The method `Generator.capCond`. -/
def capCond (lookupType : String → String) (g : Generator) (b : String)
    (phis : List (String × Int)) :
    Except String (Generator × List (String × Int) × List Rule) :=
  match getCurrentFork g with
  | .error e => .error e
  | .ok fork => .ok (capCondLoop lookupType b fork g phis)

/-- Map update of `ends` in `capCondSyncRules`: `ends[notB] = e` for a new key,
`ends[notB] = append(ends[notB], e...)` otherwise. -/
def addEnds : List (String × List Rule) → String → List Rule → List (String × List Rule)
  | [], notB, e => [(notB, e)]
  | (k, v) :: rest, notB, e =>
    if k = notB then (k, v ++ e) :: rest else (k, v) :: addEnds rest notB e

/-- The rules `e` that `capCondSyncRules` collects for the branch `b`: for every base
with exactly one choice, made in `b`, the equality of its current state with its
start state. The start state `variables.GetStartState(k)` is the parameter
`getStartState`; the writes to the phi stack are not part of the embedding. -/
def syncEnds (lookupType : String → String) (getStartState : String → Int) (g : Generator)
    (fork : Fork) (b : String) : List Rule :=
  fork.flatMap (fun kc =>
    match kc.2 with
    | [c] =>
      if c.Branch = b then capRule lookupType kc.1 [getStartState kc.1] (GetSSA g.vars kc.1)
      else []
    | _ => [])

/-- The loop of `Generator.capCondSyncRules` over the branches `bs`, all of them being
`branches`. -/
def capCondSyncLoop (lookupType : String → String) (getStartState : String → Int)
    (g : Generator) (branches : List String) :
    List String → List (String × List Rule) → Except String (List (String × List Rule))
  | [], ends => .ok ends
  | b :: rest, ends =>
    match getCurrentFork g with
    | .error e => .error e
    | .ok fork =>
      capCondSyncLoop lookupType getStartState g branches rest
        ((Intersection branches [b] true).foldl
          (fun m notB => addEnds m notB (syncEnds lookupType getStartState g fork b)) ends)

/-- The method `Generator.capCondSyncRules`. -/
def capCondSyncRules (lookupType : String → String) (getStartState : String → Int)
    (g : Generator) (branches : List String) : Except String (List (String × List Rule)) :=
  capCondSyncLoop lookupType getStartState g branches branches []

/-- Map read `syncs[b]`: the nil slice for an absent key. -/
def endsOf (m : List (String × List Rule)) (b : String) : List Rule := (m.lookup b).getD []

/-- The join of `Generator.parseTermCon`, from `capCond("true", ..)` to the branch
lists of the `Ite`: the generator afterwards, `tEnds` and `fEnds`. -/
def parseTermConEnds (lookupType : String → String) (getStartState : String → Int)
    (g : Generator) : Except String (Generator × List Rule × List Rule) :=
  match capCond lookupType g "true" [] with
  | .error e => .error e
  | .ok (g1, phis, tEnds) =>
    match capCond lookupType g1 "false" phis with
    | .error e => .error e
    | .ok (g2, _, fEnds) =>
      match capCondSyncRules lookupType getStartState g2 ["true", "false"] with
      | .error e => .error e
      | .ok syncs => .ok (g2, tEnds ++ endsOf syncs "true", fEnds ++ endsOf syncs "false")

/-- Map write `Ref[refname] = r`. -/
def setRef : List (String × Rule) → String → Rule → List (String × Rule)
  | [], refname, r => [(refname, r)]
  | (k, v) :: rest, refname, r =>
    if k = refname then (k, r) :: rest else (k, v) :: setRef rest refname r

mutual
/-- The method `Generator.tempToIdent`. The map `variables.Ref` of the temporaries
bound to a rule is threaded next to the generator, because `fetchIdent` rewrites
a rule found there in place; the first argument bounds the depth of the mutual
recursion through that map. -/
def tempToIdent : Nat → Generator × List (String × Rule) → Rule →
    Except String ((Generator × List (String × Rule)) × Rule)
  | 0, _, _ => .error "recursion bound reached"
  | fuel + 1, st, .Wrap v => fetchIdent fuel st v (.Wrap v)
  | fuel + 1, st, .Infix X Y ty op =>
    match tempToIdent fuel st X with
    | .error e => .error e
    | .ok (st1, x) =>
      match tempToIdent fuel st1 Y with
      | .error e => .error e
      | .ok (st2, y) => .ok (st2, .Infix x y ty op)
  | _ + 1, st, r => .ok (st, r)

/-- The method `Generator.fetchIdent`. The writes to the phi stack (`NewPhi`,
`StoreLastState`) are not part of the embedding. -/
def fetchIdent : Nat → Generator × List (String × Rule) → String → Rule →
    Except String ((Generator × List (String × Rule)) × Rule)
  | fuel, st, id, r =>
    if IsTemp id then
      match st.1.vars.Loads.lookup (st.1.currentFunction ++ "-" ++ id) with
      | some v =>
        let n := ssaOf st.1.vars id
        let g1 := addVarToRound st.1 id (n + 1)
        let a := AdvanceSSA g1.vars v
        .ok (({ g1 with vars := a.1 }, st.2), .Wrap a.2)
      | none =>
        match st.2.lookup (st.1.currentFunction ++ "-" ++ id) with
        | some (.Infix X Y ty op) =>
          match fuel with
          | 0 => .error "recursion bound reached"
          | f + 1 =>
            match tempToIdent f st X with
            | .error e => .error e
            | .ok (st1, x) =>
              match tempToIdent f st1 Y with
              | .error e => .error e
              | .ok (st2, y) =>
                .ok ((st2.1, setRef st2.2 (st.1.currentFunction ++ "-" ++ id)
                  (.Infix x y ty op)), .Infix x y ty op)
        | some _ => .ok (st, r)
        | none => .error ("smt generation error, value for " ++ id ++ " not found")
    else .ok (st, r)
end

/-! ## Parallel runs (`generator.go`) -/

/-- The exchange `a[k], a[i] = a[i], a[k]` of two entries of a slice; both indices
are below the length wherever `parallelPermutations` exchanges. -/
def swapAt (a : List String) (k i : Nat) : List String :=
  (a.set k (a.getD i "")).set i (a.getD k "")

/-- The closure `rc` of `parallelPermutations`, with the slice `a` it exchanges in
place and the list `permuts` it appends to as explicit state; `a` is the slice
`p` itself, so the bound `len(p)` of the loop is the length of `a`. The first
argument bounds the depth of the recursion. -/
def rc : Nat → List String → Nat → List (List String) → List String × List (List String)
  | 0, a, _, permuts => (a, permuts)
  | fuel + 1, a, k, permuts =>
    if k = a.length then (a, permuts ++ [a])
    else
      (List.range' k (a.length - k)).foldl
        (fun (s : List String × List (List String)) i =>
          let s1 := rc fuel (swapAt s.1 k i) (k + 1) s.2
          (swapAt s1.1 k i, s1.2))
        (a, permuts)

/-- The method `Generator.parallelPermutations`: the recursion is at most
`len(p) + 1` deep. -/
def parallelPermutations (p : List String) : List (List String) :=
  (rc (p.length + 1) p 0 []).2

/-! ## The shared round timeline, in the words of the spec -/

/-- The latest state of `base` among the records `recs` of the round log: the
identifier `base_n` of its last record, if it has one. -/
def latestState (base : String) (recs : List (List String)) : Option String :=
  ((recs.filter (fun vr => vr.head? = some base)).getLast?).map (fun vr => strJoin vr "_")

/-- The pair due after the records `recs`: when the last record is one of `lbase`
or `rbase` and both bases have a record among `recs`, the latest state of
`lbase` paired with the latest state of `rbase`. -/
def pairAfter (lbase rbase : String) (recs : List (List String)) : Option (String × String) :=
  match recs.getLast? with
  | none => none
  | some vr =>
    if vr.head? = some lbase ∨ vr.head? = some rbase then
      match latestState lbase recs, latestState rbase recs with
      | some l, some r => some (l, r)
      | _, _ => none
    else none

/-- The pairs of one round whose records are `rs`, the records of the earlier
rounds being `pre`: one candidate per record, walked in order. -/
def timelineRound (lbase rbase : String) (pre rs : List (List String)) :
    List (String × String) :=
  rs.inits.tail.filterMap (fun ini => pairAfter lbase rbase (pre ++ ini))

/-- The pairs stored under round `i` when two distinct variables are paired along
the shared round timeline of the log. -/
def timelinePairs (log : List (List (List String))) (lbase rbase : String) (i : Nat) :
    List (String × String) :=
  timelineRound lbase rbase (log.take i).flatten (log.getD i [])

/-- The string `s` that `termCombos` carries for a base stands for the latest state
`o` of the spec: empty when there is none yet. -/
def carries (s : String) (o : Option String) : Prop :=
  (o = none ∧ s = "") ∨ (o = some s ∧ s ≠ "")

/-! ## The counting filters, in the words of the spec -/

/-- The pair `[a, b]` of the product, as the slice the assertion compiler handles. -/
def pairSlice (p : String × String) : List String := [p.1, p.2]

/-- The on-clause of a pair of the product: the operator applied to the pair. -/
def onTerm (op : String) (p : String × String) : String :=
  "(" ++ op ++ " " ++ p.1 ++ " " ++ p.2 ++ ")"

/-- The off-clause of a pair of the product: the negation of the operator applied
to the pair, `(not (= a b))` for `=` and the negated operator otherwise. -/
def offTerm (op : String) (p : String × String) : String :=
  if op = "=" then "(not (= " ++ p.1 ++ " " ++ p.2 ++ "))"
  else "(" ++ OP_NEGATE op ++ " " ++ p.1 ++ " " ++ p.2 ++ ")"

/-- The term of the filter `nmt` for the subset `S` of the product `P`: the
disjunction of the on-clauses of `S` conjoined with the conjunction of the
off-clauses of `P` minus `S`, a group of exactly one clause being the clause
itself. -/
def nmtTerm (op : String) (P S : List (String × String)) : String :=
  "(and " ++ groupOrSingle "or" (S.map (onTerm op)) ++ " " ++
    groupOrSingle "and" ((P.filter (fun p => !(S.contains p))).map (offTerm op)) ++ ")"

/-- The term of the filter `nft` for the subset `S` of the product: the conjunction
of the on-clauses of `S`, a single clause being the clause itself. -/
def nftTerm (op : String) (S : List (String × String)) : String :=
  groupOrSingle "and" (S.map (onTerm op))

/-- The per-state terms of the comparison `b op c` of a variable against an
integer literal in round `i`: one term `(op b_n c)` per state of `b` recorded in
that round, in the order of the round tracker. -/
def comparisonTerms (g : Generator) (b op : String) (c : Int) (i : Nat) : List String :=
  ((lookupBase g b).filter (fun e => e.round = i)).map
    (fun e => "(" ++ smtlibOperators op ++ " " ++ (b ++ "_" ++ toString e.num) ++ " " ++
      toString c ++ ")")

/-- The statement `when l then r` (operator `then`, no temporal modifier or filter). -/
def whenThen (l r : Expression) : AssertionStatement :=
  { Constraint := ⟨l, "then", r⟩ }

/-! ## The order of the permutations, in the words of the recursion -/

/-- The permutations that fix the first `k` entries of `a`, `d` entries being left to
place: `a` itself when none is left, and otherwise, for `i = k, k+1, ..` in turn,
the permutations of `a` with the entries `k` and `i` exchanged that fix the
first `k + 1` entries. -/
def swapOrder : Nat → List String → Nat → List (List String)
  | 0, a, _ => [a]
  | d + 1, a, k => (List.range' k (d + 1)).flatMap (fun i => swapOrder d (swapAt a k i) (k + 1))

/-! ## The join of a conditional, in the words of the spec -/

/-- The text of a plain operand; empty for every other rule. -/
def wrapValue : Rule → String
  | .Wrap v => v
  | _ => ""

/-- The left and the right side of an equality between two plain operands. -/
def equalitySides : Rule → String × String
  | .Infix X Y _ _ => (wrapValue X, wrapValue Y)
  | _ => ("", "")

/-- The phi state of a base at a join: the state that `AdvanceSSA` allocates for it
in the variable table `vd`. -/
def phiState (vd : VarData) (k : String) : String := (AdvanceSSA vd k).2

/-- The fork that `buildForkChoice` builds from an empty fork for the state changes
`ct` of the true branch and then `cf` of the false branch. -/
def branchFork (ct cf : List String) : Fork :=
  buildForkLoop "false" cf (buildForkLoop "true" ct [] []) []

/-- A base of a fork is written in the branch `b` only: its one choice was made in
`b`. -/
def onlyIn (b : String) (kc : String × List Choice) : Bool :=
  match kc.2 with
  | [c] => c.Branch = b
  | _ => false

/-- The choices of a base in a fork built from a true branch and then a false branch:
one choice made in the true branch, one made in the false branch, or one of
each, the true one first. -/
def joinShape (kc : String × List Choice) : Bool :=
  match kc.2 with
  | [c] => c.Branch = "true" || c.Branch = "false"
  | [c, d] => c.Branch = "true" && d.Branch = "false"
  | _ => false

/-- The branch lists of the `Ite` at a join over the fork `fork`, in the words of the
spec: for every base an equality of its phi state with its end state in the
branch, where the branch wrote it, followed by an equality of its phi state with
its start state for every base that only the other branch wrote. -/
def joinEnds (lookupType : String → String) (getStartState : String → Int) (vd : VarData)
    (fork : Fork) (b other : String) : List Rule :=
  fork.flatMap (fun kc => (kc.2.filter (fun c => c.Branch = b)).flatMap
      (fun c => capRule lookupType kc.1 [c.GetEnd] (phiState vd kc.1))) ++
    fork.flatMap (fun kc =>
      if onlyIn other kc then capRule lookupType kc.1 [getStartState kc.1] (phiState vd kc.1)
      else [])

/-! ## Solver driver and reweighting (`execute.go`) -/

/-- Go `strings.Index(s, "\n")` on the characters of `s`: the position of the first
newline, `-1` when there is none. -/
def indexNewline (cs : List Char) : Int :=
  if '\n' ∈ cs then (cs.indexOf '\n' : Int) else -1

/-- The loop of `cleanExtraOutputs` on the characters of `results`; the bytes that
the source compares and counts are those of `(` and of the newline, which are
single characters. `fuel` bounds the number of times the body runs: `none` is
the outcome when the bound is reached with the loop still running. The slice
`results[0:1]` of an empty string panics. -/
def cleanLoop : Nat → List Char → Except String (Option (List Char))
  | 0, cs =>
    if cs.length < 1 then .error "runtime error: slice bounds out of range [:1] with length 0"
    else if cs.take 1 = ['('] then .ok (some cs)
    else .ok none
  | fuel + 1, cs =>
    if cs.length < 1 then .error "runtime error: slice bounds out of range [:1] with length 0"
    else if cs.take 1 = ['('] then .ok (some cs)
    else cleanLoop fuel (cs.drop (indexNewline cs + 1).toNat)

/-- The function `cleanExtraOutputs`, its loop bounded by `fuel`. -/
def cleanExtraOutputs (fuel : Nat) (results : String) : Except String (Option String) :=
  (cleanLoop fuel results.data).map (fun r => r.map String.mk)

/-- Modelled from the spec: the trace types of package `execute` are not among the
sources; a `Scenario` is "one of" `FloatTrace`, `IntTrace`, `BoolTrace`, each with
`results` and `weights` keyed by state index (Go maps, the keys pairwise
distinct). `F` stands for `float64`. -/
inductive Scenario (F : Type) where
  | FloatTrace (results : List (Int × F)) (weights : List (Int × F))
  | IntTrace (results : List (Int × Int)) (weights : List (Int × F))
  | BoolTrace (results : List (Int × Bool)) (weights : List (Int × F))
deriving DecidableEq, Repr

/-- Modelled from the spec: `AddWeight` is not among the sources; it "sets the weight"
of the state `idx`, the map write `weights[idx] = w`. -/
def AddWeight {F : Type} : List (Int × F) → Int → F → List (Int × F)
  | [], idx, w => [(idx, w)]
  | (k, v) :: rest, idx, w =>
    if k = idx then (k, w) :: rest else (k, v) :: AddWeight rest idx w

/-- The parameters of `distuv.Normal`. -/
structure Normal (F : Type) where
  Mu : F
  Sigma : F
deriving DecidableEq, Repr

/-- The fields of `ModelChecker` that the reweighting reads. -/
structure ModelChecker (F : Type) where
  Uncertains : List (String × List F) := []
deriving DecidableEq, Repr

/-- The method `ModelChecker.stateAssessment`; the density `dist.Prob` is the
parameter `prob`, the conversion `float64(state)` the parameter `ofInt`. The
result `none` is the nil `Scenario` that the variable `weighted` holds when no
case assigns it. -/
def stateAssessment {F : Type} (prob : Normal F → F → F) (ofInt : Int → F) (dist : Normal F) :
    Scenario F → Option (Scenario F)
  | .FloatTrace results _ =>
    some (.FloatTrace results
      (results.foldl (fun w s => AddWeight w s.1 (prob dist s.2)) []))
  | .IntTrace results _ =>
    some (.IntTrace results
      (results.foldl (fun w s => AddWeight w s.1 (prob dist (ofInt s.2))) []))
  | .BoolTrace _ _ => none

/-- Map write `results[k] = s`. -/
def setResult {F : Type} :
    List (String × Option (Scenario F)) → String → Option (Scenario F) →
      List (String × Option (Scenario F))
  | [], k, s => [(k, s)]
  | (j, v) :: rest, k, s => if j = k then (j, s) :: rest else (j, v) :: setResult rest k s

/-- The loop of `ModelChecker.Filter` over the entries of `Uncertains`; an entry of
`results` that is absent or nil reads as nil. The index expressions
`uncertain[0]` and `uncertain[1]` panic on a list that is too short. -/
def filterLoop {F : Type} (prob : Normal F → F → F) (ofInt : Int → F) :
    List (String × List F) → List (String × Option (Scenario F)) →
      Except String (List (String × Option (Scenario F)))
  | [], results => .ok results
  | (k, uncertain) :: rest, results =>
    match results.lookup k with
    | some (some s) =>
      match uncertain with
      | mu :: sigma :: _ =>
        filterLoop prob ofInt rest
          (setResult results k (stateAssessment prob ofInt ⟨mu, sigma⟩ s))
      | [_] => .error "runtime error: index out of range [1] with length 1"
      | [] => .error "runtime error: index out of range [0] with length 0"
    | _ => filterLoop prob ofInt rest results

/-- The method `ModelChecker.Filter`. -/
def ModelChecker.Filter {F : Type} (prob : Normal F → F → F) (ofInt : Int → F)
    (mc : ModelChecker F) (results : List (String × Option (Scenario F))) :
    Except String (List (String × Option (Scenario F))) :=
  filterLoop prob ofInt mc.Uncertains results

/-- The state indices of the results of a trace. -/
def Scenario.resultKeys {F : Type} : Scenario F → List Int
  | .FloatTrace results _ => results.map Prod.fst
  | .IntTrace results _ => results.map Prod.fst
  | .BoolTrace results _ => results.map Prod.fst

/-- The state indices of the weights of a trace. -/
def Scenario.weightKeys {F : Type} : Scenario F → List Int
  | .FloatTrace _ weights => weights.map Prod.fst
  | .IntTrace _ weights => weights.map Prod.fst
  | .BoolTrace _ weights => weights.map Prod.fst

/-- A trace without its weights: its kind and its results. -/
def Scenario.dropWeights {F : Type} : Scenario F → Scenario F
  | .FloatTrace results _ => .FloatTrace results []
  | .IntTrace results _ => .IntTrace results []
  | .BoolTrace results _ => .BoolTrace results []

/-- A trace is a `BoolTrace`. -/
def Scenario.isBool {F : Type} : Scenario F → Bool
  | .BoolTrace _ _ => true
  | _ => false

/-! ## The join of a parallel run (`generator.go`) -/

/-- The loop of `Generator.capParallel` over the entries of the fork. The provenance
edges it adds to `g.Results` and its writes to the phi stack are not part of the
embedding. -/
def capParallelLoop : Fork → Generator → Generator × List Rule
  | [], g => (g, [])
  | (k, v) :: rest, g =>
    let a := AdvanceSSA g.vars k
    let g1 := addVarToRound { g with vars := a.1 } k (ssaOf a.1 k)
    let r := capParallelLoop rest g1
    (r.1, .Phi k a.2 (v.map Choice.GetEnd) :: r.2)

/-- The method `Generator.capParallel`. -/
def capParallel (g : Generator) : Except String (Generator × List Rule) :=
  match getCurrentFork g with
  | .error e => .error e
  | .ok fork => .ok (capParallelLoop fork g)

/-! ## The round tracker as a state machine -/

/-- A call of the round tracker: `newRound()` or `addVarToRound(base, num)`. -/
inductive TrackerCall where
  | round
  | record (base : String) (num : Int)
deriving DecidableEq, Repr

/-- The generator after one call of the round tracker. -/
def TrackerCall.run (g : Generator) : TrackerCall → Generator
  | .round => newRound g
  | .record base num => addVarToRound g base num

/-- The generator after a sequence of calls of the round tracker. -/
def runTracker (g : Generator) (calls : List TrackerCall) : Generator :=
  calls.foldl TrackerCall.run g

/-- The number of `newRound()` calls in a sequence of calls. -/
def newRoundCalls (calls : List TrackerCall) : Nat :=
  (calls.filter (fun c => c = .round)).length

/-- A state is recorded before the first `newRound()`: the sequence of calls starts
with a record. -/
def recordsFirst : List TrackerCall → Bool
  | .record _ _ :: _ => true
  | _ => false

/-- All entries of the reverse index `RVarLookup`, each with its base. -/
def lookupEntries (g : Generator) : List (String × VarRound) :=
  g.RVarLookup.flatMap (fun be => be.2.map (fun e => (be.1, e)))

/-- The record at position `p` of round `r` of the round log, if there is one. -/
def recordAt (g : Generator) (r p : Nat) : Option (List String) :=
  (g.RoundVars.getD r [])[p]?

/-! ## Example inputs -/

/-- A round log built by the tracker for one base: state 0 recorded in round 0,
then a new round, then state 1 recorded in round 1; `Rounds` is 1. -/
def logTwoRounds (base : String) : Generator :=
  addVarToRound (newRound (addVarToRound { Rounds := 1 } base 0)) base 1

/-- The statement `left op right` without temporal modifier or filter. -/
def plainStatement (left : Expression) (op : String) (right : Expression) (assume : Bool) :
    AssertionStatement :=
  { Constraint := ⟨left, op, right⟩, Assume := assume }

/-- A round log built by the tracker for two bases: state 0 of both recorded in
round 0, then a new round, then state 1 of `lbase` recorded in round 1;
`Rounds` is 1. -/
def logTwoVars (lbase rbase : String) : Generator :=
  addVarToRound (newRound (addVarToRound (addVarToRound { Rounds := 1 } lbase 0) rbase 0))
    lbase 1

/-- A terminal, non-constant variable with the given per-round states. -/
def terminalVar (base : String) (states : RoundMap) : States :=
  { Base := base, Terminal := true, States := states, Constant := false }

/-- One indexed state of a base, as the `IndexExpression` case builds it: tagged
constant, the state stored under the round it was recorded in. -/
def indexedState (base : String) (round : Nat) (term : String) : States :=
  { Base := base, States := [(round, [term])], Constant := true }

/-- A derived operand over a base, as `mergeByRound` returns it. -/
def derivedStates (base : String) (states : RoundMap) : States :=
  { Base := base, States := states }

/-- A round log built by the tracker for two bases that are both written in every
round: state 0 of both in round 0, then a new round, then state 1 of both in
round 1; `Rounds` is 1. -/
def logBothTwoRounds (lbase rbase : String) : Generator :=
  addVarToRound (addVarToRound (newRound
    (addVarToRound (addVarToRound { Rounds := 1 } lbase 0) rbase 0)) lbase 1) rbase 1

/-- A generator after one initialisation and one property assertion were emitted. -/
def smallOutput : Generator :=
  { inits := ["(declare-fun x_0 () Real)"], rules := ["(assert (= x_0 2.0))"],
    asserts := ["(assert (> x_0 0))"] }

/-- A handler that lowers every instruction to no rule and leaves the state as it
is, for a lowering state without content. -/
def skipHandler (s : Unit × List Rule) (_ : Inst) : Except String (Unit × List Rule) := .ok s

/-- A body of `parseBuiltIn` for calls with arguments that records state 1 of the
base `c_state` in the round log and returns no rule. -/
def recordAdvance (g : Generator) (_ : List String) (_ : Bool) :
    Except String (Generator × List Rule) :=
  .ok (addVarToRound g "c_state" 1, [])

/-- A handler over the round log that lowers every instruction to no rule. -/
def skipLog (s : Generator × List Rule) (_ : Inst) : Except String (Generator × List Rule) :=
  .ok s

/-- A variable table with state 0 of `a_b_c`, recorded in round 0 of the round log,
and the temporary `%1` of the run block loading `a_b_c`. -/
def loadedTemp : Generator :=
  addVarToRound
    { vars := { SSA := [("a_b_c", 0)], Loads := [("@__run-%1", "a_b_c")] } } "a_b_c" 0

/-- A generator at the join of a conditional whose true branch wrote `x` twice and `y`
once and whose false branch wrote `y` and `z`. -/
def joinExample : Generator :=
  { forks := [branchFork ["x_1", "y_1", "x_2"] ["y_2", "z_1"]],
    vars := { SSA := [("x", 2), ("y", 2), ("z", 1)] } }

/-- A stand-in for the density `dist.Prob` in the examples, over the integers in
place of `float64`: the distance of the value from the mean, scaled by sigma. -/
def exampleDensity (dist : Normal Int) (x : Int) : Int := dist.Sigma * (x - dist.Mu)

/-- A model checker with the bases `rate` and `flag` declared uncertain. -/
def uncertainModel : ModelChecker Int :=
  { Uncertains := [("rate", [2, 3]), ("flag", [0, 1])] }

/-- The results of a solver run: a float trace of `rate`, an integer trace of `count`
and a Boolean trace of `flag`. -/
def solvedResults : List (String × Option (Scenario Int)) :=
  [("rate", some (.FloatTrace [(0, 5), (1, 7)] [])),
   ("count", some (.IntTrace [(0, 1)] [])),
   ("flag", some (.BoolTrace [(0, true), (1, false)] []))]

/-- A fork with the bases `x` and `y`, each written once in the true branch, its
entries enumerated `x` first. -/
def forkXY : Fork :=
  [("x", [⟨"x", "true", [1]⟩]), ("y", [⟨"y", "true", [1]⟩])]

/-- The fork `forkXY`, its entries enumerated `y` first. -/
def forkYX : Fork :=
  [("y", [⟨"y", "true", [1]⟩]), ("x", [⟨"x", "true", [1]⟩])]

/-- A generator whose variable table holds state 1 of `x` and of `y`. -/
def forkVars : Generator :=
  { vars := { SSA := [("x", 1), ("y", 1)] } }

/-- The state group of the side `a_b_c > 0` over the states 0 and 1 of `a_b_c`. -/
def whenSideGroup : StateGroup :=
  { Wraps := [⟨"a_b_c", false, [(0, ["(> a_b_c_0 0)"]), (1, ["(> a_b_c_1 0)"])], false⟩] }

/-- The state group of the side `d_e_f < 5` over the states 0 and 1 of `d_e_f`. -/
def thenSideGroup : StateGroup :=
  { Wraps := [⟨"d_e_f", false, [(0, ["(< d_e_f_0 5)"]), (1, ["(< d_e_f_1 5)"])], false⟩] }

/-! ## Theorems -/

/-! ### No other panic carries the message of the temporal guard -/

theorem state_msg_ne (x : String) : "state " ++ x ≠ mixMsg := by
  intro h
  have h2 := congrArg (fun s => s.data.head?) h
  simp [String.data_append] at h2

theorem atoi_msg_ne (x : String) : "strconv.Atoi: parsing " ++ x ≠ mixMsg := by
  intro h
  have h2 := congrArg (fun s => s.data.head?) h
  simp [String.data_append] at h2

theorem lookupVarRounds_noMix (g : Generator) (base num : String) :
    lookupVarRounds g base num ≠ .error mixMsg := by
  unfold lookupVarRounds lookupVarSpecificState
  split
  · simp
  · split
    · intro h
      injection h with h
      rw [String.append_assoc] at h
      exact atoi_msg_ne _ h
    · split
      · simp
      · intro h
        injection h with h
        rw [String.append_assoc, String.append_assoc, String.append_assoc] at h
        exact state_msg_ne _ h

theorem varRounds_noMix (g : Generator) (base num : String) :
    varRounds g base num ≠ .error mixMsg := by
  unfold varRounds
  have := lookupVarRounds_noMix g base num
  split
  · rename_i e he
    intro h
    injection h with h
    subst h
    exact this he
  · simp

theorem err_ne_of {α β : Type} {x : Except String α} {e : String}
    (hx : x ≠ .error mixMsg) (h : x = .error e) :
    (Except.error e : Except String β) ≠ .error mixMsg := by
  intro h2
  injection h2 with h2
  subst h2
  exact hx h

theorem packageOne_noMix (a : List String) (op : String) :
    packageOne a op ≠ .error mixMsg := by
  unfold packageOne
  split
  · simp
  · simp [mixMsg]
  · split_ifs <;> simp

theorem packageStateGraph_noMix (x : List (List String)) (op : String) :
    packageStateGraph x op ≠ .error mixMsg := by
  induction x with
  | nil => simp [packageStateGraph]
  | cons a rest ih =>
    unfold packageStateGraph
    split
    · exact err_ne_of (packageOne_noMix a op) ‹_›
    · split
      · exact err_ne_of ih ‹_›
      · simp

theorem forRounds_noMix (f : Nat → Except String (Option (List String)))
    (hf : ∀ i, f i ≠ .error mixMsg) (is : List Nat) :
    forRounds f is ≠ .error mixMsg := by
  induction is with
  | nil => simp [forRounds]
  | cons i rest ih =>
    unfold forRounds
    split
    · exact err_ne_of (hf i) ‹_›
    · split
      · exact err_ne_of ih ‹_›
      · simp

theorem balance_noMix (g : Generator) (vr con : States) (op : String) :
    balance g vr con op ≠ .error mixMsg := by
  unfold balance
  apply forRounds_noMix
  intro i
  split
  · simp
  · split
    · exact err_ne_of (packageStateGraph_noMix _ _) ‹_›
    · simp

theorem sameBasePairs_noMix (short : Option (List String)) (leftLead : Bool)
    (idx : Nat) (long : List String) :
    sameBasePairs short leftLead idx long ≠ .error mixMsg := by
  induction long generalizing idx with
  | nil => simp [sameBasePairs]
  | cons s rest ih =>
    unfold sameBasePairs
    simp only
    split
    · rename_i e he
      intro h
      injection h with h
      subst h
      revert he
      split
      · split_ifs
        · simp
        · split <;> simp [mixMsg]
      · simp [mixMsg]
    · split
      · exact err_ne_of (ih _) ‹_›
      · simp

theorem packageRounds_noMix (op : String) (i : Nat) (cs : List (List (List String))) :
    packageRounds op i cs ≠ .error mixMsg := by
  induction cs generalizing i with
  | nil => simp [packageRounds]
  | cons c rest ih =>
    unfold packageRounds
    split
    · exact err_ne_of (packageStateGraph_noMix _ _) ‹_›
    · split
      · exact err_ne_of (ih _) ‹_›
      · simp

theorem termCombosRound_noMix (lbase rbase : String) (rs : List (List String))
    (llast rlast : String) :
    termCombosRound lbase rbase rs llast rlast ≠ .error mixMsg := by
  induction rs generalizing llast rlast with
  | nil => simp [termCombosRound]
  | cons vr rest ih =>
    unfold termCombosRound
    split
    · simp [mixMsg]
    · simp only
      split
      · exact err_ne_of (ih _ _) ‹_›
      · simp

theorem termCombosFrom_noMix (lbase rbase : String) (rs : List (List (List String)))
    (llast rlast : String) :
    termCombosFrom lbase rbase rs llast rlast ≠ .error mixMsg := by
  induction rs generalizing llast rlast with
  | nil => simp [termCombosFrom]
  | cons vr rest ih =>
    unfold termCombosFrom
    split
    · exact err_ne_of (termCombosRound_noMix _ _ _ _ _) ‹_›
    · split
      · exact err_ne_of (ih _ _) ‹_›
      · simp

theorem roundOrLast_noMix (side : States) (i : Nat) (last : Option (List String)) :
    roundOrLast side i last ≠ .error mixMsg := by
  unfold roundOrLast
  split
  · simp
  · split
    · split_ifs <;> simp [mixMsg]
    · simp

theorem crossRounds_noMix (left right : States) (op : String) (is : List Nat)
    (llast rlast : Option (List String)) :
    crossRounds left right op is llast rlast ≠ .error mixMsg := by
  induction is generalizing llast rlast with
  | nil => simp [crossRounds]
  | cons i rest ih =>
    unfold crossRounds
    split
    · exact err_ne_of (roundOrLast_noMix _ _ _) ‹_›
    · split
      · exact err_ne_of (roundOrLast_noMix _ _ _) ‹_›
      · split
        · exact err_ne_of (packageStateGraph_noMix _ _) ‹_›
        · split
          · split
            · exact err_ne_of (ih _ _) ‹_›
            · simp
          · simp [mixMsg]

theorem mergeByRound_noMix (g : Generator) (left right : States) (op : String) :
    mergeByRound g left right op ≠ .error mixMsg := by
  unfold mergeByRound
  split_ifs
  · split
    · exact err_ne_of (packageStateGraph_noMix _ _) ‹_›
    · simp
  · simp only
    split
    · refine err_ne_of (forRounds_noMix _ ?_ _) ‹_›
      intro i
      split
      · exact err_ne_of (sameBasePairs_noMix _ _ _ _) ‹_›
      · split
        · exact err_ne_of (packageStateGraph_noMix _ _) ‹_›
        · simp
    · simp
  · split
    · exact err_ne_of (balance_noMix _ _ _ _) ‹_›
    · simp
  · split
    · exact err_ne_of (balance_noMix _ _ _ _) ‹_›
    · simp
  · split
    · exact err_ne_of (termCombosFrom_noMix _ _ _ _ _) ‹_›
    · split
      · exact err_ne_of (packageRounds_noMix _ _ _) ‹_›
      · simp
  · split
    · exact err_ne_of (crossRounds_noMix _ _ _ _ _ _) ‹_›
    · simp

theorem mergeWrapsRight_noMix (g : Generator) (l : States) (op : String) (rs : List States) :
    mergeWrapsRight g l op rs ≠ .error mixMsg := by
  induction rs with
  | nil => simp [mergeWrapsRight]
  | cons r rest ih =>
    unfold mergeWrapsRight
    split
    · exact err_ne_of (mergeByRound_noMix _ _ _ _) ‹_›
    · split
      · exact err_ne_of ih ‹_›
      · simp

theorem mergeWraps_noMix (g : Generator) (right : Option StateGroup) (op : String)
    (ls : List States) : mergeWraps g right op ls ≠ .error mixMsg := by
  induction ls with
  | nil => simp [mergeWraps]
  | cons l rest ih =>
    unfold mergeWraps
    split
    · simp [mixMsg]
    · split
      · exact err_ne_of (mergeWrapsRight_noMix _ _ _ _) ‹_›
      · split
        · exact err_ne_of ih ‹_›
        · simp

theorem mergeInvariantInfix_noMix (g : Generator) (left right : Option StateGroup)
    (op : String) : mergeInvariantInfix g left right op ≠ .error mixMsg := by
  unfold mergeInvariantInfix
  split
  · simp [mixMsg]
  · split
    · exact err_ne_of (mergeWraps_noMix _ _ _ _) ‹_›
    · simp

theorem assertVarWraps_noMix (g : Generator) (vs : List String) (wg : StateGroup) :
    assertVarWraps g vs wg ≠ .error mixMsg := by
  induction vs generalizing wg with
  | nil => simp [assertVarWraps]
  | cons v rest ih =>
    unfold assertVarWraps
    split
    · exact err_ne_of (varRounds_noMix _ _ _) ‹_›
    · exact ih _

theorem indexWraps_noMix (g : Generator) (index : String) (vs : List String)
    (wg : StateGroup) : indexWraps g index vs wg ≠ .error mixMsg := by
  induction vs generalizing wg with
  | nil => simp [indexWraps]
  | cons v rest ih =>
    unfold indexWraps
    split
    · exact err_ne_of (varRounds_noMix _ _ _) ‹_›
    · exact ih _

theorem parseInvariantPanic_noMix (e : Expression) :
    parseInvariantPanic e ≠ some mixMsg := by
  induction e with
  | InfixExpression l op r ihl ihr =>
    unfold parseInvariantPanic
    split
    · rename_i m hm
      intro h
      rw [← h] at ihl
      exact ihl hm
    · exact ihr
  | PrefixExpression op r ih =>
    unfold parseInvariantPanic
    exact ih
  | Other => simp [parseInvariantPanic, mixMsg]
  | _ => simp [parseInvariantPanic]

theorem parseInvariantNode_noMix (g : Generator) (e : Expression) (stateRange : Bool) :
    parseInvariantNode g e stateRange ≠ .error mixMsg := by
  induction e with
  | InfixExpression l op r ihl ihr =>
    unfold parseInvariantNode
    split
    · exact err_ne_of ihl ‹_›
    · split
      · exact err_ne_of ihr ‹_›
      · split
        · exact err_ne_of (mergeInvariantInfix_noMix _ _ _ _) ‹_›
        · simp
  | AssertVar instances =>
    unfold parseInvariantNode
    split
    · exact err_ne_of (assertVarWraps_noMix _ _ _) ‹_›
    · simp
  | PrefixExpression op r _ =>
    unfold parseInvariantNode
    split
    · rename_i m hm
      intro h
      injection h with h
      subst h
      exact parseInvariantPanic_noMix r hm
    · simp [mixMsg]
  | IndexExpression l index _ =>
    unfold parseInvariantNode
    split
    · split
      · exact err_ne_of (indexWraps_noMix _ _ _ _) ‹_›
      · simp
    · simp [mixMsg]
  | Other => simp [parseInvariantNode, mixMsg]
  | _ => simp [parseInvariantNode]

/-- C7. `parseAssert` rejects every statement whose constraint operator is `then`
and whose temporal modifier or temporal filter is non-empty, with the panic
"cannot mix temporal logic with when/then assertions" and without any SMT text;
a `then` statement whose modifier and filter are both empty never fails with
that panic. -/
theorem parseAssert_then_temporal (diff : List String → List String → List String)
    (g : Generator) (a : AssertionStatement) (hthen : a.Constraint.Operator = "then") :
    ((a.Temporal ≠ "" ∨ a.TemporalFilter ≠ "") →
      parseAssert diff g a = .error "cannot mix temporal logic with when/then assertions") ∧
    (a.Temporal = "" → a.TemporalFilter = "" →
      parseAssert diff g a ≠ .error "cannot mix temporal logic with when/then assertions") := by
  constructor
  · intro h
    have h2 : a.TemporalFilter ≠ "" ∨ a.Temporal ≠ "" := h.symm
    unfold parseAssert
    simp [hthen, h2, mixMsg]
  · intro h1 h2
    unfold parseAssert
    simp only [hthen, h1, h2, decide_True, ne_eq, not_true_eq_false, or_self, and_false,
      if_false, if_true]
    split
    · exact err_ne_of (parseInvariantNode_noMix _ _ _) ‹_›
    · split
      · exact err_ne_of (parseInvariantNode_noMix _ _ _) ‹_›
      · split
        · exact err_ne_of (mergeInvariantInfix_noMix _ _ _ _) ‹_›
        · simp

/-- C7 (witness). A `then` statement with modifier `eventually` is rejected with the
panic of the guard; the same statement without modifier is not. -/
theorem parseAssert_then_temporal_witness :
    parseAssert DiffStrSets (logTwoRounds "a_b_c")
        { Constraint := ⟨.AssertVar ["a_b_c"], "then", .IntegerLiteral 0⟩,
          Temporal := "eventually" } =
      .error "cannot mix temporal logic with when/then assertions" ∧
    parseAssert DiffStrSets (logTwoRounds "a_b_c")
        { Constraint := ⟨.AssertVar ["a_b_c"], "then", .IntegerLiteral 0⟩ } ≠
      .error "cannot mix temporal logic with when/then assertions" :=
  ⟨(parseAssert_then_temporal DiffStrSets (logTwoRounds "a_b_c")
      { Constraint := ⟨.AssertVar ["a_b_c"], "then", .IntegerLiteral 0⟩,
        Temporal := "eventually" } rfl).1 (Or.inl (by decide)),
   (parseAssert_then_temporal DiffStrSets (logTwoRounds "a_b_c")
      { Constraint := ⟨.AssertVar ["a_b_c"], "then", .IntegerLiteral 0⟩ } rfl).2 rfl rfl⟩

theorem applyTemporalLogic_eventually (ir : List String) (filter onOp offOp : String)
    (h : 2 ≤ ir.length) :
    applyTemporalLogic "eventually" ir filter onOp offOp =
      .ok ("(" ++ onOp ++ " " ++ strJoin ir " " ++ ")") := by
  have h1 : 1 < ir.length := h
  simp [applyTemporalLogic, h1]

theorem applyTemporalLogic_always (ir : List String) (filter onOp offOp : String)
    (h : 2 ≤ ir.length) :
    applyTemporalLogic "always" ir filter onOp offOp =
      .ok ("(" ++ offOp ++ " " ++ strJoin ir " " ++ ")") := by
  have h1 : 1 < ir.length := h
  simp [applyTemporalLogic, h1]

theorem parseAssert_temporal (diff : List String → List String → List String)
    (g : Generator) (a : AssertionStatement) (l r : StateGroup) (ir : List String)
    (hop : a.Constraint.Operator ≠ "then")
    (ht : a.Temporal ≠ "")
    (hl : parseInvariantNode g a.Constraint.Left false = .ok (some l))
    (hr : parseInvariantNode g a.Constraint.Right false = .ok (some r))
    (hir : temporalTerms diff g a l r = .ok ir) :
    parseAssert diff g a =
      applyTemporalLogic a.Temporal ir a.TemporalFilter
        (if a.Assume then "or" else "and") (if a.Assume then "and" else "or") := by
  unfold parseAssert
  unfold temporalTerms at hir
  simp only [hop, decide_False, Bool.false_eq_true, false_and, if_false, hl, hr]
  by_cases hd : (diff l.Bases r.Bases).length = 0
  · simp only [hd, if_true] at hir
    simp only [hd, ht, ne_eq, not_false_eq_true, true_or, and_self, if_true]
    revert hir
    split
    · simp
    · intro h
      injection h with h
      rw [h]
  · simp only [hd, if_false] at hir
    simp only [hd, ht, ne_eq, not_false_eq_true, true_or, false_and, if_false, if_true, hir]

/-- C8 (amended). For a statement with a comparison constraint whose sides lower to
state groups and whose per-state terms are `t_1 .. t_n` with `n >= 2`, the
temporal modifier selects the wrapper of `parseAssert`: `eventually` gives
`(and t_1 .. t_n)` for an assert and `(or t_1 .. t_n)` for an assume; `always`
gives `(or t_1 .. t_n)` for an assert and `(and t_1 .. t_n)` for an assume. -/
theorem parseAssert_temporal_wrapper (diff : List String → List String → List String)
    (g : Generator) (a : AssertionStatement) (l r : StateGroup) (ir : List String)
    (hop : a.Constraint.Operator ≠ "then")
    (hl : parseInvariantNode g a.Constraint.Left false = .ok (some l))
    (hr : parseInvariantNode g a.Constraint.Right false = .ok (some r))
    (hir : temporalTerms diff g a l r = .ok ir) (hn : 2 ≤ ir.length) :
    (a.Temporal = "eventually" →
      parseAssert diff g a =
        .ok ("(" ++ (if a.Assume then "or" else "and") ++ " " ++ strJoin ir " " ++ ")")) ∧
    (a.Temporal = "always" →
      parseAssert diff g a =
        .ok ("(" ++ (if a.Assume then "and" else "or") ++ " " ++ strJoin ir " " ++ ")")) := by
  constructor
  · intro ht
    rw [parseAssert_temporal diff g a l r ir hop (by rw [ht]; decide) hl hr hir, ht]
    exact applyTemporalLogic_eventually ir _ _ _ hn
  · intro ht
    rw [parseAssert_temporal diff g a l r ir hop (by rw [ht]; decide) hl hr hir, ht]
    exact applyTemporalLogic_always ir _ _ _ hn

theorem joinStates_group (g : Generator) (sg : StateGroup) (operator : String)
    (h : (flattenStates g sg).length ≠ 1) :
    joinStates g sg operator =
      "(" ++ operator ++ " " ++ strJoin (flattenStates g sg) " " ++ ")" := by
  unfold joinStates
  split
  · rename_i a ha
    rw [ha] at h
    simp at h
  · simp [writeAssertlessRule]

theorem joinStates_single (g : Generator) (sg : StateGroup) (operator t : String)
    (h : flattenStates g sg = [t]) : joinStates g sg operator = t := by
  unfold joinStates
  rw [h]

theorem flattenStates_append (g : Generator) (ws1 ws2 : List States) :
    flattenStates g { Wraps := ws1 ++ ws2 } =
      flattenStates g { Wraps := ws1 } ++ flattenStates g { Wraps := ws2 } := by
  simp [flattenStates]

theorem flattenStates_wraps (g : Generator) (sg : StateGroup) :
    flattenStates g { Wraps := sg.Wraps } = flattenStates g sg := rfl

/-- C4 (amended). For every assertion statement with empty temporal modifier and
filter whose constraint operator lowers to the joining operator itself (`or` for
an assert, `and` for an assume) and whose sides lower to state groups with
flattened terms `L` and `R`, where `|L| + |R|` is not one, `parseAssert` returns
one flat group: the joining operator applied to the terms of `L` followed by the
terms of `R`, `|L| + |R|` terms. -/
theorem parseAssert_flat_group (diff : List String → List String → List String)
    (g : Generator) (a : AssertionStatement) (l r : StateGroup)
    (ht : a.Temporal = "") (hf : a.TemporalFilter = "")
    (hj : smtlibOperators a.Constraint.Operator = (if a.Assume then "and" else "or"))
    (hl : parseInvariantNode g a.Constraint.Left false = .ok (some l))
    (hr : parseInvariantNode g a.Constraint.Right false = .ok (some r))
    (hn : (flattenStates g l ++ flattenStates g r).length ≠ 1) :
    parseAssert diff g a =
        .ok ("(" ++ (if a.Assume then "and" else "or") ++ " " ++
          strJoin (flattenStates g l ++ flattenStates g r) " " ++ ")") ∧
      (flattenStates g l ++ flattenStates g r).length =
        (flattenStates g l).length + (flattenStates g r).length := by
  refine ⟨?_, List.length_append _ _⟩
  have hop : a.Constraint.Operator ≠ "then" := by
    intro h
    rw [h] at hj
    revert hj
    cases a.Assume <;> decide
  have hflat : flattenStates g { Wraps := l.Wraps ++ r.Wraps } =
      flattenStates g l ++ flattenStates g r := by
    rw [flattenStates_append, flattenStates_wraps, flattenStates_wraps]
  unfold parseAssert
  simp only [hop, decide_False, Bool.false_eq_true, false_and, if_false, hl, hr, ht, hf,
    ne_eq, not_true_eq_false, or_self, and_false, hj, if_true]
  rw [joinStates_group g _ _ (by rw [hflat]; exact hn), hflat]

/-! ### Maps, rounds and the variable-against-literal rule -/

theorem lookup_cons_nat (m : RoundMap) (j k : Nat) (w : List String) :
    List.lookup j ((k, w) :: m) = if j = k then some w else List.lookup j m := by
  rw [List.lookup_cons]
  by_cases h : j = k
  · subst h
    simp
  · have hb : (j == k) = false := by simpa using h
    simp [hb, h]

theorem RoundMap.lookup_set (m : RoundMap) (i j : Nat) (v : List String) :
    (m.set i v).lookup j = if j = i then some v else m.lookup j := by
  induction m with
  | nil => simp [RoundMap.set, lookup_cons_nat]
  | cons p rest ih =>
    obtain ⟨k, w⟩ := p
    unfold RoundMap.set
    by_cases hk : k = i
    · subst hk
      simp only [if_true, lookup_cons_nat]
      by_cases h : j = k <;> simp [h]
    · simp only [hk, if_false, lookup_cons_nat, ih]
      by_cases h : j = k
      · subst h
        simp [hk]
      · simp [h]

theorem RoundMap.getD_push (m : RoundMap) (i j : Nat) (s : String) :
    (m.push i s).getD j = if j = i then m.getD i ++ [s] else m.getD j := by
  unfold RoundMap.push RoundMap.getD
  rw [RoundMap.lookup_set]
  by_cases h : j = i <;> simp [h]

theorem foldl_push_getD (name : VarRound → String) (es : List VarRound) (m : RoundMap)
    (i : Nat) :
    (es.foldl (fun ir s => ir.push s.round (name s)) m).getD i =
      m.getD i ++ (es.filter (fun e => e.round = i)).map name := by
  induction es generalizing m with
  | nil => simp
  | cons e rest ih =>
    rw [List.foldl_cons, ih, RoundMap.getD_push]
    by_cases h : e.round = i
    · subst h
      simp
    · have h2 : ¬ i = e.round := fun h3 => h h3.symm
      simp [h, h2]

theorem filter_lt_succ_of_sorted (es : List VarRound) (n : Nat)
    (hs : es.Pairwise (fun x y => x.round ≤ y.round)) :
    es.filter (fun e => e.round < n) ++ es.filter (fun e => e.round = n) =
      es.filter (fun e => e.round < n + 1) := by
  induction es with
  | nil => simp
  | cons e rest ih =>
    rw [List.pairwise_cons] at hs
    obtain ⟨hle, hrest⟩ := hs
    have ih2 := ih hrest
    rcases Nat.lt_trichotomy e.round n with h | h | h
    · have h1 : ¬ e.round = n := Nat.ne_of_lt h
      have h2 : e.round < n + 1 := Nat.lt_succ_of_lt h
      simp [List.filter_cons, h, h1, h2, ih2]
    · have h0 : rest.filter (fun e => decide (e.round < n)) = [] := by
        rw [List.filter_eq_nil_iff]
        intro x hx
        have := hle x hx
        simp
        omega
      have h2 : e.round < n + 1 := by omega
      have h3 : ¬ e.round < n := by omega
      rw [h0] at ih2
      simp only [List.nil_append] at ih2
      simp [List.filter_cons, h, h0, ih2]
    · have h1 : ¬ e.round = n := Nat.ne_of_gt h
      have h2 : ¬ e.round < n + 1 := by omega
      have h3 : ¬ e.round < n := by omega
      simp [List.filter_cons, h1, h2, h3, ih2]

theorem flatMap_rounds_of_sorted (es : List VarRound) (n : Nat)
    (hs : es.Pairwise (fun x y => x.round ≤ y.round)) :
    (List.range n).flatMap (fun i => es.filter (fun e => e.round = i)) =
      es.filter (fun e => e.round < n) := by
  induction n with
  | zero => simp
  | succ n ih =>
    rw [List.range_succ, List.flatMap_append, ih, List.flatMap_singleton,
      filter_lt_succ_of_sorted es n hs]

theorem flatMap_rounds_eq_self (es : List VarRound) (n : Nat)
    (hs : es.Pairwise (fun x y => x.round ≤ y.round))
    (hr : ∀ e ∈ es, e.round < n) :
    (List.range n).flatMap (fun i => es.filter (fun e => e.round = i)) = es := by
  rw [flatMap_rounds_of_sorted es n hs, List.filter_eq_self]
  intro e he
  simpa using hr e he

theorem packageStateGraph_map (x : List (List String)) (op : String)
    (f : List String → String) (h : ∀ a ∈ x, packageOne a op = .ok (f a)) :
    packageStateGraph x op = .ok (x.map f) := by
  induction x with
  | nil => rfl
  | cons a rest ih =>
    unfold packageStateGraph
    rw [h a (List.mem_cons_self _ _), ih (fun b hb => h b (List.mem_cons_of_mem _ hb))]
    rfl

theorem packageOne_pair (a b op : String) (hop : op ≠ "not") :
    packageOne [a, b] op = .ok ("(" ++ op ++ " " ++ a ++ " " ++ b ++ ")") := by
  simp [packageOne, hop]

theorem packageStateGraph_pairs (l r : List String) (op : String) (hop : op ≠ "not") :
    packageStateGraph (PairCombinations l r) op =
      .ok (l.flatMap (fun a => r.map (fun b => "(" ++ op ++ " " ++ a ++ " " ++ b ++ ")"))) := by
  rw [packageStateGraph_map (PairCombinations l r) op
    (fun p => "(" ++ op ++ " " ++ p.getD 0 "" ++ " " ++ p.getD 1 "" ++ ")")]
  · simp [PairCombinations, List.map_flatMap, Function.comp_def]
  · intro p hp
    simp only [PairCombinations, List.mem_flatMap, List.mem_map] at hp
    obtain ⟨a, _, b, _, rfl⟩ := hp
    simp [packageOne_pair a b op hop]

theorem forRounds_ok (f : Nat → Except String (Option (List String)))
    (h : Nat → Option (List String)) (hf : ∀ i, f i = .ok (h i)) (is : List Nat) :
    forRounds f is = .ok (is.filterMap (fun i => (h i).map (fun x => (i, x)))) := by
  induction is with
  | nil => rfl
  | cons i rest ih =>
    unfold forRounds
    rw [hf i, ih]
    cases hi : h i <;> simp [hi]

theorem lookup_filterMap_rounds (h : Nat → Option (List String)) (is : List Nat) (i : Nat) :
    List.lookup i (is.filterMap (fun j => (h j).map (fun x => (j, x)))) =
      if i ∈ is then h i else none := by
  induction is with
  | nil => simp
  | cons j rest ih =>
    cases hj : h j with
    | none =>
      simp only [List.filterMap_cons, hj, Option.map_none', ih, List.mem_cons]
      by_cases hij : i = j
      · subst hij
        simp [hj]
      · simp [hij]
    | some x =>
      simp only [List.filterMap_cons, hj, Option.map_some', lookup_cons_nat, ih, List.mem_cons]
      by_cases hij : i = j
      · subst hij
        simp [hj]
      · simp [hij]

theorem flatMap_getD_filterMap (h : Nat → Option (List String)) (is : List Nat) :
    is.flatMap (fun i =>
        RoundMap.getD (is.filterMap (fun j => (h j).map (fun x => (j, x)))) i) =
      is.flatMap (fun i => (h i).getD []) := by
  apply List.flatMap_congr
  intro i hi
  simp [RoundMap.getD, lookup_filterMap_rounds, hi]

theorem balance_ok (g : Generator) (vr con : States) (op : String) (hop : op ≠ "not") :
    balance g vr con op =
      .ok ((roundIdx g).filterMap (fun i =>
        ((vr.States.get i).map (fun v => v.flatMap (fun a => (con.States.getD 0).map
          (fun b => "(" ++ op ++ " " ++ a ++ " " ++ b ++ ")")))).map (fun x => (i, x)))) := by
  unfold balance
  apply forRounds_ok
  intro i
  cases hi : vr.States.get i with
  | none => simp
  | some v => simp [packageStateGraph_pairs _ _ op hop]

theorem flattenStates_single (g : Generator) (w : States) :
    flattenStates g { Wraps := [w] } = (roundIdx g).flatMap (fun i => w.States.getD i) := by
  simp [flattenStates]

theorem varRounds_all (g : Generator) (b : String) :
    varRounds g b "" =
      .ok ((lookupBase g b).foldl
        (fun ir s => ir.push s.round (b ++ "_" ++ toString s.num)) []) := by
  simp [varRounds, lookupVarRounds]

theorem parseInvariantNode_var (g : Generator) (b : String) (stateRange : Bool)
    (hb : captureState b = ("", true, false)) :
    parseInvariantNode g (.AssertVar [b]) stateRange =
      .ok (some { Wraps := [{ Base := b, Terminal := true,
                              States := (lookupBase g b).foldl
                                (fun ir s => ir.push s.round (b ++ "_" ++ toString s.num)) [],
                              Constant := false }],
                  Bases := [b] }) := by
  simp [parseInvariantNode, assertVarWraps, hb, varRounds_all, NewStateGroup,
    StateGroup.AddBase, StateGroup.AddWrap]

theorem parseInvariantNode_int (g : Generator) (c : Int) (stateRange : Bool) :
    parseInvariantNode g (.IntegerLiteral c) stateRange =
      .ok (some { Wraps := [{ Base := "__int", States := [(0, [toString c])],
                              Constant := true }] }) := by
  simp [parseInvariantNode, literalGroup, NewStateGroup, StateGroup.AddWrap]

theorem mergeByRound_right_constant (g : Generator) (left right : States) (op : String)
    (hop : op ≠ "not") (hl : left.Constant = false) (hr : right.Constant = true)
    (hbase : left.Base ≠ right.Base) :
    mergeByRound g left right op =
      .ok { Base := left.Base,
            States := (roundIdx g).filterMap (fun i =>
              ((left.States.get i).map (fun v => v.flatMap (fun a =>
                (right.States.getD 0).map
                  (fun b => "(" ++ op ++ " " ++ a ++ " " ++ b ++ ")")))).map
                (fun x => (i, x))) } := by
  unfold mergeByRound
  simp [hl, hr, hbase, balance_ok g left right op hop]

theorem flatMap_single_eq_map {α β : Type} (f : α → β) (l : List α) :
    l.flatMap (fun a => [f a]) = l.map f := by
  induction l with
  | nil => rfl
  | cons a rest ih => simp [ih]

theorem flatten_right_constant (g : Generator) (left : States) (c op base : String)
    (st : RoundMap)
    (hst : st = (roundIdx g).filterMap (fun i =>
          ((left.States.get i).map (fun v => v.flatMap (fun a =>
            [c].map (fun b => "(" ++ op ++ " " ++ a ++ " " ++ b ++ ")")))).map
            (fun x => (i, x)))) :
    flattenStates g { Wraps := [{ Base := base, States := st }] } =
      (roundIdx g).flatMap (fun i =>
        (left.States.getD i).map (fun a => "(" ++ op ++ " " ++ a ++ " " ++ c ++ ")")) := by
  subst hst
  rw [flattenStates_single]
  simp only
  rw [flatMap_getD_filterMap]
  apply List.flatMap_congr
  intro i _
  unfold RoundMap.getD RoundMap.get
  cases List.lookup i left.States <;> simp [flatMap_single_eq_map]

theorem mergeInvariantInfix_single (g : Generator) (l r : States) (bl br : List String)
    (op : String) (res : States) (h : mergeByRound g l r op = .ok res) :
    mergeInvariantInfix g (some { Wraps := [l], Bases := bl })
      (some { Wraps := [r], Bases := br }) op = .ok { Wraps := [res] } := by
  simp [mergeInvariantInfix, mergeWraps, mergeWrapsRight, h]

theorem comparison_facts (op : String) (hop : op ∈ ["<", "<=", ">", ">=", "=="]) :
    op ≠ "then" ∧ smtlibOperators op ≠ "not" ∧ smtlibOperators op ≠ "and" ∧
      smtlibOperators op ≠ "or" := by
  simp only [List.mem_cons, List.mem_singleton, List.not_mem_nil, or_false] at hop
  rcases hop with rfl | rfl | rfl | rfl | rfl <;> decide

theorem varLiteral_joinStates (diff : List String → List String → List String)
    (g : Generator) (b : String) (c : Int) (op : String) (assume : Bool)
    (hb : captureState b = ("", true, false)) (hint : b ≠ "__int")
    (hop : op ∈ ["<", "<=", ">", ">=", "=="]) (left : States) (st : RoundMap)
    (hleft : left = { Base := b, Terminal := true,
                      States := (lookupBase g b).foldl
                        (fun ir s => ir.push s.round (b ++ "_" ++ toString s.num)) [],
                      Constant := false })
    (hst : st = (roundIdx g).filterMap (fun i =>
          ((left.States.get i).map (fun v => v.flatMap (fun a =>
            [toString c].map
              (fun x => "(" ++ smtlibOperators op ++ " " ++ a ++ " " ++ x ++ ")")))).map
            (fun x => (i, x)))) :
    parseAssert diff g
        { Constraint := ⟨.AssertVar [b], op, .IntegerLiteral c⟩, Assume := assume } =
      .ok (joinStates g { Wraps := [{ Base := b, States := st }] }
        (if assume then "and" else "or")) := by
  subst hleft
  subst hst
  obtain ⟨hthen, hnot, hand, hor⟩ := comparison_facts op hop
  have hj : ¬ ((if assume then "and" else "or") = smtlibOperators op) := by
    cases assume
    · simpa using fun h => hor h.symm
    · simpa using fun h => hand h.symm
  have hm := mergeByRound_right_constant g
    { Base := b, Terminal := true,
      States := (lookupBase g b).foldl
        (fun ir s => ir.push s.round (b ++ "_" ++ toString s.num)) [],
      Constant := false }
    { Base := "__int", States := [(0, [toString c])], Constant := true }
    (smtlibOperators op) hnot rfl rfl hint
  have hmi := mergeInvariantInfix_single g _ _ [b] [] _ _ hm
  unfold parseAssert
  simp only [hthen, decide_False, Bool.false_eq_true, false_and, if_false,
    parseInvariantNode_var g b false hb, parseInvariantNode_int, ne_eq, not_true_eq_false,
    or_self, and_false, hj, hmi]
  rfl

theorem flatten_var_literal (g : Generator) (b c op : String) (st : RoundMap)
    (left : States)
    (hleft : left.States = (lookupBase g b).foldl
        (fun (ir : RoundMap) s => ir.push s.round (b ++ "_" ++ toString s.num)) [])
    (hst : st = (roundIdx g).filterMap (fun i =>
          ((left.States.get i).map (fun v => v.flatMap (fun a =>
            [c].map (fun x => "(" ++ op ++ " " ++ a ++ " " ++ x ++ ")")))).map
            (fun x => (i, x))))
    (hsorted : (lookupBase g b).Pairwise (fun x y => x.round ≤ y.round))
    (hr : ∀ e ∈ lookupBase g b, (e.round : Int) ≤ g.Rounds) :
    flattenStates g { Wraps := [{ Base := b, States := st }] } =
      (lookupBase g b).map
        (fun e => "(" ++ op ++ " " ++ (b ++ "_" ++ toString e.num) ++ " " ++ c ++ ")") := by
  rw [flatten_right_constant g left c op b st hst]
  have h1 : ∀ i, left.States.getD i =
      ((lookupBase g b).filter (fun e => e.round = i)).map
        (fun e => b ++ "_" ++ toString e.num) := by
    intro i
    rw [hleft, foldl_push_getD]
    simp [RoundMap.getD]
  simp only [h1, List.map_map]
  rw [← List.map_flatMap]
  unfold roundIdx
  rw [flatMap_rounds_eq_self _ _ hsorted]
  · rfl
  · intro e he
    have := hr e he
    omega

/-- C1 (amended). For every base `b` that `captureState` reads as a variable with
all its states (at least three `_`-separated segments, the last one not an
integer) and that is not `__int`, whose recorded states are `n_1 .. n_k` with
`k >= 2`, in round-tracker order (rounds ascending) and all in rounds
`0 .. Rounds`, and for every integer literal `c`, `parseAssert` on `b op c` with
empty temporal modifier and filter and `op` one of `<`, `<=`, `>`, `>=`, `==`
returns one term per recorded state in that order, joined by `or` for an assert
and by `and` for an assume. -/
theorem parseAssert_var_literal (diff : List String → List String → List String)
    (g : Generator) (b : String) (c : Int) (op : String) (assume : Bool)
    (hb : captureState b = ("", true, false)) (hint : b ≠ "__int")
    (hop : op ∈ ["<", "<=", ">", ">=", "=="])
    (hk : 2 ≤ (lookupBase g b).length)
    (hsorted : (lookupBase g b).Pairwise (fun x y => x.round ≤ y.round))
    (hr : ∀ e ∈ lookupBase g b, (e.round : Int) ≤ g.Rounds) :
    parseAssert diff g
        { Constraint := ⟨.AssertVar [b], op, .IntegerLiteral c⟩, Assume := assume } =
      .ok ("(" ++ (if assume then "and" else "or") ++ " " ++
        strJoin ((lookupBase g b).map (fun e =>
          "(" ++ smtlibOperators op ++ " " ++ (b ++ "_" ++ toString e.num) ++ " " ++
            toString c ++ ")")) " " ++ ")") := by
  rw [varLiteral_joinStates diff g b c op assume hb hint hop _ _ rfl rfl]
  have hflat := flatten_var_literal g b (toString c) (smtlibOperators op) _
    ⟨b, true, (lookupBase g b).foldl
      (fun (ir : RoundMap) s => ir.push s.round (b ++ "_" ++ toString s.num)) [], false⟩
    rfl rfl hsorted hr
  rw [joinStates_group, hflat]
  rw [hflat, List.length_map]
  omega

/-- C1 (witness). The base `a_b_c` with states 0 and 1 in rounds 0 and 1: the assert
`a_b_c > 0` yields one term per state, joined by `or`. -/
theorem parseAssert_var_literal_witness :
    captureState "a_b_c" = ("", true, false) ∧
    2 ≤ (lookupBase (logTwoRounds "a_b_c") "a_b_c").length ∧
    parseAssert DiffStrSets (logTwoRounds "a_b_c")
        { Constraint := ⟨.AssertVar ["a_b_c"], ">", .IntegerLiteral 0⟩, Assume := false } =
      .ok "(or (> a_b_c_0 0) (> a_b_c_1 0))" :=
  ⟨by decide, by decide,
    parseAssert_var_literal DiffStrSets (logTwoRounds "a_b_c") "a_b_c" 0 ">" false
      (by decide) (by decide) (by decide) (by decide) (by decide) (by decide)⟩

/-- C1 (counterexample). The base `amount_value` has two segments only, so
`captureState` tags it constant: with states 0 and 1 recorded in rounds 0 and 1,
the assert `amount_value <= 0` yields the single term of round 0 instead of one
term per recorded state. -/
theorem parseAssert_var_literal_counterexample :
    parseAssert DiffStrSets (logTwoRounds "amount_value")
        (plainStatement (.AssertVar ["amount_value"]) "<=" (.IntegerLiteral 0) false) =
      .ok "(<= amount_value_0 0)" ∧
    parseAssert DiffStrSets (logTwoRounds "amount_value")
        (plainStatement (.AssertVar ["amount_value"]) "<=" (.IntegerLiteral 0) false) ≠
      .ok "(or (<= amount_value_0 0) (<= amount_value_1 0))" := by
  decide

/-- C2 (evaluation at the failing input). State 1 of `a_b_c` is recorded in round 1;
the assume `a_b_c[1] > 0` yields the empty group `(and )` instead of the single
term `(> a_b_c_1 0)`. -/
theorem parseAssert_index_round_one :
    parseAssert DiffStrSets (logTwoRounds "a_b_c")
        (plainStatement (.IndexExpression (.AssertVar ["a_b_c"]) "1") ">"
          (.IntegerLiteral 0) true) = .ok "(and )" ∧
    parseAssert DiffStrSets (logTwoRounds "a_b_c")
        (plainStatement (.IndexExpression (.AssertVar ["a_b_c"]) "0") ">"
          (.IntegerLiteral 0) true) = .ok "(> a_b_c_0 0)" := by
  decide

/-- C6 (counterexample). Two asserts are joined without a separator: the results
`(or ..)` and `(or ..)` are written back to back inside the outer `(or ..)`, not
separated by a blank. -/
theorem newAsserts_two_statements :
    (newAsserts DiffStrSets (logTwoRounds "a_b_c")
        [plainStatement (.AssertVar ["a_b_c"]) "<=" (.IntegerLiteral 0) false,
         plainStatement (.AssertVar ["a_b_c"]) ">" (.IntegerLiteral 10) false]).map
        (fun g => g.asserts) =
      .ok ["(assert (or (or (<= a_b_c_0 0) (<= a_b_c_1 0))(or (> a_b_c_0 10) (> a_b_c_1 10))))"] ∧
    (newAsserts DiffStrSets (logTwoRounds "a_b_c")
        [plainStatement (.AssertVar ["a_b_c"]) "<=" (.IntegerLiteral 0) false,
         plainStatement (.AssertVar ["a_b_c"]) ">" (.IntegerLiteral 10) false]).map
        (fun g => g.asserts) ≠
      .ok ["(assert (or (or (<= a_b_c_0 0) (<= a_b_c_1 0)) (or (> a_b_c_0 10) (> a_b_c_1 10))))"] := by
  decide

/-- C8 (counterexample). For an assert, `eventually` wraps the per-state terms in
`(and ..)`, not in `(or ..)`. -/
theorem parseAssert_eventually_counterexample :
    parseAssert DiffStrSets (logTwoRounds "a_b_c")
        { Constraint := ⟨.AssertVar ["a_b_c"], ">", .IntegerLiteral 0⟩,
          Temporal := "eventually" } = .ok "(and (> a_b_c_0 0) (> a_b_c_1 0))" ∧
    parseAssert DiffStrSets (logTwoRounds "a_b_c")
        { Constraint := ⟨.AssertVar ["a_b_c"], ">", .IntegerLiteral 0⟩,
          Temporal := "eventually" } ≠ .ok "(or (> a_b_c_0 0) (> a_b_c_1 0))" := by
  decide
theorem progression_eq (ir : List String) :
    progression ir =
      (List.range ir.length).map (fun i => "(and " ++ strJoin (ir.drop i) " " ++ ")") := by
  induction ir with
  | nil => rfl
  | cons t rest ih =>
    rw [List.length_cons, List.range_succ_eq_map, List.map_cons, List.map_map, progression, ih]
    rfl

/-- C10. For every list `ir = [t_0 .. t_{n-1}]` with `n >= 2`, `applyTemporalLogic`
with modifier `eventually-always` returns `(or G_0 .. G_{n-1})` with exactly
`n` groups, the `i`-th being `(and ir[i] .. ir[n-1])`, the conjunction of the
suffix `ir[i..]`, whatever filter and assert/assume operators are passed in. -/
theorem applyTemporalLogic_eventually_always (ir : List String)
    (temporalFilter onOp offOp : String) (h : 2 ≤ ir.length) :
    applyTemporalLogic "eventually-always" ir temporalFilter onOp offOp =
      .ok ("(or " ++ strJoin ((List.range ir.length).map
        (fun i => "(and " ++ strJoin (ir.drop i) " " ++ ")")) " " ++ ")") := by
  have h1 : 1 < ir.length := h
  simp [applyTemporalLogic, h1, eventuallyAlways, progression_eq]

/-- C10 (witness). Three terms give three suffix conjunctions under one `or`. -/
theorem applyTemporalLogic_eventually_always_witness :
    2 ≤ ["a", "b", "c"].length ∧
    applyTemporalLogic "eventually-always" ["a", "b", "c"] "" "and" "or" =
      .ok "(or (and a b c) (and b c) (and c))" :=
  ⟨by decide, applyTemporalLogic_eventually_always ["a", "b", "c"] "" "and" "or" (by decide)⟩

/-- C8 (witness). Two recorded states: `eventually` on an assert and `always` on an
assume both wrap the two terms in `and`. -/
theorem parseAssert_temporal_wrapper_witness :
    parseAssert DiffStrSets (logTwoRounds "a_b_c")
        { Constraint := ⟨.AssertVar ["a_b_c"], ">", .IntegerLiteral 0⟩,
          Temporal := "eventually" } = .ok "(and (> a_b_c_0 0) (> a_b_c_1 0))" ∧
    parseAssert DiffStrSets (logTwoRounds "a_b_c")
        { Constraint := ⟨.AssertVar ["a_b_c"], ">", .IntegerLiteral 0⟩,
          Assume := true, Temporal := "always" } =
      .ok "(and (> a_b_c_0 0) (> a_b_c_1 0))" :=
  ⟨(parseAssert_temporal_wrapper DiffStrSets (logTwoRounds "a_b_c")
      { Constraint := ⟨.AssertVar ["a_b_c"], ">", .IntegerLiteral 0⟩,
        Temporal := "eventually" }
      { Wraps := [⟨"a_b_c", true, [(0, ["a_b_c_0"]), (1, ["a_b_c_1"])], false⟩],
        Bases := ["a_b_c"] }
      { Wraps := [⟨"__int", false, [(0, ["0"])], true⟩] }
      ["(> a_b_c_0 0)", "(> a_b_c_1 0)"]
      (by decide) (by decide) (by decide) (by decide) (by decide)).1 rfl,
   (parseAssert_temporal_wrapper DiffStrSets (logTwoRounds "a_b_c")
      { Constraint := ⟨.AssertVar ["a_b_c"], ">", .IntegerLiteral 0⟩,
        Assume := true, Temporal := "always" }
      { Wraps := [⟨"a_b_c", true, [(0, ["a_b_c_0"]), (1, ["a_b_c_1"])], false⟩],
        Bases := ["a_b_c"] }
      { Wraps := [⟨"__int", false, [(0, ["0"])], true⟩] }
      ["(> a_b_c_0 0)", "(> a_b_c_1 0)"]
      (by decide) (by decide) (by decide) (by decide) (by decide)).2 rfl⟩

/-- C4 (counterexample). The assert `a_b_c || d_e_f`, where `a_b_c` has one recorded
state and `d_e_f` none, flattens to a single term; `parseAssert` returns that
term bare, not the joining operator applied to it. -/
theorem parseAssert_flat_group_counterexample :
    parseAssert DiffStrSets (addVarToRound { Rounds := 1 } "a_b_c" 0)
        (plainStatement (.AssertVar ["a_b_c"]) "||" (.AssertVar ["d_e_f"]) false) =
      .ok "a_b_c_0" ∧
    parseAssert DiffStrSets (addVarToRound { Rounds := 1 } "a_b_c" 0)
        (plainStatement (.AssertVar ["a_b_c"]) "||" (.AssertVar ["d_e_f"]) false) ≠
      .ok "(or a_b_c_0)" := by
  decide

/-- C4 (witness). Two states on either side of `||` in an assert: one flat `or` over
2 + 2 terms. -/
theorem parseAssert_flat_group_witness :
    parseAssert DiffStrSets (logTwoRounds "a_b_c")
        (plainStatement
          (.InfixExpression (.AssertVar ["a_b_c"]) "<=" (.IntegerLiteral 0)) "||"
          (.InfixExpression (.AssertVar ["a_b_c"]) ">" (.IntegerLiteral 10)) false) =
      .ok "(or (<= a_b_c_0 0) (<= a_b_c_1 0) (> a_b_c_0 10) (> a_b_c_1 10))" :=
  (parseAssert_flat_group DiffStrSets (logTwoRounds "a_b_c")
    (plainStatement
      (.InfixExpression (.AssertVar ["a_b_c"]) "<=" (.IntegerLiteral 0)) "||"
      (.InfixExpression (.AssertVar ["a_b_c"]) ">" (.IntegerLiteral 10)) false)
    { Wraps := [⟨"a_b_c", false, [(0, ["(<= a_b_c_0 0)"]), (1, ["(<= a_b_c_1 0)"])], false⟩] }
    { Wraps := [⟨"a_b_c", false, [(0, ["(> a_b_c_0 10)"]), (1, ["(> a_b_c_1 10)"])], false⟩] }
    (by decide) (by decide) (by decide) (by decide) (by decide) (by decide)).1

/-! ### The same-base rule of `mergeByRound` -/

theorem getLast?_eq_getD (ss : List String) (x : String) (h : ss.getLast? = some x) :
    ss.getD (ss.length - 1) "" = x := by
  rw [List.getLast?_eq_getElem?] at h
  simp [List.getD_eq_getElem?_getD, h]

theorem sameBasePairs_ok (ss : List String) (hss : ss ≠ []) (leftLead : Bool)
    (idx : Nat) (long : List String) :
    sameBasePairs (some ss) leftLead idx long =
      .ok ((List.range long.length).map (fun j =>
        mergePairs (long.getD j "") (ss.getD (min (idx + j) (ss.length - 1)) "") leftLead)) := by
  induction long generalizing idx with
  | nil => simp [sameBasePairs]
  | cons s rest ih =>
    unfold sameBasePairs
    simp only
    rw [ih (idx + 1), List.length_cons, List.range_succ_eq_map, List.map_cons, List.map_map]
    have htail : (List.range rest.length).map (fun j =>
          mergePairs (rest.getD j "") (ss.getD (min (idx + 1 + j) (ss.length - 1)) "") leftLead) =
        (List.range rest.length).map ((fun j =>
          mergePairs ((s :: rest).getD j "") (ss.getD (min (idx + j) (ss.length - 1)) "")
            leftLead) ∘ Nat.succ) := by
      apply List.map_congr_left
      intro j _
      simp only [Function.comp, List.getD_cons_succ]
      have : idx + 1 + j = idx + j.succ := by omega
      rw [this]
    by_cases hlt : idx < ss.length
    · have hmin : min (idx + 0) (ss.length - 1) = idx := by omega
      simp only [hlt, if_true, htail, List.getD_cons_zero, hmin]
    · cases hl : ss.getLast? with
      | none =>
        rw [List.getLast?_eq_none_iff] at hl
        exact absurd hl hss
      | some x =>
        have hx := getLast?_eq_getD ss x hl
        have hmin : min (idx + 0) (ss.length - 1) = ss.length - 1 := by omega
        simp only [hlt, if_false, htail, List.getD_cons_zero, hmin, hx]

theorem sameBasePairs_nil (short : Option (List String)) (leftLead : Bool) (idx : Nat) :
    sameBasePairs short leftLead idx [] = .ok [] := by
  simp [sameBasePairs]

theorem packageOne_mergePairs (l r op : String) (leftLead : Bool) (hop : op ≠ "not") :
    packageOne (mergePairs l r leftLead) op =
      .ok (if leftLead then "(" ++ op ++ " " ++ l ++ " " ++ r ++ ")"
        else "(" ++ op ++ " " ++ r ++ " " ++ l ++ ")") := by
  cases leftLead <;> simp [mergePairs, packageOne_pair, hop]

theorem packageStateGraph_map_idx {α : Type} (js : List α) (p : α → List String)
    (r : α → String) (op : String) (h : ∀ j ∈ js, packageOne (p j) op = .ok (r j)) :
    packageStateGraph (js.map p) op = .ok (js.map r) := by
  induction js with
  | nil => rfl
  | cons j rest ih =>
    rw [List.map_cons, packageStateGraph, h j (List.mem_cons_self _ _),
      ih (fun k hk => h k (List.mem_cons_of_mem _ hk))]
    rfl

theorem forRounds_ok_mem (f : Nat → Except String (Option (List String)))
    (h : Nat → Option (List String)) (is : List Nat) (hf : ∀ i ∈ is, f i = .ok (h i)) :
    forRounds f is = .ok (is.filterMap (fun i => (h i).map (fun x => (i, x)))) := by
  induction is with
  | nil => rfl
  | cons i rest ih =>
    unfold forRounds
    rw [hf i (List.mem_cons_self _ _), ih (fun k hk => hf k (List.mem_cons_of_mem _ hk))]
    cases hi : h i <;> simp [hi]

theorem getD_ne_nil (m : RoundMap) (i : Nat) (h : m.getD i ≠ []) :
    m.get i = some (m.getD i) := by
  unfold RoundMap.getD RoundMap.get at *
  cases hl : List.lookup i m with
  | none => simp [hl] at h
  | some v => simp

theorem sameBase_round (long : List String) (short : RoundMap) (i : Nat) (leftLead : Bool)
    (op : String) (hop : op ≠ "not") (hne : long ≠ [] → short.getD i ≠ []) :
    (match sameBasePairs (short.get i) leftLead 0 long with
      | .error e => .error e
      | .ok pairs =>
        match packageStateGraph pairs op with
        | .error e => .error e
        | .ok t => .ok (some t)) =
      (.ok (some ((List.range long.length).map (fun j =>
        if leftLead then
          "(" ++ op ++ " " ++ long.getD j "" ++ " " ++
            (short.getD i).getD (min j ((short.getD i).length - 1)) "" ++ ")"
        else
          "(" ++ op ++ " " ++ (short.getD i).getD (min j ((short.getD i).length - 1)) "" ++
            " " ++ long.getD j "" ++ ")"))) : Except String (Option (List String))) := by
  by_cases hl : long = []
  · subst hl
    simp [sameBasePairs_nil, packageStateGraph]
  · have hs := hne hl
    rw [getD_ne_nil short i hs, sameBasePairs_ok _ hs]
    simp only [Nat.zero_add]
    rw [packageStateGraph_map_idx _ _ _ op
      (fun j _ => packageOne_mergePairs _ _ op leftLead hop)]

/-- C3 (amended). `mergeByRound` on two `States` that are not both constant and
refer to the same non-empty base, with an operator other than `not`, pairs
states positionally and never crosses them. Let the long side be the one whose
map holds at least as many rounds (the left one on a tie) and the short side the
other one; if in every round `i` in `0 .. Rounds` the short side holds no more
states than the long side, and at least one wherever the long side holds one,
then the result carries the base and for every round `i` in `0 .. Rounds` it
holds `max(|L_i|, |R_i|)` terms, the `j`-th being
`(op L_i[min(j,|L_i|-1)] R_i[min(j,|R_i|-1)])`. -/
theorem mergeByRound_same_base (g : Generator) (L R : States) (op : String)
    (hbase : L.Base = R.Base) (hne : L.Base ≠ "")
    (hconst : ¬ (L.Constant = true ∧ R.Constant = true)) (hop : op ≠ "not")
    (hshape : ∀ i ∈ roundIdx g,
      if R.States.length ≤ L.States.length then
        (R.States.getD i).length ≤ (L.States.getD i).length ∧
          (L.States.getD i ≠ [] → R.States.getD i ≠ [])
      else
        (L.States.getD i).length ≤ (R.States.getD i).length ∧
          (R.States.getD i ≠ [] → L.States.getD i ≠ [])) :
    ∃ res, mergeByRound g L R op = .ok res ∧ res.Base = L.Base ∧
      ∀ i ∈ roundIdx g,
        res.States.get i =
          some ((List.range (max (L.States.getD i).length (R.States.getD i).length)).map
            (fun j => "(" ++ op ++ " " ++
              (L.States.getD i).getD (min j ((L.States.getD i).length - 1)) "" ++ " " ++
              (R.States.getD i).getD (min j ((R.States.getD i).length - 1)) "" ++ ")")) := by
  have hne2 : R.Base ≠ "" := hbase ▸ hne
  have hround : ∀ i ∈ roundIdx g,
      (match sameBasePairs
          ((if decide (R.States.length ≤ L.States.length) = true
            then R.States else L.States).get i)
          (decide (R.States.length ≤ L.States.length)) 0
          ((if decide (R.States.length ≤ L.States.length) = true
            then L.States else R.States).getD i) with
        | .error e => .error e
        | .ok pairs =>
          match packageStateGraph pairs op with
          | .error e => .error e
          | .ok t => .ok (some t)) =
        (.ok (some ((List.range
            (max (L.States.getD i).length (R.States.getD i).length)).map
          (fun j => "(" ++ op ++ " " ++
            (L.States.getD i).getD (min j ((L.States.getD i).length - 1)) "" ++ " " ++
            (R.States.getD i).getD (min j ((R.States.getD i).length - 1)) "" ++ ")"))) :
          Except String (Option (List String))) := by
    intro i hi
    have hsh := hshape i hi
    by_cases hlead : R.States.length ≤ L.States.length
    · simp only [hlead, if_true, decide_True] at hsh ⊢
      rw [sameBase_round _ _ i true op hop hsh.2]
      have hmax : max (L.States.getD i).length (R.States.getD i).length =
          (L.States.getD i).length := by omega
      rw [hmax]
      congr 2
      apply List.map_congr_left
      intro j hj
      rw [List.mem_range] at hj
      have hmin : min j ((L.States.getD i).length - 1) = j := by omega
      simp [hmin]
    · simp only [hlead, if_false, decide_False, Bool.false_eq_true] at hsh ⊢
      rw [sameBase_round _ _ i false op hop hsh.2]
      have hmax : max (L.States.getD i).length (R.States.getD i).length =
          (R.States.getD i).length := by omega
      rw [hmax]
      congr 2
      apply List.map_congr_left
      intro j hj
      rw [List.mem_range] at hj
      have hmin : min j ((R.States.getD i).length - 1) = j := by omega
      simp [hmin]
  have hfor := forRounds_ok_mem _
    (fun i => some ((List.range
        (max (L.States.getD i).length (R.States.getD i).length)).map
      (fun j => "(" ++ op ++ " " ++
        (L.States.getD i).getD (min j ((L.States.getD i).length - 1)) "" ++ " " ++
        (R.States.getD i).getD (min j ((R.States.getD i).length - 1)) "" ++ ")")))
    (roundIdx g) hround
  refine ⟨{ Base := L.Base,
            States := (roundIdx g).filterMap (fun i => (some ((List.range
                (max (L.States.getD i).length (R.States.getD i).length)).map
              (fun j => "(" ++ op ++ " " ++
                (L.States.getD i).getD (min j ((L.States.getD i).length - 1)) "" ++ " " ++
                (R.States.getD i).getD (min j ((R.States.getD i).length - 1)) "" ++
                ")"))).map (fun x => (i, x))) }, ?_, rfl, ?_⟩
  · unfold mergeByRound
    rw [if_neg hconst, if_pos ⟨hbase, hne, hne2⟩]
    simp only []
    rw [hfor]
  · intro i hi
    simp only [RoundMap.get]
    rw [lookup_filterMap_rounds]
    simp [hi]

/-! ### Terminal variables along the shared round timeline -/

theorem inits_eq_nil_cons_tail {α : Type} (l : List α) : l.inits = [] :: l.inits.tail := by
  cases l <;> simp [List.inits]

theorem timelineRound_nil (lbase rbase : String) (pre : List (List String)) :
    timelineRound lbase rbase pre [] = [] := by
  simp [timelineRound]

theorem timelineRound_cons (lbase rbase : String) (pre : List (List String))
    (vr : List String) (rest : List (List String)) :
    timelineRound lbase rbase pre (vr :: rest) =
      (pairAfter lbase rbase (pre ++ [vr])).toList ++
        timelineRound lbase rbase (pre ++ [vr]) rest := by
  unfold timelineRound
  have hf : ((fun ini => pairAfter lbase rbase (pre ++ ini)) ∘ fun t => vr :: t) =
      (fun ini => pairAfter lbase rbase (pre ++ [vr] ++ ini)) := by
    funext ini
    simp [Function.comp]
  rw [List.inits_cons, List.tail_cons]
  conv_lhs => rw [inits_eq_nil_cons_tail rest]
  rw [List.map_cons, List.filterMap_cons, List.filterMap_map, hf]
  cases hp : pairAfter lbase rbase (pre ++ [vr]) <;> rfl

theorem latestState_snoc (base : String) (pre : List (List String)) (vr : List String) :
    latestState base (pre ++ [vr]) =
      if vr.head? = some base then some (strJoin vr "_") else latestState base pre := by
  unfold latestState
  rw [List.filter_append]
  by_cases h : vr.head? = some base
  · simp [List.filter_cons, h]
  · simp [List.filter_cons, h]

theorem strJoin_pair_ne (vr : List String) (h : vr.length = 2) : strJoin vr "_" ≠ "" := by
  match vr, h with
  | [a, b], _ =>
    intro hj
    have h2 := congrArg String.length hj
    simp [strJoin, String.intercalate, String.intercalate.go, String.length_append] at h2
    exact absurd h2.1.2 (by decide)

theorem pairAfter_snoc (lbase rbase : String) (pre : List (List String)) (vr : List String) :
    pairAfter lbase rbase (pre ++ [vr]) =
      if vr.head? = some lbase ∨ vr.head? = some rbase then
        match latestState lbase (pre ++ [vr]), latestState rbase (pre ++ [vr]) with
        | some l, some r => some (l, r)
        | _, _ => none
      else none := by
  unfold pairAfter
  simp

theorem carries_snoc (base s : String) (pre : List (List String)) (vr : List String)
    (hvr : vr.length = 2) (h : carries s (latestState base pre)) :
    carries (if vr.head? = some base then strJoin vr "_" else s)
      (latestState base (pre ++ [vr])) := by
  rw [latestState_snoc]
  by_cases hb : vr.head? = some base
  · simp only [hb, if_true]
    exact Or.inr ⟨rfl, strJoin_pair_ne vr hvr⟩
  · simp only [hb, if_false]
    exact h

theorem step_pairs (lbase rbase : String) (hne : lbase ≠ rbase) (pre : List (List String))
    (a b llast rlast : String)
    (hl : carries llast (latestState lbase pre)) (hr : carries rlast (latestState rbase pre)) :
    (if a = lbase ∧ rlast ≠ "" then
        [[if a = lbase then strJoin [a, b] "_" else llast, rlast]] else []) ++
      (if a = rbase ∧ (if a = lbase then strJoin [a, b] "_" else llast) ≠ "" then
        [[if a = lbase then strJoin [a, b] "_" else llast,
          if a = rbase then strJoin [a, b] "_" else rlast]] else []) =
      ((pairAfter lbase rbase (pre ++ [[a, b]])).toList).map (fun p => [p.1, p.2]) := by
  rw [pairAfter_snoc, latestState_snoc, latestState_snoc]
  simp only [List.head?_cons, Option.some.injEq]
  by_cases hal : a = lbase
  · have har : ¬ a = rbase := fun h => hne (hal.symm.trans h)
    simp only [hal, har, true_and, false_and, if_true, if_false, true_or, List.append_nil]
    have har2 : ¬ lbase = rbase := hne
    simp only [har2, if_false]
    rcases hr with ⟨h1, h2⟩ | ⟨h1, h2⟩
    · simp [h1, h2]
    · simp [h1, h2]
  · by_cases har : a = rbase
    · simp only [hal, har, true_and, false_and, if_true, if_false, or_true, List.nil_append]
      have hal2 : ¬ rbase = lbase := fun h => hne h.symm
      simp only [hal2, if_false]
      rcases hl with ⟨h1, h2⟩ | ⟨h1, h2⟩
      · simp [h1, h2]
      · simp [h1, h2]
    · simp [hal, har]

theorem termCombosRound_timeline (lbase rbase : String) (hne : lbase ≠ rbase)
    (rs pre : List (List String)) (llast rlast : String)
    (hwf : ∀ vr ∈ rs, vr.length = 2)
    (hl : carries llast (latestState lbase pre)) (hr : carries rlast (latestState rbase pre)) :
    ∃ ll rl, termCombosRound lbase rbase rs llast rlast =
        .ok ((timelineRound lbase rbase pre rs).map (fun p => [p.1, p.2]), ll, rl) ∧
      carries ll (latestState lbase (pre ++ rs)) ∧
      carries rl (latestState rbase (pre ++ rs)) := by
  induction rs generalizing pre llast rlast with
  | nil =>
    refine ⟨llast, rlast, ?_, ?_, ?_⟩
    · simp [termCombosRound, timelineRound_nil]
    · simpa using hl
    · simpa using hr
  | cons vr rest ih =>
    have hvr : vr.length = 2 := hwf vr (List.mem_cons_self _ _)
    have hl1 := carries_snoc lbase llast pre vr hvr hl
    have hr1 := carries_snoc rbase rlast pre vr hvr hr
    obtain ⟨ll, rl, hrec, hll, hrl⟩ := ih (pre ++ [vr]) _ _
      (fun v hv => hwf v (List.mem_cons_of_mem _ hv)) hl1 hr1
    have happ : pre ++ vr :: rest = pre ++ [vr] ++ rest := by simp
    refine ⟨ll, rl, ?_, happ ▸ hll, happ ▸ hrl⟩
    match vr, hvr with
    | [a, b], _ =>
      simp only [List.head?_cons, Option.some.injEq] at hrec
      unfold termCombosRound
      simp only [List.head?_cons, hrec]
      rw [timelineRound_cons, List.map_append, ← step_pairs lbase rbase hne pre a b llast rlast hl hr]

theorem termCombosFrom_timeline (lbase rbase : String) (hne : lbase ≠ rbase)
    (rounds : List (List (List String))) (pre : List (List String)) (llast rlast : String)
    (hwf : ∀ round ∈ rounds, ∀ vr ∈ round, vr.length = 2)
    (hl : carries llast (latestState lbase pre)) (hr : carries rlast (latestState rbase pre)) :
    termCombosFrom lbase rbase rounds llast rlast =
      .ok ((List.range rounds.length).map (fun k =>
        (timelineRound lbase rbase (pre ++ (rounds.take k).flatten) (rounds.getD k [])).map
          (fun p => [p.1, p.2]))) := by
  induction rounds generalizing pre llast rlast with
  | nil => simp [termCombosFrom]
  | cons rd rest ih =>
    obtain ⟨ll, rl, hrd, hll, hrl⟩ := termCombosRound_timeline lbase rbase hne rd pre llast rlast
      (hwf rd (List.mem_cons_self _ _)) hl hr
    have hrest := ih (pre ++ rd) ll rl
      (fun round hround => hwf round (List.mem_cons_of_mem _ hround)) hll hrl
    unfold termCombosFrom
    rw [hrd]
    simp only
    rw [hrest, List.length_cons, List.range_succ_eq_map, List.map_cons, List.map_map]
    simp [Function.comp_def, List.append_assoc]

theorem lookup_map_rounds (F : Nat → List String) (is : List Nat) (i : Nat) :
    List.lookup i (is.map (fun j => (j, F j))) = if i ∈ is then some (F i) else none := by
  induction is with
  | nil => simp
  | cons j rest ih =>
    rw [List.map_cons, lookup_cons_nat, ih]
    by_cases hij : i = j
    · subst hij
      simp
    · simp [hij]

theorem packageRounds_ok (op : String) (R : List (List String) → List String)
    (cs : List (List (List String))) (k : Nat)
    (h : ∀ c ∈ cs, packageStateGraph c op = .ok (R c)) :
    packageRounds op k cs =
      .ok ((List.range cs.length).map (fun j => (k + j, R (cs.getD j [])))) := by
  induction cs generalizing k with
  | nil => simp [packageRounds]
  | cons c rest ih =>
    unfold packageRounds
    rw [h c (List.mem_cons_self _ _), ih (k + 1) (fun d hd => h d (List.mem_cons_of_mem _ hd))]
    simp only
    rw [List.length_cons, List.range_succ_eq_map, List.map_cons, List.map_map]
    simp [Function.comp_def, Nat.add_assoc, Nat.add_comm 1]

theorem packageRounds_timeline (log : List (List (List String))) (lbase rbase op : String)
    (hop : op ≠ "not") :
    packageRounds op 0 ((List.range log.length).map (fun k =>
        (timelineRound lbase rbase ([] ++ (log.take k).flatten) (log.getD k [])).map
          (fun p => [p.1, p.2]))) =
      .ok ((List.range log.length).map (fun j =>
        (j, (timelinePairs log lbase rbase j).map
          (fun p => "(" ++ op ++ " " ++ p.1 ++ " " ++ p.2 ++ ")")))) := by
  rw [packageRounds_ok op
    (fun c => c.map (fun a => "(" ++ op ++ " " ++ a.getD 0 "" ++ " " ++ a.getD 1 "" ++ ")"))]
  · simp only [List.length_map, List.length_range, Nat.zero_add]
    congr 1
    apply List.map_congr_left
    intro j hj
    rw [List.mem_range] at hj
    simp [List.getD_eq_getElem?_getD, List.getElem?_range hj, timelinePairs,
      Function.comp_def]
  · intro c hc
    apply packageStateGraph_map
    intro a ha
    simp only [List.mem_map, List.mem_range] at hc
    obtain ⟨k, _, rfl⟩ := hc
    simp only [List.mem_map] at ha
    obtain ⟨p, _, rfl⟩ := ha
    simp [packageOne_pair _ _ op hop]

/-- C5 (amended). For two terminal variables `L` and `R` with distinct bases, neither
tagged constant, and an operator other than `not`, `mergeByRound` pairs them
along the shared round timeline of a log whose records are `[base, n]` pairs:
walking the round log in order, each record of `L` or `R` made once both have at
least one record yields exactly one term `(op L_latest R_latest)` built from the
most recent state of each, stored under the round of that record, the `L` state
being the first operand. -/
theorem mergeByRound_terminal (g : Generator) (L R : States) (op : String)
    (hL : L.Terminal = true) (hR : R.Terminal = true)
    (hLc : L.Constant = false) (hRc : R.Constant = false)
    (hne : L.Base ≠ R.Base) (hop : op ≠ "not")
    (hwf : ∀ round ∈ g.RoundVars, ∀ vr ∈ round, vr.length = 2) :
    ∃ res, mergeByRound g L R op = .ok res ∧
      ∀ i < g.RoundVars.length,
        res.States.get i =
          some ((timelinePairs g.RoundVars L.Base R.Base i).map
            (fun p => "(" ++ op ++ " " ++ p.1 ++ " " ++ p.2 ++ ")")) := by
  have hcombos := termCombosFrom_timeline L.Base R.Base hne g.RoundVars [] "" "" hwf
    (Or.inl ⟨rfl, rfl⟩) (Or.inl ⟨rfl, rfl⟩)
  have hpack := packageRounds_timeline g.RoundVars L.Base R.Base op hop
  refine ⟨{ States := (List.range g.RoundVars.length).map (fun j =>
      (j, (timelinePairs g.RoundVars L.Base R.Base j).map
        (fun p => "(" ++ op ++ " " ++ p.1 ++ " " ++ p.2 ++ ")"))) }, ?_, ?_⟩
  · unfold mergeByRound termCombos
    simp only [hLc, hRc, hL, hR, hne, Bool.false_eq_true, false_and, and_self, if_false,
      if_true, hcombos, hpack]
  · intro i hi
    simp only [RoundMap.get]
    rw [lookup_map_rounds]
    simp [hi]

/-- C5 (witness). `a_b_c` written in rounds 0 and 1 against the single state of
`d_e_f`: one term per record made once both have a record, the state of
`a_b_c` first. -/
theorem mergeByRound_terminal_witness :
    ∃ res,
      mergeByRound (logTwoVars "a_b_c" "d_e_f")
          (terminalVar "a_b_c" [(0, ["a_b_c_0"]), (1, ["a_b_c_1"])])
          (terminalVar "d_e_f" [(0, ["d_e_f_0"])]) "<=" = .ok res ∧
        res.States.get 0 = some ["(<= a_b_c_0 d_e_f_0)"] ∧
        res.States.get 1 = some ["(<= a_b_c_1 d_e_f_0)"] := by
  obtain ⟨res, h1, h2⟩ := mergeByRound_terminal (logTwoVars "a_b_c" "d_e_f")
    (terminalVar "a_b_c" [(0, ["a_b_c_0"]), (1, ["a_b_c_1"])])
    (terminalVar "d_e_f" [(0, ["d_e_f_0"])]) "<="
    rfl rfl rfl rfl (by decide) (by decide) (by decide)
  exact ⟨res, h1, (h2 0 (by decide)).trans (by decide), (h2 1 (by decide)).trans (by decide)⟩

/-- C5 (counterexample). With the operator `not`, to which `!=` lowers, the term of
two terminal variables is `(not (= L R))` and not `(not L R)`. -/
theorem mergeByRound_terminal_counterexample :
    mergeByRound (logTwoVars "a_b_c" "d_e_f")
        (terminalVar "a_b_c" [(0, ["a_b_c_0"]), (1, ["a_b_c_1"])])
        (terminalVar "d_e_f" [(0, ["d_e_f_0"])]) "not" =
      .ok { States := [(0, ["(not (= a_b_c_0 d_e_f_0))"]),
                       (1, ["(not (= a_b_c_1 d_e_f_0))"])] } ∧
    mergeByRound (logTwoVars "a_b_c" "d_e_f")
        (terminalVar "a_b_c" [(0, ["a_b_c_0"]), (1, ["a_b_c_1"])])
        (terminalVar "d_e_f" [(0, ["d_e_f_0"])]) "not" ≠
      .ok { States := [(0, ["(not a_b_c_0 d_e_f_0)"]),
                       (1, ["(not a_b_c_1 d_e_f_0)"])] } := by
  decide

/-- C3 (witness). Two operands over the same base with one state per round on either
side: each state is paired with itself, one term per round. -/
theorem mergeByRound_same_base_witness :
    ∃ res,
      mergeByRound (logTwoRounds "a_b_c")
          (derivedStates "a_b_c" [(0, ["(<= a_b_c_0 0)"]), (1, ["(<= a_b_c_1 0)"])])
          (derivedStates "a_b_c" [(0, ["(> a_b_c_0 10)"]), (1, ["(> a_b_c_1 10)"])])
          "and" = .ok res ∧
        res.Base = "a_b_c" ∧
        res.States.get 0 = some ["(and (<= a_b_c_0 0) (> a_b_c_0 10))"] ∧
        res.States.get 1 = some ["(and (<= a_b_c_1 0) (> a_b_c_1 10))"] := by
  obtain ⟨res, h1, h2, h3⟩ := mergeByRound_same_base (logTwoRounds "a_b_c")
    (derivedStates "a_b_c" [(0, ["(<= a_b_c_0 0)"]), (1, ["(<= a_b_c_1 0)"])])
    (derivedStates "a_b_c" [(0, ["(> a_b_c_0 10)"]), (1, ["(> a_b_c_1 10)"])])
    "and" rfl (by decide) (by decide) (by decide) (by decide)
  exact ⟨res, h1, h2, h3 0 (by decide), h3 1 (by decide)⟩

/-- C3 (counterexample). Two constant-tagged states of the same base, recorded in
round 1: `mergeByRound` takes the both-constant rule, reads round 0 only and
returns no term at all for round 1, where either side holds one state. -/
theorem mergeByRound_same_base_counterexample :
    mergeByRound (logTwoRounds "a_b_c")
        (indexedState "a_b_c" 1 "a_b_c_1") (indexedState "a_b_c" 1 "a_b_c_1") "<=" =
      .ok { States := [(0, [])] } ∧
    (RoundMap.getD [(0, [])] 1).length = 0 ∧
    max ((indexedState "a_b_c" 1 "a_b_c_1").States.getD 1).length
      ((indexedState "a_b_c" 1 "a_b_c_1").States.getD 1).length = 1 := by
  decide

/-! ### Two variables under a temporal modifier -/

theorem length_flatMap_map {α β γ : Type} (l : List α) (r : List β) (f : α → β → γ) :
    (l.flatMap (fun a => r.map (f a))).length = l.length * r.length := by
  induction l with
  | nil => simp
  | cons a rest ih =>
    rw [List.flatMap_cons, List.length_append, ih, List.length_map, List.length_cons]
    rw [Nat.succ_mul, Nat.add_comm]

theorem parseInvariantNode_var_bases (g : Generator) (X : String) (stateRange : Bool)
    (l : StateGroup) (h : parseInvariantNode g (.AssertVar [X]) stateRange = .ok (some l)) :
    l.Bases = [X] := by
  unfold parseInvariantNode assertVarWraps at h
  cases hv : varRounds g X (captureState X).1 with
  | error e => simp [hv] at h
  | ok vr =>
    simp only [hv, assertVarWraps] at h
    injection h with h
    injection h with h
    rw [← h]
    simp [StateGroup.AddWrap, StateGroup.AddBase, NewStateGroup]

/-- C9 (amended). For an assert `eventually X op Y` over two variables whose base
sets differ, with `op` neither `then` nor lowered to `not` and no counting
filter, the terms of the result are the full product of the flattened states of
`X` with those of `Y`: one term `(op X_i Y_j)` for every state of `X` and every
state of `Y`, whatever their rounds, `|states(X)| * |states(Y)|` terms (at least
two), joined by `and`. -/
theorem parseAssert_eventually_two_vars (diff : List String → List String → List String)
    (g : Generator) (X Y op : String) (l r : StateGroup)
    (hl : parseInvariantNode g (.AssertVar [X]) false = .ok (some l))
    (hr : parseInvariantNode g (.AssertVar [Y]) false = .ok (some r))
    (hdiff : diff [X] [Y] ≠ [])
    (hthen : op ≠ "then") (hnot : smtlibOperators op ≠ "not")
    (hn : 2 ≤ (flattenStates g l).length * (flattenStates g r).length) :
    parseAssert diff g
        { Constraint := ⟨.AssertVar [X], op, .AssertVar [Y]⟩, Temporal := "eventually" } =
      .ok ("(and " ++ strJoin ((flattenStates g l).flatMap (fun x =>
          (flattenStates g r).map (fun y =>
            "(" ++ smtlibOperators op ++ " " ++ x ++ " " ++ y ++ ")"))) " " ++ ")") ∧
    ((flattenStates g l).flatMap (fun x =>
        (flattenStates g r).map (fun y =>
          "(" ++ smtlibOperators op ++ " " ++ x ++ " " ++ y ++ ")"))).length =
      (flattenStates g l).length * (flattenStates g r).length := by
  have hlen := length_flatMap_map (flattenStates g l) (flattenStates g r)
    (fun x y => "(" ++ smtlibOperators op ++ " " ++ x ++ " " ++ y ++ ")")
  refine ⟨?_, hlen⟩
  have hd : ¬ (diff l.Bases r.Bases).length = 0 := by
    rw [parseInvariantNode_var_bases g X false l hl, parseInvariantNode_var_bases g Y false r hr]
    intro h0
    exact hdiff (List.length_eq_zero.mp h0)
  have hir : temporalTerms diff g
      { Constraint := ⟨.AssertVar [X], op, .AssertVar [Y]⟩, Temporal := "eventually" } l r =
      .ok ((flattenStates g l).flatMap (fun x =>
        (flattenStates g r).map (fun y =>
          "(" ++ smtlibOperators op ++ " " ++ x ++ " " ++ y ++ ")"))) := by
    unfold temporalTerms expandAssertStateGraph
    simp only [hd, if_false]
    exact packageStateGraph_pairs _ _ _ hnot
  rw [parseAssert_temporal diff g _ l r _ hthen (by show "eventually" ≠ ""; decide) hl hr hir]
  rw [applyTemporalLogic_eventually _ _ _ _ (by rw [hlen]; exact hn)]
  rfl

/-- C9 (witness). Two variables with two states each: four terms joined by `and`. -/
theorem parseAssert_eventually_two_vars_witness :
    parseAssert DiffStrSets (logBothTwoRounds "a_b_c" "d_e_f")
        { Constraint := ⟨.AssertVar ["a_b_c"], ">", .AssertVar ["d_e_f"]⟩,
          Temporal := "eventually" } =
      .ok "(and (> a_b_c_0 d_e_f_0) (> a_b_c_0 d_e_f_1) (> a_b_c_1 d_e_f_0) (> a_b_c_1 d_e_f_1))" :=
  (parseAssert_eventually_two_vars DiffStrSets (logBothTwoRounds "a_b_c" "d_e_f")
    "a_b_c" "d_e_f" ">"
    { Wraps := [terminalVar "a_b_c" [(0, ["a_b_c_0"]), (1, ["a_b_c_1"])]],
      Bases := ["a_b_c"] }
    { Wraps := [terminalVar "d_e_f" [(0, ["d_e_f_0"]), (1, ["d_e_f_1"])]],
      Bases := ["d_e_f"] }
    (by decide) (by decide) (by decide) (by decide) (by decide) (by decide)).1

/-- C9 (counterexample). With `X` and `Y` both written in rounds 0 and 1, the assert
`eventually X > Y` yields four terms joined by `and`, among them
`(> X_0 Y_1)` and `(> X_1 Y_0)` that relate states of different rounds, instead
of the two per-round pairs joined by `or`. -/
theorem parseAssert_eventually_two_vars_counterexample :
    parseAssert DiffStrSets (logBothTwoRounds "a_b_c" "d_e_f")
        { Constraint := ⟨.AssertVar ["a_b_c"], ">", .AssertVar ["d_e_f"]⟩,
          Temporal := "eventually" } =
      .ok "(and (> a_b_c_0 d_e_f_0) (> a_b_c_0 d_e_f_1) (> a_b_c_1 d_e_f_0) (> a_b_c_1 d_e_f_1))" ∧
    parseAssert DiffStrSets (logBothTwoRounds "a_b_c" "d_e_f")
        { Constraint := ⟨.AssertVar ["a_b_c"], ">", .AssertVar ["d_e_f"]⟩,
          Temporal := "eventually" } ≠
      .ok "(or (> a_b_c_0 d_e_f_0) (> a_b_c_1 d_e_f_1))" := by
  decide

/-! ### The counting filters -/

theorem Cartesian_eq_product (list1 list2 : List String) :
    Cartesian list1 list2 = (list1.product list2).map pairSlice := by
  simp [Cartesian, List.product, List.map_flatMap, pairSlice, Function.comp_def]

theorem pairSlice_injective : Function.Injective pairSlice := by
  intro p q h
  simp only [pairSlice, List.cons.injEq, and_true] at h
  exact Prod.ext h.1 h.2

theorem sublistsLen_map_eq {α β : Type} (f : α → β) (l : List α) (n : Nat) :
    List.sublistsLen n (l.map f) = (List.sublistsLen n l).map (List.map f) := by
  induction l generalizing n with
  | nil => cases n <;> simp
  | cons a rest ih =>
    cases n with
    | zero => simp
    | succ k =>
      simp [List.sublistsLen_succ_cons, ih, Function.comp_def]

theorem Combinations_product (P : List (String × String)) (N : Nat) :
    Combinations (P.map pairSlice) (N : Int) =
      (List.sublistsLen N P).map (List.map pairSlice) := by
  simp [Combinations, sublistsLen_map_eq]

theorem NotInSet_product (S P : List (String × String)) :
    NotInSet (S.map pairSlice) (P.map pairSlice) =
      (P.filter (fun p => !(S.contains p))).map pairSlice := by
  unfold NotInSet
  rw [List.filter_map]
  congr 1
  apply List.filter_congr
  intro p _
  have h : (S.map pairSlice).contains (pairSlice p) = S.contains p := by
    rw [Bool.eq_iff_iff]
    simp [pairSlice_injective.eq_iff]
  simp only [Function.comp, h]

theorem clauses_map (f : List String → Except String String) (h : List String → String)
    (ps : List (List String)) (hf : ∀ p ∈ ps, f p = .ok (h p)) :
    clauses f ps = .ok (ps.map h) := by
  induction ps with
  | nil => rfl
  | cons p rest ih =>
    unfold clauses
    rw [hf p (List.mem_cons_self _ _), ih (fun q hq => hf q (List.mem_cons_of_mem _ hq))]
    rfl

theorem clauses_on (op : String) (S : List (String × String)) :
    clauses (onClause op) (S.map pairSlice) = .ok (S.map (onTerm op)) := by
  rw [clauses_map (onClause op) (fun p => onTerm op (p.getD 0 "", p.getD 1 ""))]
  · simp [pairSlice, Function.comp_def]
  · intro p hp
    obtain ⟨q, _, rfl⟩ := List.mem_map.1 hp
    simp [pairSlice, onClause, onTerm]

theorem clauses_off (op : String) (S : List (String × String)) :
    clauses (offClause op) (S.map pairSlice) = .ok (S.map (offTerm op)) := by
  rw [clauses_map (offClause op) (fun p => offTerm op (p.getD 0 "", p.getD 1 ""))]
  · simp [pairSlice, Function.comp_def]
  · intro p hp
    obtain ⟨q, _, rfl⟩ := List.mem_map.1 hp
    by_cases hop : op = "=" <;> simp [pairSlice, offClause, offTerm, hop]

theorem nmtTerms_product (op : String) (P : List (String × String))
    (Ss : List (List (String × String))) :
    nmtTerms op (impliesOnOffPairs (Ss.map (List.map pairSlice)) (P.map pairSlice)) =
      .ok (Ss.map (fun S => [groupOrSingle "or" (S.map (onTerm op)),
        groupOrSingle "and" ((P.filter (fun p => !(S.contains p))).map (offTerm op))])) := by
  induction Ss with
  | nil => rfl
  | cons S rest ih =>
    simp only [impliesOnOffPairs, List.map_cons] at ih ⊢
    unfold nmtTerms
    simp only [clauses_on, NotInSet_product, clauses_off, ih]

theorem nftTerms_product (op : String) (P : List (String × String))
    (Ss : List (List (String × String))) :
    nftTerms op (impliesOnOffPairs (Ss.map (List.map pairSlice)) (P.map pairSlice)) =
      .ok (Ss.map (fun S => [nftTerm op S])) := by
  induction Ss with
  | nil => rfl
  | cons S rest ih =>
    simp only [impliesOnOffPairs, List.map_cons] at ih ⊢
    unfold nftTerms
    simp only [clauses_on, ih, nftTerm]

theorem applyTemporalLogic_filter (ir : List String) (filter onOp offOp : String)
    (hf : filter = "nmt" ∨ filter = "nft") (hir : 2 ≤ ir.length) :
    applyTemporalLogic "" ir filter onOp offOp = .ok ("(or " ++ strJoin ir " " ++ ")") := by
  unfold applyTemporalLogic
  have h1 : 1 < ir.length := by omega
  rcases hf with rfl | rfl <;> simp [h1]

/-- C11 (amended). With `P` the product of the two sides' flattened states,
`expandAssertStateGraph` with the filter `nmt N`, for every `N` with
`1 <= N <= |P|`, returns exactly one term per size-`N` subset `S` of `P`,
`C(|P|, N)` terms (at least one) in the order of the subsets, each `(and ON OFF)`
where `ON` is `(or <on-clauses of S>)` and `OFF` is
`(and <off-clauses of P minus S>)`, a group of exactly one clause being written
as the clause itself; with the empty temporal modifier two or more terms are
wrapped in `(or ...)`, for asserts and assumes alike. -/
theorem expandAssertStateGraph_nmt (list1 list2 : List String) (op : String) (N : Nat)
    (onOp offOp : String) (hN : 1 ≤ N ∧ N ≤ (list1.product list2).length) :
    expandAssertStateGraph list1 list2 op "nmt" (N : Int) =
        .ok ((List.sublistsLen N (list1.product list2)).map (nmtTerm op (list1.product list2))) ∧
      ((List.sublistsLen N (list1.product list2)).map
        (nmtTerm op (list1.product list2))).length = Nat.choose (list1.product list2).length N ∧
      1 ≤ Nat.choose (list1.product list2).length N ∧
      (2 ≤ Nat.choose (list1.product list2).length N →
        applyTemporalLogic ""
          ((List.sublistsLen N (list1.product list2)).map (nmtTerm op (list1.product list2)))
          "nmt" onOp offOp =
        .ok ("(or " ++ strJoin ((List.sublistsLen N (list1.product list2)).map
          (nmtTerm op (list1.product list2))) " " ++ ")")) := by
  refine ⟨?_, by simp, Nat.choose_pos hN.2, ?_⟩
  · unfold expandAssertStateGraph
    simp only [Cartesian_eq_product, Combinations_product, nmtTerms_product, if_true]
    rw [packageStateGraph_map _ "and" (fun a => "(and " ++ a.getD 0 "" ++ " " ++ a.getD 1 "" ++ ")")]
    · simp [nmtTerm, Function.comp_def]
    · intro a ha
      obtain ⟨S, _, rfl⟩ := List.mem_map.1 ha
      simp [packageOne]
  · intro h
    exact applyTemporalLogic_filter _ "nmt" onOp offOp (Or.inl rfl) (by simpa using h)

/-- C12 (amended). With `P` the product of the two sides' flattened states,
`expandAssertStateGraph` with the filter `nft N` returns exactly one term per
size-`N` subset `S` of `P`, `C(|P|, N)` terms in the order of the subsets, each
the conjunction `(and (op a_1 b_1) ... (op a_N b_N))` of the on-clauses of `S`
and nothing about the complement, a single on-clause (`N = 1`) being written as
the clause itself; with the empty temporal modifier two or more terms are
wrapped in `(or ...)`. -/
theorem expandAssertStateGraph_nft (list1 list2 : List String) (op : String) (N : Nat)
    (onOp offOp : String) :
    expandAssertStateGraph list1 list2 op "nft" (N : Int) =
        .ok ((List.sublistsLen N (list1.product list2)).map (nftTerm op)) ∧
      ((List.sublistsLen N (list1.product list2)).map (nftTerm op)).length =
        Nat.choose (list1.product list2).length N ∧
      (2 ≤ Nat.choose (list1.product list2).length N →
        applyTemporalLogic "" ((List.sublistsLen N (list1.product list2)).map (nftTerm op))
          "nft" onOp offOp =
        .ok ("(or " ++ strJoin ((List.sublistsLen N (list1.product list2)).map
          (nftTerm op)) " " ++ ")")) := by
  refine ⟨?_, by simp, ?_⟩
  · unfold expandAssertStateGraph
    have hne : ¬ ("nft" = "nmt") := by decide
    simp only [Cartesian_eq_product, Combinations_product, nftTerms_product, if_true, hne,
      if_false]
    rw [packageStateGraph_map _ "or" (fun a => a.getD 0 "")]
    · simp [Function.comp_def]
    · intro a ha
      obtain ⟨S, _, rfl⟩ := List.mem_map.1 ha
      simp [packageOne]
  · intro h
    exact applyTemporalLogic_filter _ "nft" onOp offOp (Or.inr rfl) (by simpa using h)

/-- C11 (witness). Four states against the literal `5` with `nmt 2`: six subsets,
hence six terms, wrapped in `(or ...)`. -/
theorem expandAssertStateGraph_nmt_witness :
    (1 ≤ 2 ∧ 2 ≤ (["a_0", "a_1", "a_2", "a_3"].product ["5"]).length) ∧
    2 ≤ Nat.choose (["a_0", "a_1", "a_2", "a_3"].product ["5"]).length 2 ∧
    applyTemporalLogic ""
        ((List.sublistsLen 2 (["a_0", "a_1", "a_2", "a_3"].product ["5"])).map
          (nmtTerm "=" (["a_0", "a_1", "a_2", "a_3"].product ["5"]))) "nmt" "and" "or" =
      .ok ("(or " ++ strJoin ((List.sublistsLen 2 (["a_0", "a_1", "a_2", "a_3"].product ["5"])).map
        (nmtTerm "=" (["a_0", "a_1", "a_2", "a_3"].product ["5"]))) " " ++ ")") :=
  ⟨by decide, by decide,
    (expandAssertStateGraph_nmt ["a_0", "a_1", "a_2", "a_3"] ["5"] "=" 2 "and" "or"
      (by decide)).2.2.2 (by decide)⟩

/-- C11 (counterexample). With `nmt 1` over two states the on-part of a term is the
bare on-clause and the off-part the bare off-clause: the term is
`(and (= a_0 5) (not (= a_1 5)))`, not `(and (or (= a_0 5)) (and (not (= a_1 5))))`;
`parseAssert` returns the two terms of `a_b_c == 5 nmt 1` wrapped in `(or ...)`. -/
theorem expandAssertStateGraph_nmt_counterexample :
    expandAssertStateGraph ["a_0", "a_1"] ["5"] "=" "nmt" 1 =
      .ok ["(and (= a_1 5) (not (= a_0 5)))", "(and (= a_0 5) (not (= a_1 5)))"] ∧
    expandAssertStateGraph ["a_0", "a_1"] ["5"] "=" "nmt" 1 ≠
      .ok ["(and (or (= a_1 5)) (and (not (= a_0 5))))",
           "(and (or (= a_0 5)) (and (not (= a_1 5))))"] ∧
    parseAssert DiffStrSets (logTwoRounds "a_b_c")
        { Constraint := ⟨.AssertVar ["a_b_c"], "==", .IntegerLiteral 5⟩,
          TemporalFilter := "nmt", TemporalN := 1 } =
      .ok "(or (and (= a_b_c_1 5) (not (= a_b_c_0 5))) (and (= a_b_c_0 5) (not (= a_b_c_1 5))))" := by
  decide

/-- C12 (witness). Three states against the literal `5` with `nft 2`: three subsets,
hence three conjunctions, wrapped in `(or ...)`. -/
theorem expandAssertStateGraph_nft_witness :
    2 ≤ Nat.choose (["a_0", "a_1", "a_2"].product ["5"]).length 2 ∧
    applyTemporalLogic ""
        ((List.sublistsLen 2 (["a_0", "a_1", "a_2"].product ["5"])).map (nftTerm "="))
        "nft" "and" "or" =
      .ok ("(or " ++ strJoin ((List.sublistsLen 2 (["a_0", "a_1", "a_2"].product ["5"])).map
        (nftTerm "=")) " " ++ ")") :=
  ⟨by decide,
    (expandAssertStateGraph_nft ["a_0", "a_1", "a_2"] ["5"] "=" 2 "and" "or").2.2 (by decide)⟩

/-- C12 (counterexample). With `nft 1` a term is the bare on-clause `(= a_0 5)`, not
the conjunction `(and (= a_0 5))`. -/
theorem expandAssertStateGraph_nft_counterexample :
    expandAssertStateGraph ["a_0", "a_1"] ["5"] "=" "nft" 1 = .ok ["(= a_1 5)", "(= a_0 5)"] ∧
    expandAssertStateGraph ["a_0", "a_1"] ["5"] "=" "nft" 1 ≠
      .ok ["(and (= a_1 5))", "(and (= a_0 5))"] ∧
    parseAssert DiffStrSets (logTwoRounds "a_b_c")
        { Constraint := ⟨.AssertVar ["a_b_c"], "==", .IntegerLiteral 5⟩,
          TemporalFilter := "nft", TemporalN := 1 } =
      .ok "(or (= a_b_c_1 5) (= a_b_c_0 5))" := by
  decide

/-! ### Staged invariants -/

theorem parseInvariantNode_comparison (g : Generator) (b op : String) (c : Int)
    (stateRange : Bool) (hb : captureState b = ("", true, false)) (hint : b ≠ "__int")
    (hop : op ∈ ["<", "<=", ">", ">=", "=="]) (L st : RoundMap)
    (hL : L = (lookupBase g b).foldl
      (fun (ir : RoundMap) s => ir.push s.round (b ++ "_" ++ toString s.num)) [])
    (hst : st = (roundIdx g).filterMap (fun i =>
          ((L.get i).map (fun v => v.flatMap (fun a =>
            [toString c].map
              (fun x => "(" ++ smtlibOperators op ++ " " ++ a ++ " " ++ x ++ ")")))).map
            (fun x => (i, x)))) :
    parseInvariantNode g (.InfixExpression (.AssertVar [b]) op (.IntegerLiteral c)) stateRange =
      .ok (some { Wraps := [{ Base := b, States := st }] }) := by
  subst hL
  subst hst
  obtain ⟨_, hnot, _, _⟩ := comparison_facts op hop
  have hm := mergeByRound_right_constant g
    { Base := b, Terminal := true,
      States := (lookupBase g b).foldl
        (fun ir s => ir.push s.round (b ++ "_" ++ toString s.num)) [],
      Constant := false }
    { Base := "__int", States := [(0, [toString c])], Constant := true }
    (smtlibOperators op) hnot rfl rfl hint
  have hmi := mergeInvariantInfix_single g _ _ [b] [] _ _ hm
  unfold parseInvariantNode
  simp only [parseInvariantNode_var g b stateRange hb, parseInvariantNode_int, hmi]
  rfl

theorem comparison_get (g : Generator) (b op : String) (c : Int) (L st : RoundMap)
    (hL : L = (lookupBase g b).foldl
      (fun (ir : RoundMap) s => ir.push s.round (b ++ "_" ++ toString s.num)) [])
    (hst : st = (roundIdx g).filterMap (fun i =>
          ((L.get i).map (fun v => v.flatMap (fun a =>
            [toString c].map
              (fun x => "(" ++ smtlibOperators op ++ " " ++ a ++ " " ++ x ++ ")")))).map
            (fun x => (i, x))))
    (i : Nat) (hi : i ∈ roundIdx g) (he : ∃ e ∈ lookupBase g b, e.round = i) :
    st.get i = some (comparisonTerms g b op c i) ∧ comparisonTerms g b op c i ≠ [] := by
  have hne : ((lookupBase g b).filter (fun e => e.round = i)) ≠ [] := by
    obtain ⟨e, he1, he2⟩ := he
    intro h
    have : e ∈ (lookupBase g b).filter (fun e => e.round = i) := by
      simp [List.mem_filter, he1, he2]
    rw [h] at this
    simp at this
  have hgetD : L.getD i = ((lookupBase g b).filter (fun e => e.round = i)).map
      (fun e => b ++ "_" ++ toString e.num) := by
    rw [hL, foldl_push_getD]
    simp [RoundMap.getD]
  have hget : L.get i = some (L.getD i) := by
    apply getD_ne_nil
    rw [hgetD]
    simpa using hne
  constructor
  · subst hst
    unfold RoundMap.get
    rw [lookup_filterMap_rounds]
    simp only [hi, if_true]
    unfold RoundMap.get at hget
    rw [hget, hgetD]
    simp [comparisonTerms, flatMap_single_eq_map, List.flatMap_map, Function.comp_def]
  · simpa [comparisonTerms] using hne

theorem crossRounds_covered (left right : States) (op : String) (hop : op ≠ "not")
    (F G : Nat → List String) (is : List Nat)
    (hl : ∀ i ∈ is, left.States.get i = some (F i) ∧ F i ≠ [])
    (hr : ∀ i ∈ is, right.States.get i = some (G i) ∧ G i ≠ [])
    (llast rlast : Option (List String)) :
    crossRounds left right op is llast rlast =
      .ok (is.map (fun i => (i, (F i).flatMap (fun a => (G i).map
        (fun b => "(" ++ op ++ " " ++ a ++ " " ++ b ++ ")"))))) := by
  induction is generalizing llast rlast with
  | nil => rfl
  | cons i rest ih =>
    obtain ⟨hl1, hl2⟩ := hl i (List.mem_cons_self _ _)
    obtain ⟨hr1, hr2⟩ := hr i (List.mem_cons_self _ _)
    unfold crossRounds
    simp only [roundOrLast, hl1, hr1, packageStateGraph_pairs _ _ op hop]
    obtain ⟨x, hx⟩ := Option.isSome_iff_exists.1 (List.getLast?_isSome.2 hl2)
    obtain ⟨y, hy⟩ := Option.isSome_iff_exists.1 (List.getLast?_isSome.2 hr2)
    simp only [hx, hy]
    rw [ih (fun j hj => hl j (List.mem_cons_of_mem _ hj))
      (fun j hj => hr j (List.mem_cons_of_mem _ hj))]
    rfl

theorem mergeByRound_covered (g : Generator) (W1 W2 : States) (op : String)
    (hop : op ≠ "not") (hc1 : W1.Constant = false) (hc2 : W2.Constant = false)
    (hbase : W1.Base ≠ W2.Base) (ht : W1.Terminal = false)
    (F G : Nat → List String)
    (hl : ∀ i ∈ roundIdx g, W1.States.get i = some (F i) ∧ F i ≠ [])
    (hr : ∀ i ∈ roundIdx g, W2.States.get i = some (G i) ∧ G i ≠ []) :
    mergeByRound g W1 W2 op =
      .ok ⟨"", false, (roundIdx g).map (fun i => (i, (F i).flatMap (fun a => (G i).map
        (fun b => "(" ++ op ++ " " ++ a ++ " " ++ b ++ ")")))), false⟩ := by
  unfold mergeByRound
  simp only [hc1, hc2, hbase, ht, false_and, if_false, Bool.false_eq_true, and_false,
    and_self, crossRounds_covered W1 W2 op hop F G (roundIdx g) hl hr none none]

theorem flatten_rounds_map (g : Generator) (T : Nat → List String) (base : String) :
    flattenStates g { Wraps := [⟨base, false, (roundIdx g).map (fun i => (i, T i)), false⟩] } =
      (roundIdx g).flatMap T := by
  rw [flattenStates_single]
  apply List.flatMap_congr
  intro i hi
  simp [RoundMap.getD, lookup_map_rounds, hi]

theorem length_le_flatMap {α β : Type} (f : α → List β) (l : List α)
    (h : ∀ a ∈ l, f a ≠ []) : l.length ≤ (l.flatMap f).length := by
  induction l with
  | nil => simp
  | cons a rest ih =>
    have h1 : 1 ≤ (f a).length := by
      have := h a (List.mem_cons_self _ _)
      cases hfa : f a with
      | nil => exact absurd hfa this
      | cons _ _ => simp
    have h2 := ih (fun b hb => h b (List.mem_cons_of_mem _ hb))
    simp only [List.flatMap_cons, List.length_append, List.length_cons]
    omega

/-- A staged invariant over two comparisons `b1 op1 c1` and `b2 op2 c2` of two
distinct variables (read with all their states) against integer literals, over a
round log in which both variables have a state recorded in every round
`0 .. Rounds`: `parseAssert` returns and yields, round by round, one disjunction
`(or x y)` for every pair of a when-side term `x` and a then-side term `y` of
that round, all of them conjoined. -/
theorem whenThen_comparisons (diff : List String → List String → List String)
    (g : Generator) (b1 b2 op1 op2 : String) (c1 c2 : Int)
    (hb1 : captureState b1 = ("", true, false)) (hb2 : captureState b2 = ("", true, false))
    (hint1 : b1 ≠ "__int") (hint2 : b2 ≠ "__int") (hne : b1 ≠ b2)
    (hop1 : op1 ∈ ["<", "<=", ">", ">=", "=="]) (hop2 : op2 ∈ ["<", "<=", ">", ">=", "=="])
    (hrounds : 1 ≤ g.Rounds)
    (h1 : ∀ i ∈ roundIdx g, ∃ e ∈ lookupBase g b1, e.round = i)
    (h2 : ∀ i ∈ roundIdx g, ∃ e ∈ lookupBase g b2, e.round = i) :
    parseAssert diff g
        (whenThen (.InfixExpression (.AssertVar [b1]) op1 (.IntegerLiteral c1))
          (.InfixExpression (.AssertVar [b2]) op2 (.IntegerLiteral c2))) =
      .ok ("(and " ++ strJoin ((roundIdx g).flatMap (fun i =>
        (comparisonTerms g b1 op1 c1 i).flatMap (fun x =>
          (comparisonTerms g b2 op2 c2 i).map (fun y => "(or " ++ x ++ " " ++ y ++ ")"))))
        " " ++ ")") := by
  have hp1 := parseInvariantNode_comparison g b1 op1 c1 true hb1 hint1 hop1 _ _ rfl rfl
  have hp2 := parseInvariantNode_comparison g b2 op2 c2 true hb2 hint2 hop2 _ _ rfl rfl
  have hg1 := fun i hi => comparison_get g b1 op1 c1 _ _ rfl rfl i hi (h1 i hi)
  have hg2 := fun i hi => comparison_get g b2 op2 c2 _ _ rfl rfl i hi (h2 i hi)
  have hm := mergeByRound_covered g ⟨b1, false, _, false⟩ ⟨b2, false, _, false⟩ "or"
    (by decide) rfl rfl hne rfl _ _ hg1 hg2
  have hmi := mergeInvariantInfix_single g _ _ [] [] "or" _ hm
  have hlen : (flattenStates g { Wraps := [⟨"", false,
      (roundIdx g).map (fun i => (i,
        (comparisonTerms g b1 op1 c1 i).flatMap (fun x =>
          (comparisonTerms g b2 op2 c2 i).map
            (fun y => "(" ++ "or" ++ " " ++ x ++ " " ++ y ++ ")")))), false⟩] }).length ≠ 1 := by
    rw [flatten_rounds_map]
    have hlen1 := length_le_flatMap (fun i =>
        (comparisonTerms g b1 op1 c1 i).flatMap (fun x =>
          (comparisonTerms g b2 op2 c2 i).map
            (fun y => "(" ++ "or" ++ " " ++ x ++ " " ++ y ++ ")"))) (roundIdx g) (by
      intro i hi
      obtain ⟨x, hx⟩ := List.exists_mem_of_ne_nil _ (hg1 i hi).2
      obtain ⟨y, hy⟩ := List.exists_mem_of_ne_nil _ (hg2 i hi).2
      exact List.ne_nil_of_mem
        (List.mem_flatMap.2 ⟨x, hx, List.mem_map.2 ⟨y, hy, rfl⟩⟩))
    have hlen2 : (roundIdx g).length = (g.Rounds + 1).toNat := by simp [roundIdx]
    omega
  unfold parseAssert whenThen
  simp only [decide_True, ne_eq, not_true_eq_false, or_self, and_false, if_false, hp1, hp2,
    if_true]
  rw [hmi]
  simp only []
  rw [joinStates_group _ _ _ hlen, flatten_rounds_map]
  rfl

/-- The invariant `when a_b_c > 0 then d_e_f < 5` over two rounds in which both
variables are written: one disjunction per round, conjoined. -/
theorem whenThen_comparisons_example :
    captureState "a_b_c" = ("", true, false) ∧ captureState "d_e_f" = ("", true, false) ∧
    1 ≤ (logBothTwoRounds "a_b_c" "d_e_f").Rounds ∧
    parseAssert DiffStrSets (logBothTwoRounds "a_b_c" "d_e_f")
        (whenThen (.InfixExpression (.AssertVar ["a_b_c"]) ">" (.IntegerLiteral 0))
          (.InfixExpression (.AssertVar ["d_e_f"]) "<" (.IntegerLiteral 5))) =
      .ok ("(and " ++ strJoin ((roundIdx (logBothTwoRounds "a_b_c" "d_e_f")).flatMap (fun i =>
        (comparisonTerms (logBothTwoRounds "a_b_c" "d_e_f") "a_b_c" ">" 0 i).flatMap (fun x =>
          (comparisonTerms (logBothTwoRounds "a_b_c" "d_e_f") "d_e_f" "<" 5 i).map
            (fun y => "(or " ++ x ++ " " ++ y ++ ")")))) " " ++ ")") :=
  ⟨by decide, by decide, by decide,
    whenThen_comparisons DiffStrSets (logBothTwoRounds "a_b_c" "d_e_f") "a_b_c" "d_e_f" ">" "<"
      0 5 (by decide) (by decide) (by decide) (by decide) (by decide) (by decide) (by decide)
      (by decide) (by decide) (by decide)⟩

/-- C13 (counterexample). The invariant `when a_b_c > 0 then d_e_f < 5` over two
rounds yields one disjunction of a when-side and a then-side term per round,
not one disjunction over all then-side states conjoined with the when-side
terms. -/
theorem parseAssert_when_then_counterexample :
    parseAssert DiffStrSets (logBothTwoRounds "a_b_c" "d_e_f")
        (whenThen (.InfixExpression (.AssertVar ["a_b_c"]) ">" (.IntegerLiteral 0))
          (.InfixExpression (.AssertVar ["d_e_f"]) "<" (.IntegerLiteral 5))) =
      .ok "(and (or (> a_b_c_0 0) (< d_e_f_0 5)) (or (> a_b_c_1 0) (< d_e_f_1 5)))" ∧
    parseAssert DiffStrSets (logBothTwoRounds "a_b_c" "d_e_f")
        (whenThen (.InfixExpression (.AssertVar ["a_b_c"]) ">" (.IntegerLiteral 0))
          (.InfixExpression (.AssertVar ["d_e_f"]) "<" (.IntegerLiteral 5))) ≠
      .ok "(and (or (< d_e_f_0 5) (< d_e_f_1 5)) (> a_b_c_0 0) (> a_b_c_1 0))" := by
  decide

/-! ### The round tracker -/

theorem iterate_newRound (k : Nat) (g : Generator) :
    newRound^[k] g = { g with RoundVars := g.RoundVars ++ List.replicate k [] } := by
  induction k with
  | zero => simp
  | succ n ih =>
    rw [Function.iterate_succ_apply', ih]
    simp [newRound, List.replicate_succ']

theorem lookup_appendLookup (m : List (String × List VarRound)) (base : String)
    (e : VarRound) :
    ((appendLookup m base e).lookup base).getD [] = (m.lookup base).getD [] ++ [e] := by
  induction m with
  | nil => simp [appendLookup, List.lookup]
  | cons p rest ih =>
    obtain ⟨k, es⟩ := p
    unfold appendLookup
    by_cases h : k = base
    · subst h
      simp [List.lookup]
    · have h2 : (base == k) = false := by simpa using fun h3 => h h3.symm
      simp only [h, if_false, List.lookup, h2]
      exact ih

theorem addVarToRound_after_rounds (g : Generator) (k : Nat) (base : String) (n : Int)
    (hlen : g.RoundVars.length = k + 1) (hlast : g.RoundVars.getD k [] = []) :
    lookupBase (addVarToRound g base n) base = lookupBase g base ++ [⟨n, k, 0⟩] := by
  have hcur : currentRound g = (k : Int) := by
    unfold currentRound
    omega
  have hne : ¬ ((k : Int) = -1) := by omega
  unfold addVarToRound
  simp only [hcur, hne, if_false, Int.toNat_ofNat, hlast, List.nil_append]
  unfold addVarToRoundLookup lookupBase
  simp only [lookup_appendLookup]
  have hk : k < g.RoundVars.length := by omega
  simp [List.getD_eq_getElem?_getD, hk]

theorem addVarToRound_fresh (g : Generator) (base : String) (n : Int)
    (hlen : g.RoundVars = []) :
    lookupBase (addVarToRound g base n) base = lookupBase g base ++ [⟨n, 0, 0⟩] ∧
      (addVarToRound g base n).RoundVars = [[[base, toString n]]] := by
  unfold addVarToRound
  simp [currentRound, hlen, initVarRound, addVarToRoundLookup, lookupBase, lookup_appendLookup]

/-- A state recorded on a fresh generator lands in round 0, and after a first record
a state recorded after the `k`-th `newRound` lands in round `k`; when nothing was
recorded before the first `newRound`, the first `newRound` itself creates round 0,
and a state recorded after the `(k+1)`-th `newRound` lands in round `k`. -/
theorem newRound_first_round (base : String) (m n : Int) (k : Nat) :
    lookupBase (addVarToRound {} base n) base = [⟨n, 0, 0⟩] ∧
    lookupBase (addVarToRound (newRound^[k + 1] (addVarToRound {} base m)) base n) base =
      [⟨m, 0, 0⟩, ⟨n, k + 1, 0⟩] ∧
    lookupBase (addVarToRound (newRound^[k + 1] {}) base n) base = [⟨n, k, 0⟩] ∧
    lookupBase (addVarToRound (newRound {}) base n) base = [⟨n, 0, 0⟩] ∧
    currentRound (newRound {}) = 0 := by
  have h0 := addVarToRound_fresh {} base n rfl
  have hm := addVarToRound_fresh {} base m rfl
  refine ⟨by simpa [lookupBase] using h0.1, ?_, ?_, ?_, by decide⟩
  · rw [addVarToRound_after_rounds _ (k + 1) base n]
    · rw [iterate_newRound]
      have hm1 := hm.1
      simp only [lookupBase] at hm1 ⊢
      rw [hm1]
      rfl
    · rw [iterate_newRound]
      simp [hm.2]
    · rw [iterate_newRound]
      simp [hm.2, List.getD_eq_getElem?_getD, List.getElem?_append_right, List.getElem?_replicate]
  · rw [addVarToRound_after_rounds _ k base n]
    · rw [iterate_newRound]
      simp [lookupBase]
    · rw [iterate_newRound]
      simp
    · rw [iterate_newRound]
      simp [List.getD_eq_getElem?_getD, List.getElem?_replicate]
  · have := addVarToRound_after_rounds (newRound {}) 0 base n (by simp [newRound])
      (by simp [newRound])
    simpa [lookupBase, newRound] using this

/-! ### The emitter -/

theorem foldl_declareVar (g : Generator) (ds : List (String × String)) :
    (ds.foldl (fun g d => declareVar g d.1 d.2) g).inits =
      g.inits ++ ds.map (fun d => declaration d.1 d.2) := by
  induction ds generalizing g with
  | nil => simp
  | cons d rest ih =>
    rw [List.foldl_cons, ih]
    simp [declareVar, declaration]

theorem writeRule_initRule (lookupType : String → String) (g : Generator)
    (d : String × String × String) (hv : d.2.2 ≠ "0x3DA3CA8CB153A753") :
    writeRule lookupType g (initRule d) =
      .ok (declareVar g d.1 d.2.1, "(assert (= " ++ d.1 ++ " " ++ d.2.2 ++ "))") := by
  simp [initRule, writeRule, unpackRule, infixRule, hv, writeInitRule]

theorem writeRules_initRules (lookupType : String → String) (g : Generator)
    (ds : List (String × String × String))
    (hv : ∀ d ∈ ds, d.2.2 ≠ "0x3DA3CA8CB153A753") :
    writeRules lookupType g (ds.map initRule) =
      .ok ({ g with inits := g.inits ++ ds.map (fun d => declaration d.1 d.2.1) },
        ds.map (fun d => "(assert (= " ++ d.1 ++ " " ++ d.2.2 ++ "))")) := by
  induction ds generalizing g with
  | nil => simp [writeRules]
  | cons d rest ih =>
    rw [List.map_cons]
    unfold writeRules
    rw [writeRule_initRule lookupType g d (hv d (List.mem_cons_self _ _))]
    simp only []
    rw [ih _ (fun e he => hv e (List.mem_cons_of_mem _ he))]
    simp [declareVar, declaration]

/-- C15 (amended). Declarations are not deduplicated: every declaring operation
appends one line `(declare-fun id () T)` to the declaration list. A sequence of
calls of `declareVar` leaves one line per call, in order, after the lines
already there; `writeRule` on a sequence of initialisation rules (an `Infix`
with operator `=` over plain operands whose value is not the unknown-value
marker, written through `writeInitRule`) leaves one line per rule; and a `Phi`
rule one line for its end state. An identifier declared `n` times has `n`
lines. -/
theorem declareVar_appends (lookupType : String → String) (g : Generator)
    (ds : List (String × String)) (rs : List (String × String × String))
    (hv : ∀ d ∈ rs, d.2.2 ≠ "0x3DA3CA8CB153A753") (base endState : String) (nums : List Int)
    (id t : String) (n : Nat) :
    (ds.foldl (fun g d => declareVar g d.1 d.2) g).inits =
        g.inits ++ ds.map (fun d => declaration d.1 d.2) ∧
      (writeRules lookupType g (rs.map initRule)).map (fun r => r.1.inits) =
        .ok (g.inits ++ rs.map (fun d => declaration d.1 d.2.1)) ∧
      (writeRule lookupType g (.Phi base endState nums)).map (fun r => r.1.inits) =
        .ok (g.inits ++ [declaration endState (lookupType base)]) ∧
      ((List.replicate n (id, t)).foldl (fun g d => declareVar g d.1 d.2) g).inits =
        g.inits ++ List.replicate n (declaration id t) := by
  refine ⟨foldl_declareVar g ds, ?_, ?_, ?_⟩
  · rw [writeRules_initRules lookupType g rs hv]
    rfl
  · simp [writeRule, declareVar, declaration, Except.map]
  · rw [foldl_declareVar]
    simp

/-- C15 (witness). Two initialisations of `x_1` leave two declarations of `x_1`. -/
theorem declareVar_appends_witness :
    (writeRules (fun _ => "Real") {}
        ([("x_1", "Real", "2.0"), ("x_1", "Real", "3.0")].map initRule)).map
        (fun r => r.1.inits) =
      .ok ([] ++ [("x_1", "Real", "2.0"), ("x_1", "Real", "3.0")].map
        (fun d => declaration d.1 d.2.1)) :=
  (declareVar_appends (fun _ => "Real") {} [] [("x_1", "Real", "2.0"), ("x_1", "Real", "3.0")]
    (by decide) "" "" [] "" "" 0).2.1

/-- C15 (counterexample). Declaring the identifier `x_0` twice leaves two lines
`(declare-fun x_0 () Real)` in the declaration list, and `SMT` prints both. -/
theorem declareVar_twice_counterexample :
    (declareVar (declareVar {} "x_0" "Real") "x_0" "Real").inits =
      ["(declare-fun x_0 () Real)", "(declare-fun x_0 () Real)"] ∧
    SMT (declareVar (declareVar {} "x_0" "Real") "x_0" "Real") =
      "(set-logic QF_NRA)(declare-fun x_0 () Real)\n(declare-fun x_0 () Real)" := by
  decide

theorem intercalate_go_prefix (sep : String) (as : List String) (acc : String) :
    ∃ b, String.intercalate.go acc sep as = acc ++ b := by
  induction as generalizing acc with
  | nil => exact ⟨"", by simp [String.intercalate.go]⟩
  | cons a rest ih =>
    obtain ⟨b, hb⟩ := ih (acc ++ sep ++ a)
    exact ⟨sep ++ a ++ b, by
      rw [String.intercalate.go, hb]
      simp [String.append_assoc]⟩

theorem intercalate_go_mem (sep : String) (as : List String) (acc x : String)
    (hx : x ∈ as) : ∃ a b, String.intercalate.go acc sep as = a ++ x ++ b := by
  induction as generalizing acc with
  | nil => simp at hx
  | cons y rest ih =>
    rcases List.mem_cons.1 hx with rfl | h
    · obtain ⟨b, hb⟩ := intercalate_go_prefix sep rest (acc ++ sep ++ x)
      exact ⟨acc ++ sep, b, by rw [String.intercalate.go, hb]⟩
    · obtain ⟨a, b, hab⟩ := ih (acc ++ sep ++ y) h
      exact ⟨a, b, by rw [String.intercalate.go, hab]⟩

theorem strJoin_mem (xs : List String) (sep x : String) (hx : x ∈ xs) :
    ∃ a b, strJoin xs sep = a ++ x ++ b := by
  cases xs with
  | nil => simp at hx
  | cons y rest =>
    rcases List.mem_cons.1 hx with rfl | h
    · obtain ⟨b, hb⟩ := intercalate_go_prefix sep rest x
      exact ⟨"", b, by simp [strJoin, String.intercalate, hb]⟩
    · exact intercalate_go_mem sep rest y x h

/-- C16. `SMT` returns the preamble `(set-logic QF_NRA)` followed by the
declarations, the constant rules, the rule assertions and the property
assertions, in this order, whatever the order in which they were emitted: the
text starts with the preamble, every declaration stands before every constant
rule, rule assertion and property assertion, and every constant rule and rule
assertion before every property assertion. -/
theorem SMT_order (g : Generator) :
    SMT g = "(set-logic QF_NRA)" ++ strJoin g.inits "\n" ++ strJoin g.constants "\n" ++
        strJoin g.rules "\n" ++ strJoin g.asserts "\n" ∧
      (∀ d ∈ g.inits, ∀ r ∈ g.constants ++ g.rules ++ g.asserts,
        ∃ a b c, SMT g = "(set-logic QF_NRA)" ++ a ++ d ++ b ++ r ++ c) ∧
      (∀ r ∈ g.constants ++ g.rules, ∀ p ∈ g.asserts,
        ∃ a b c, SMT g = "(set-logic QF_NRA)" ++ a ++ r ++ b ++ p ++ c) ∧
      (∀ k ∈ g.constants, ∀ r ∈ g.rules,
        ∃ a b c, SMT g = "(set-logic QF_NRA)" ++ a ++ k ++ b ++ r ++ c) := by
  refine ⟨rfl, ?_, ?_, ?_⟩
  · intro d hd r hr
    obtain ⟨a1, b1, h1⟩ := strJoin_mem g.inits "\n" d hd
    simp only [List.mem_append] at hr
    rcases hr with (hr | hr) | hr
    · obtain ⟨a2, b2, h2⟩ := strJoin_mem g.constants "\n" r hr
      exact ⟨a1, b1 ++ a2, b2 ++ strJoin g.rules "\n" ++ strJoin g.asserts "\n", by
        simp [SMT, h1, h2, String.append_assoc]⟩
    · obtain ⟨a2, b2, h2⟩ := strJoin_mem g.rules "\n" r hr
      exact ⟨a1, b1 ++ strJoin g.constants "\n" ++ a2, b2 ++ strJoin g.asserts "\n", by
        simp [SMT, h1, h2, String.append_assoc]⟩
    · obtain ⟨a2, b2, h2⟩ := strJoin_mem g.asserts "\n" r hr
      exact ⟨a1, b1 ++ strJoin g.constants "\n" ++ strJoin g.rules "\n" ++ a2, b2, by
        simp [SMT, h1, h2, String.append_assoc]⟩
  · intro r hr p hp
    obtain ⟨a2, b2, h2⟩ := strJoin_mem g.asserts "\n" p hp
    simp only [List.mem_append] at hr
    rcases hr with hr | hr
    · obtain ⟨a1, b1, h1⟩ := strJoin_mem g.constants "\n" r hr
      exact ⟨strJoin g.inits "\n" ++ a1, b1 ++ strJoin g.rules "\n" ++ a2, b2, by
        simp [SMT, h1, h2, String.append_assoc]⟩
    · obtain ⟨a1, b1, h1⟩ := strJoin_mem g.rules "\n" r hr
      exact ⟨strJoin g.inits "\n" ++ strJoin g.constants "\n" ++ a1, b1 ++ a2, b2, by
        simp [SMT, h1, h2, String.append_assoc]⟩
  · intro k hk r hr
    obtain ⟨a1, b1, h1⟩ := strJoin_mem g.constants "\n" k hk
    obtain ⟨a2, b2, h2⟩ := strJoin_mem g.rules "\n" r hr
    exact ⟨strJoin g.inits "\n" ++ a1, b1 ++ a2, b2 ++ strJoin g.asserts "\n", by
      simp [SMT, h1, h2, String.append_assoc]⟩

/-- C16 (witness). The declaration of `x_0` stands before its rule assertion in the
printed text. -/
theorem SMT_order_witness :
    ∃ a b c, SMT smallOutput =
      "(set-logic QF_NRA)" ++ a ++ "(declare-fun x_0 () Real)" ++ b ++
        "(assert (= x_0 2.0))" ++ c :=
  (SMT_order smallOutput).2.1 "(declare-fun x_0 () Real)" (by decide)
    "(assert (= x_0 2.0))" (by decide)

/-! ### Instruction lowering -/

/-- C17 (amended). The lowering skips `frem`: `parseInstruct` on a block gives what it
gives on the block without its `frem` instructions, whatever the other
instructions lower to; a block of `frem` instructions alone lowers to no rule
and leaves the state as it is, without failing. -/
theorem parseInstruct_frem {σ : Type}
    (handle : σ × List Rule → Inst → Except String (σ × List Rule))
    (advance : σ → List String → Bool → Except String (σ × List Rule))
    (s : σ × List Rule) (block : List Inst) (id x y : String) :
    parseInstruct handle advance s block =
        parseInstruct handle advance s (block.filter notFRem) ∧
      parseInstruct handle advance s [.InstFRem id x y] = .ok s := by
  constructor
  · induction block generalizing s with
    | nil => rfl
    | cons inst rest ih =>
      cases inst <;> simp [parseInstruct, notFRem, ih]
  · simp [parseInstruct]

/-- C17 (counterexample). A block that holds one `frem` instruction lowers without
failure: `parseInstruct` returns the state and the rules it started with. -/
theorem parseInstruct_frem_counterexample :
    parseInstruct skipHandler (fun st _ _ => .ok (st, [])) ((), [])
        [.InstFRem "%3" "%1" "%2"] = .ok ((), []) ∧
    ∀ e, parseInstruct skipHandler (fun st _ _ => .ok (st, [])) ((), [])
        [.InstFRem "%3" "%1" "%2"] ≠ .error e := by
  constructor
  · rfl
  · intro e h
    cases h

/-- C18 (failing input). The predicates `ne`, `one` and `une` lower to `!=`, which
is no SMT-LIB operator (the assertion compiler lowers `!=` to `not`), and the
signed predicates, which have no case, are returned as they are; the other
predicates lower to `=`, `<`, `<=`, `>`, `>=`, `true` or `false`, with a literal
Boolean right-hand side for `true` and `false` only. -/
theorem compareRuleOp_ne :
    compareRuleOp "ne" = "!=" ∧ compareRuleOp "one" = "!=" ∧ compareRuleOp "une" = "!=" ∧
    compareRuleOp "sgt" = "sgt" ∧ compareRuleOp "sge" = "sge" ∧
    compareRuleOp "slt" = "slt" ∧ compareRuleOp "sle" = "sle" ∧
    smtlibOperators "!=" = "not" ∧
    (["eq", "oeq", "ueq", "ugt", "uge", "ult", "ule", "ogt", "oge", "olt", "ole", "true",
        "false"].map compareRuleOp =
      ["=", "=", "=", ">", ">=", "<", "<=", ">", ">=", "<", "<=", "true", "false"]) ∧
    (createCompareRule "ne").1 = "!=" ∧
    (createCompareRule "true").2.isSome = true ∧ (createCompareRule "false").2.isSome = true ∧
    (createCompareRule "ne").2.isSome = false ∧ (createCompareRule "ogt").2.isSome = false := by
  decide

/-- C19 (amended). A call of a built-in without arguments, as `stay()` is, lowers to
no rule and changes nothing: `parseBuiltIn` returns the empty rule list at once,
with the state of the lowering as it was (no SSA state allocated, nothing
recorded in the round log, nothing declared), and `parseInstruct` on such a call
without metadata returns the state and the rules it started with. -/
theorem parseBuiltIn_no_args {σ : Type}
    (handle : σ × List Rule → Inst → Except String (σ × List Rule))
    (advance : σ → List String → Bool → Except String (σ × List Rule))
    (st : σ) (ru : List Rule) (complex : Bool) (id : String) :
    parseBuiltIn advance st [] complex = .ok (st, []) ∧
      parseInstruct handle advance (st, ru) [.InstCall id "@stay" [] []] = .ok (st, ru) := by
  constructor
  · rfl
  · simp [parseInstruct, parseBuiltIn, isBuiltIn]

/-- C19 (counterexample). In a round log with the states 0 and 1 of `c_state`, lowering
`stay()` records nothing: the round log is the same afterwards and no rule is
returned; a call with an argument reaches the body for calls with arguments,
here one that records a state. -/
theorem parseBuiltIn_stay_counterexample :
    (parseInstruct skipLog recordAdvance (logTwoRounds "c_state", [])
        [.InstCall "%1" "@stay" [] []]).map (fun r => (r.1, r.2.length)) =
      .ok (logTwoRounds "c_state", 0) ∧
    (parseInstruct skipLog recordAdvance (logTwoRounds "c_state", [])
        [.InstCall "%1" "@advance" ["%2"] []]).map (fun r => (r.1, r.2.length)) =
      .ok (addVarToRound (logTwoRounds "c_state") "c_state" 1, 0) := by
  decide

/-! ### Rules of the emitter -/

theorem unpackRule_wrap (lookupType : String → String) (g : Generator) (v : String) :
    unpackRule lookupType g (.Wrap v) = .ok (g, v) := by
  simp [unpackRule]

theorem writeRule_infixCase (lookupType : String → String) (g g1 g2 : Generator) (X Y : Rule)
    (ty op x y : String) (hY : unpackRule lookupType g Y = .ok (g1, y))
    (hX : unpackRule lookupType g1 X = .ok (g2, x)) :
    writeRule lookupType g (.Infix X Y ty op) = .ok (infixRule g2 x y ty op) := by
  simp [writeRule, hY, hX]

theorem unpackRule_infixCase (lookupType : String → String) (g g1 g2 : Generator) (X Y : Rule)
    (ty op x y : String) (hY : unpackRule lookupType g Y = .ok (g1, y))
    (hX : unpackRule lookupType g1 X = .ok (g2, x)) :
    unpackRule lookupType g (.Infix X Y ty op) = .ok (infixRule g2 x y ty op) := by
  simp [unpackRule, hY, hX]

/-- C26. `writeRule` on an `Infix` with the empty operator, a plain left side `x` and a
right side that renders to `y`, not the unknown-value marker, appends exactly
one declaration `(declare-fun x () Ty)` with the type of the rule to the
declarations left by the rendering of the right side and returns
`(assert (= x y))`; a right side that is an arithmetic `Infix` over plain
operands renders as `(op a b)` and declares nothing. -/
theorem writeRule_empty_operator (lookupType : String → String) (g g1 : Generator)
    (x : String) (Y : Rule) (ty y : String)
    (hY : unpackRule lookupType g Y = .ok (g1, y)) (hs : y ≠ unknownValue) :
    writeRule lookupType g (.Infix (.Wrap x) Y ty "") =
        .ok ({ g1 with inits := g1.inits ++ [declaration x ty] },
          "(assert (= " ++ x ++ " " ++ y ++ "))") ∧
      (∀ (a b t op : String), op ∈ ["+", "-", "*", "/"] → b ≠ "" → b ≠ unknownValue →
        unpackRule lookupType g (.Infix (.Wrap a) (.Wrap b) t op) =
          .ok (g, "(" ++ op ++ " " ++ a ++ " " ++ b ++ ")")) := by
  constructor
  · rw [writeRule_infixCase lookupType g g1 g1 _ _ ty "" x y hY (unpackRule_wrap _ _ _)]
    have hs1 : ¬ y = "0x3DA3CA8CB153A753" := hs
    simp [infixRule, hs1, writeInitRule, declareVar, declaration]
  · intro a b t op hop hb hbs
    rw [unpackRule_infixCase lookupType g g g _ _ t op a b (unpackRule_wrap _ _ _)
      (unpackRule_wrap _ _ _)]
    have hbs1 : ¬ b = "0x3DA3CA8CB153A753" := hbs
    have h1 : op ≠ "or" ∧ op ≠ "" ∧ op ≠ "=" := by
      simp only [List.mem_cons, List.mem_singleton, List.not_mem_nil, or_false] at hop
      rcases hop with rfl | rfl | rfl | rfl <;> decide
    simp [infixRule, hbs1, h1.1, h1.2.1, h1.2.2, writeAssertlessRule, hb]

/-- C26 (witness). The rule `x_1 = x_0 - 2.0` with the empty operator declares `x_1`
and asserts the equality. -/
theorem writeRule_empty_operator_witness :
    writeRule (fun _ => "Real") {}
        (.Infix (.Wrap "x_1") (.Infix (.Wrap "x_0") (.Wrap "2.0") "Real" "-") "Real" "") =
      .ok ({ ({} : Generator) with
              inits := ({} : Generator).inits ++ [declaration "x_1" "Real"] },
        "(assert (= " ++ "x_1" ++ " " ++ "(- x_0 2.0)" ++ "))") :=
  (writeRule_empty_operator (fun _ => "Real") {} {} "x_1"
    (.Infix (.Wrap "x_0") (.Wrap "2.0") "Real" "-") "Real" "(- x_0 2.0)" (by decide)
    (by decide)).1

/-- C27 (amended). For every `Infix` rule whose operator is neither empty, nor `=`,
nor `or` and whose right side renders to `y`, not the unknown-value marker,
`writeRule` returns `(op x y)`, or `(op x)` when `y` is the empty string, and
adds no declaration and no `(assert ...)` wrapper to what the rendering of its
operands left. With the operator `=` the rule is an initialisation like the
one with the empty operator. -/
theorem writeRule_operator (lookupType : String → String) (g g1 g2 : Generator)
    (X Y : Rule) (ty op x y : String)
    (hY : unpackRule lookupType g Y = .ok (g1, y))
    (hX : unpackRule lookupType g1 X = .ok (g2, x))
    (hs : y ≠ unknownValue) (hop : op ≠ "" ∧ op ≠ "=" ∧ op ≠ "or") :
    writeRule lookupType g (.Infix X Y ty op) =
      .ok (g2, if y = "" then "(" ++ op ++ " " ++ x ++ ")"
        else "(" ++ op ++ " " ++ x ++ " " ++ y ++ ")") := by
  rw [writeRule_infixCase lookupType g g1 g2 X Y ty op x y hY hX]
  have hs1 : ¬ y = "0x3DA3CA8CB153A753" := hs
  by_cases hy : y = "" <;>
    simp [infixRule, hs1, hop.1, hop.2.1, hop.2.2, writeAssertlessRule, hy]

/-- C27 (witness). The rule `x_0 > 2.0` renders as `(> x_0 2.0)` and declares
nothing. -/
theorem writeRule_operator_witness :
    writeRule (fun _ => "Real") {} (.Infix (.Wrap "x_0") (.Wrap "2.0") "Bool" ">") =
      .ok ({}, if "2.0" = "" then "(" ++ ">" ++ " " ++ "x_0" ++ ")"
        else "(" ++ ">" ++ " " ++ "x_0" ++ " " ++ "2.0" ++ ")") :=
  writeRule_operator (fun _ => "Real") {} {} {} (.Wrap "x_0") (.Wrap "2.0") "Bool" ">"
    "x_0" "2.0" (by decide) (by decide) (by decide) (by decide)

/-- C27 (counterexample). With the operator `=` the rule `x_1 = 2.0` is written as an
initialisation: `writeRule` declares `x_1` and returns the equality inside
`(assert ...)`, not `(= x_1 2.0)`. -/
theorem writeRule_operator_counterexample :
    writeRule (fun _ => "Real") {} (.Infix (.Wrap "x_1") (.Wrap "2.0") "Real" "=") =
      .ok ({ inits := ["(declare-fun x_1 () Real)"] }, "(assert (= x_1 2.0))") ∧
    writeRule (fun _ => "Real") {} (.Infix (.Wrap "x_1") (.Wrap "2.0") "Real" "=") ≠
      .ok ({}, "(= x_1 2.0)") := by
  decide

/-- C28. For every `Infix` rule whose right side renders to the unknown-value marker
`0x3DA3CA8CB153A753`, whatever its operator, `writeRule` appends exactly one
declaration of the left identifier with the type of the rule and returns the
empty string: no equality is written. -/
theorem writeRule_unknown (lookupType : String → String) (g g1 g2 : Generator)
    (X Y : Rule) (ty op x : String)
    (hY : unpackRule lookupType g Y = .ok (g1, unknownValue))
    (hX : unpackRule lookupType g1 X = .ok (g2, x)) :
    writeRule lookupType g (.Infix X Y ty op) =
      .ok ({ g2 with inits := g2.inits ++ [declaration x ty] }, "") := by
  rw [writeRule_infixCase lookupType g g1 g2 X Y ty op x unknownValue hY hX]
  simp [infixRule, declareVar, declaration]

/-- C28 (witness). The rule `x_0 = 0x3DA3CA8CB153A753` declares `x_0` and writes no
equality. -/
theorem writeRule_unknown_witness :
    writeRule (fun _ => "Real") {}
        (.Infix (.Wrap "x_0") (.Wrap "0x3DA3CA8CB153A753") "Real" "=") =
      .ok ({ ({} : Generator) with
              inits := ({} : Generator).inits ++ [declaration "x_0" "Real"] }, "") :=
  writeRule_unknown (fun _ => "Real") {} {} {} (.Wrap "x_0") (.Wrap "0x3DA3CA8CB153A753")
    "Real" "=" "x_0" (by decide) (by decide)

theorem writeBranchRules_plain (lookupType : String → String) (g : Generator)
    (ds : List (String × String × String)) :
    writeBranchRules lookupType g (ds.map plainInfix) = .ok (g, ds.map plainText) := by
  induction ds with
  | nil => simp [writeBranchRules]
  | cons d rest ih =>
    rw [List.map_cons]
    unfold writeBranchRules
    simp [plainInfix, writeBranchRule, unpackRule, ih, plainText]

theorem branchText_eq (ends : List String) (h : ends ≠ []) :
    branchText ends = groupOrSingle "and" ends := by
  unfold branchText groupOrSingle
  match ends, h with
  | [x], _ => simp
  | x :: y :: rest, _ => simp [writeAssertlessRule]

theorem paren_ne_empty (s : String) : "(" ++ s ≠ "" := by
  intro h
  have := congrArg String.length h
  simp [String.length_append] at this
  exact absurd this.1 (by decide)

theorem groupOrSingle_plain_ne (ds : List (String × String × String)) (h : ds ≠ []) :
    groupOrSingle "and" (ds.map plainText) ≠ "" := by
  match ds, h with
  | [d], _ =>
    simp only [List.map_cons, List.map_nil, groupOrSingle, plainText, String.append_assoc]
    exact paren_ne_empty _
  | d :: e :: rest, _ =>
    simp only [List.map_cons, groupOrSingle, String.append_assoc]
    exact paren_ne_empty _

/-- C29 (amended). For every `Ite` rule whose condition is an `Infix` over plain
operands `a`, `b` (with `b` not empty) and whose branch lists `T` and `F` are
non-empty lists of `Infix` rules over plain operands, `writeRule` returns
`(assert (ite (opc a b) tRule fRule))` and declares nothing, where a branch with
two or more rules renders as `(and r_1 ... r_n)`, a branch with exactly one rule
as that rule without the wrapping `and`, each rule as `(op x y)`; both branches
render to a non-empty term. -/
theorem writeRule_ite (lookupType : String → String) (g : Generator)
    (a b tc opc : String) (T F : List (String × String × String))
    (hb : b ≠ "") (hT : T ≠ []) (hF : F ≠ []) :
    writeRule lookupType g
        (.Ite (.Infix (.Wrap a) (.Wrap b) tc opc) (T.map plainInfix) (F.map plainInfix)) =
      .ok (g, "(assert (ite " ++ ("(" ++ opc ++ " " ++ a ++ " " ++ b ++ ")") ++ " " ++
        groupOrSingle "and" (T.map plainText) ++ " " ++
        groupOrSingle "and" (F.map plainText) ++ "))") ∧
      groupOrSingle "and" (T.map plainText) ≠ "" ∧
      groupOrSingle "and" (F.map plainText) ≠ "" := by
  refine ⟨?_, groupOrSingle_plain_ne T hT, groupOrSingle_plain_ne F hF⟩
  have hT1 : T.map plainText ≠ [] := by simpa using hT
  have hF1 : F.map plainText ≠ [] := by simpa using hF
  simp only [writeRule, writeCond, unpackCondRule, writeAssertlessRule, hb, ne_eq,
    not_false_eq_true, if_true, writeBranchRules_plain, branchText_eq _ hT1,
    branchText_eq _ hF1, writeAssert, writeBranch, String.append_assoc]
  rfl

/-- C29 (witness). An `Ite` with two rules in the true branch and one in the false
branch. -/
theorem writeRule_ite_witness :
    writeRule (fun _ => "Real") {}
        (.Ite (.Infix (.Wrap "x_0") (.Wrap "2.0") "Bool" ">")
          ([("=", "x_3", "x_1"), ("=", "y_2", "y_1")].map plainInfix)
          ([("=", "x_3", "x_2")].map plainInfix)) =
      .ok ({}, "(assert (ite " ++ ("(" ++ ">" ++ " " ++ "x_0" ++ " " ++ "2.0" ++ ")") ++ " " ++
        groupOrSingle "and" ([("=", "x_3", "x_1"), ("=", "y_2", "y_1")].map plainText) ++ " " ++
        groupOrSingle "and" ([("=", "x_3", "x_2")].map plainText) ++ "))") :=
  (writeRule_ite (fun _ => "Real") {} "x_0" "2.0" "Bool" ">"
    [("=", "x_3", "x_1"), ("=", "y_2", "y_1")] [("=", "x_3", "x_2")]
    (by decide) (by decide) (by decide)).1

/-- C29 (counterexample). An `Ite` whose true branch is empty: the branch renders to
the empty string and the text is `(assert (ite (> x_0 2.0)  (= x_3 x_2)))`, with
nothing between the condition and the false branch. -/
theorem writeRule_ite_counterexample :
    writeRule (fun _ => "Real") {}
        (.Ite (.Infix (.Wrap "x_0") (.Wrap "2.0") "Bool" ">") []
          [.Infix (.Wrap "x_3") (.Wrap "x_2") "Real" "="]) =
      .ok ({}, "(assert (ite (> x_0 2.0)  (= x_3 x_2)))") ∧
    branchText [] = "" := by
  decide

theorem base_state_ne (k s : String) : k ++ "_" ++ s ≠ "" := by
  intro h
  have := congrArg String.length h
  simp [String.length_append] at this
  exact absurd this.1.2 (by decide)


theorem formatEnds_eq (k : String) (nums : List Int) (id : String) :
    formatEnds k nums id =
      strJoin (nums.map (fun n => "(= " ++ id ++ " " ++ k ++ "_" ++ toString n ++ ")")) " " := by
  unfold formatEnds
  congr 1
  apply List.map_congr_left
  intro n _
  have hne : ¬ (k ++ "_" ++ toString n = "") := base_state_ne k (toString n)
  simp only [writeAssertlessRule, hne, ne_eq, not_false_eq_true, if_true]
  simp only [String.append_assoc]
  rfl

/-- C30. For every `Phi` rule with base `b`, end state `e` and from-states
`n_1 .. n_k`, `writeRule` appends exactly one declaration of `e` with the type of
`b` and returns `(assert (or (= e b_n1) ... (= e b_nk)))`: one equality per
from-state, in order. -/
theorem writeRule_phi (lookupType : String → String) (g : Generator) (b e : String)
    (nums : List Int) :
    writeRule lookupType g (.Phi b e nums) =
      .ok ({ g with inits := g.inits ++ [declaration e (lookupType b)] },
        "(assert (or " ++
          strJoin (nums.map (fun n => "(= " ++ e ++ " " ++ b ++ "_" ++ toString n ++ ")")) " " ++
          "))") := by
  simp only [writeRule, declareVar, declaration, writeAssert, formatEnds_eq,
    String.append_assoc]
  rfl

/-! ### Parallel permutations -/

theorem swapAt_length (a : List String) (k i : Nat) : (swapAt a k i).length = a.length := by
  simp [swapAt]

theorem getElem?_swapAt (a : List String) (k i n : Nat) (hk : k < a.length)
    (hi : i < a.length) :
    (swapAt a k i)[n]? = if n = i then a[k]? else if n = k then a[i]? else a[n]? := by
  unfold swapAt
  rw [List.getElem?_set, List.getElem?_set]
  simp only [List.length_set, hi, hk, if_true, List.getD_eq_getElem?_getD,
    List.getElem?_eq_getElem hi, List.getElem?_eq_getElem hk, Option.getD_some]
  by_cases h1 : i = n
  · simp [h1]
  · have h1' : ¬ n = i := fun h => h1 h.symm
    by_cases h2 : k = n
    · simp [h1, h1', h2]
    · have h2' : ¬ n = k := fun h => h2 h.symm
      simp [h1, h1', h2, h2']

theorem swapAt_swapAt (a : List String) (k i : Nat) (hk : k < a.length) (hi : i < a.length) :
    swapAt (swapAt a k i) k i = a := by
  apply List.ext_getElem?
  intro n
  rw [getElem?_swapAt _ k i n (by simpa [swapAt_length] using hk)
    (by simpa [swapAt_length] using hi)]
  rw [getElem?_swapAt a k i k hk hi, getElem?_swapAt a k i i hk hi,
    getElem?_swapAt a k i n hk hi]
  by_cases h1 : n = i
  · subst h1
    simp only [if_true]
    by_cases h3 : n = k
    · simp [h3]
    · have h3' : ¬ k = n := fun h => h3 h.symm
      simp [h3, h3']
  · by_cases h2 : n = k
    · subst h2
      simp [h1]
    · simp [h1, h2]

theorem swapAt_perm (a : List String) (k i : Nat) (hk : k < a.length) (hi : i < a.length) :
    (swapAt a k i).Perm a := by
  rw [List.perm_iff_count]
  intro x
  unfold swapAt
  have hi' : i < (a.set k (a.getD i "")).length := by simpa using hi
  rw [List.count_set _ _ _ _ hi', List.count_set _ _ _ _ hk]
  simp only [List.getD_eq_getElem?_getD, List.getElem?_eq_getElem hi,
    List.getElem?_eq_getElem hk, Option.getD_some, List.getElem_set]
  have h1 : (if a[k] == x then 1 else 0) ≤ a.count x := by
    by_cases h : a[k] == x
    · simp only [h, if_true]
      have : a[k] ∈ a := List.getElem_mem hk
      rw [beq_iff_eq] at h
      rw [← h]
      exact List.count_pos_iff.2 this
    · simp [h]
  have h2 : (if a[i] == x then 1 else 0) ≤ a.count x := by
    by_cases h : a[i] == x
    · simp only [h, if_true]
      have : a[i] ∈ a := List.getElem_mem hi
      rw [beq_iff_eq] at h
      rw [← h]
      exact List.count_pos_iff.2 this
    · simp [h]
  by_cases hki : k = i
  · subst hki
    simp only [if_true]
    omega
  · simp only [hki, if_false]
    have hik : ¬ i = k := fun h => hki h.symm
    by_cases hx : a[k] == x <;> by_cases hy : a[i] == x <;>
      simp only [hx, hy, if_true, if_false, Bool.false_eq_true] at h1 h2 ⊢ <;> omega

theorem rc_loop (f d k : Nat) (a : List String) (hlen : k + 1 + d = a.length)
    (ih : ∀ (a1 : List String) (pm1 : List (List String)), k + 1 + d = a1.length →
      rc f a1 (k + 1) pm1 = (a1, pm1 ++ swapOrder d a1 (k + 1)))
    (L : List Nat) (hL : ∀ i ∈ L, i < a.length) (pm : List (List String)) :
    L.foldl (fun (s : List String × List (List String)) i =>
        let s1 := rc f (swapAt s.1 k i) (k + 1) s.2
        (swapAt s1.1 k i, s1.2)) (a, pm) =
      (a, pm ++ L.flatMap (fun i => swapOrder d (swapAt a k i) (k + 1))) := by
  induction L generalizing pm with
  | nil => simp
  | cons i rest ihL =>
    have hi : i < a.length := hL i (List.mem_cons_self _ _)
    have hk : k < a.length := by omega
    rw [List.foldl_cons]
    simp only []
    rw [ih (swapAt a k i) pm (by rw [swapAt_length]; exact hlen)]
    simp only []
    rw [swapAt_swapAt a k i hk hi, ihL (fun j hj => hL j (List.mem_cons_of_mem _ hj))]
    simp

theorem rc_eq (d : Nat) : ∀ (fuel : Nat) (a : List String) (k : Nat)
    (pm : List (List String)), k + d = a.length → d < fuel →
    rc fuel a k pm = (a, pm ++ swapOrder d a k) := by
  induction d with
  | zero =>
    intro fuel a k pm hlen hf
    cases fuel with
    | zero => omega
    | succ f =>
      have hk : k = a.length := by omega
      simp [rc, hk, swapOrder]
  | succ d ih =>
    intro fuel a k pm hlen hf
    cases fuel with
    | zero => omega
    | succ f =>
      have hk : ¬ k = a.length := by omega
      have hrange : a.length - k = d + 1 := by omega
      unfold rc
      simp only [hk, if_false, hrange]
      rw [rc_loop f d k a (by omega)
        (fun a1 pm1 h1 => ih f a1 (k + 1) pm1 h1 (by omega))]
      · rfl
      · intro i hi
        rw [List.mem_range'_1] at hi
        omega

theorem parallelPermutations_eq (p : List String) :
    parallelPermutations p = swapOrder p.length p 0 := by
  unfold parallelPermutations
  rw [rc_eq p.length (p.length + 1) p 0 [] (by simp) (by omega)]
  simp

theorem length_swapOrder (d : Nat) : ∀ (a : List String) (k : Nat),
    (swapOrder d a k).length = Nat.factorial d := by
  induction d with
  | zero => intro a k; simp [swapOrder]
  | succ d ih =>
    intro a k
    unfold swapOrder
    rw [List.length_flatMap]
    have h : List.map (List.length ∘ fun i => swapOrder d (swapAt a k i) (k + 1))
        (List.range' k (d + 1)) = List.replicate (d + 1) d.factorial := by
      rw [List.eq_replicate_iff]
      simp only [List.length_map, List.length_range', List.mem_map, Function.comp, ih,
        true_and]
      rintro b ⟨_, _, rfl⟩
      rfl
    rw [h, List.sum_replicate, Nat.factorial_succ]
    simp

theorem swapOrder_perm (d : Nat) : ∀ (a : List String) (k : Nat), k + d = a.length →
    ∀ q ∈ swapOrder d a k, q.Perm a := by
  induction d with
  | zero =>
    intro a k _ q hq
    simp only [swapOrder, List.mem_singleton] at hq
    rw [hq]
  | succ d ih =>
    intro a k hlen q hq
    unfold swapOrder at hq
    obtain ⟨i, hi, hq⟩ := List.mem_flatMap.1 hq
    rw [List.mem_range'_1] at hi
    have hk : k < a.length := by omega
    have hi2 : i < a.length := by omega
    exact (ih (swapAt a k i) (k + 1) (by rw [swapAt_length]; omega) q hq).trans
      (swapAt_perm a k i hk hi2)

theorem swapOrder_prefix (d : Nat) : ∀ (a : List String) (k : Nat), k + d = a.length →
    ∀ q ∈ swapOrder d a k, ∀ n, n < k → q[n]? = a[n]? := by
  induction d with
  | zero =>
    intro a k _ q hq n _
    simp only [swapOrder, List.mem_singleton] at hq
    rw [hq]
  | succ d ih =>
    intro a k hlen q hq n hn
    unfold swapOrder at hq
    obtain ⟨i, hi, hq⟩ := List.mem_flatMap.1 hq
    rw [List.mem_range'_1] at hi
    have hk : k < a.length := by omega
    have hi2 : i < a.length := by omega
    rw [ih (swapAt a k i) (k + 1) (by rw [swapAt_length]; omega) q hq n (by omega),
      getElem?_swapAt a k i n hk hi2]
    have h1 : ¬ n = i := by omega
    have h2 : ¬ n = k := by omega
    simp [h1, h2]

theorem swapOrder_nodup (d : Nat) : ∀ (a : List String) (k : Nat), k + d = a.length →
    a.Nodup → (swapOrder d a k).Nodup := by
  induction d with
  | zero => intro a k _ _; simp [swapOrder]
  | succ d ih =>
    intro a k hlen hnd
    have hk : k < a.length := by omega
    unfold swapOrder
    rw [List.nodup_flatMap]
    constructor
    · intro i hi
      rw [List.mem_range'_1] at hi
      have hi2 : i < a.length := by omega
      exact ih (swapAt a k i) (k + 1) (by rw [swapAt_length]; omega)
        ((swapAt_perm a k i hk hi2).nodup_iff.2 hnd)
    · have hpw : (List.range' k (d + 1)).Pairwise (fun i j => i ≠ j) :=
        List.nodup_range' k (d + 1)
      refine List.Pairwise.imp_of_mem ?_ hpw
      intro i j hi hj hij
      rw [List.mem_range'_1] at hi hj
      have hi2 : i < a.length := by omega
      have hj2 : j < a.length := by omega
      simp only [Function.onFun]
      rw [List.disjoint_left]
      intro q hq1 hq2
      have e1 := swapOrder_prefix d (swapAt a k i) (k + 1)
        (by rw [swapAt_length]; omega) q hq1 k (by omega)
      have e2 := swapOrder_prefix d (swapAt a k j) (k + 1)
        (by rw [swapAt_length]; omega) q hq2 k (by omega)
      rw [getElem?_swapAt a k i k hk hi2] at e1
      rw [getElem?_swapAt a k j k hk hj2] at e2
      have e3 : a[i]? = a[j]? := by
        by_cases h1 : k = i
        · by_cases h2 : k = j
          · omega
          · simp only [h1, if_true] at e1
            simp only [h2, if_false, if_true] at e2
            rw [← h1] at e1 ⊢
            rw [← e1, e2]
        · by_cases h2 : k = j
          · simp only [h1, if_false, if_true] at e1
            simp only [h2, if_true] at e2
            rw [← h2] at e2 ⊢
            rw [← e1, e2]
          · simp only [h1, if_false, if_true] at e1
            simp only [h2, if_false, if_true] at e2
            rw [← e1, e2]
      rw [List.getElem?_eq_getElem hi2, List.getElem?_eq_getElem hj2] at e3
      have e4 : a[i] = a[j] := Option.some.inj e3
      exact hij ((List.Nodup.getElem_inj_iff hnd).1 e4)

theorem swapAt_self (a : List String) (k : Nat) (hk : k < a.length) : swapAt a k k = a := by
  apply List.ext_getElem?
  intro n
  rw [getElem?_swapAt a k k n hk hk]
  by_cases h : n = k <;> simp [h]

theorem head_swapOrder (d : Nat) : ∀ (a : List String) (k : Nat), k + d = a.length →
    (swapOrder d a k).head? = some a := by
  induction d with
  | zero => intro a k _; simp [swapOrder]
  | succ d ih =>
    intro a k hlen
    have hk : k < a.length := by omega
    unfold swapOrder
    rw [List.range'_succ, List.flatMap_cons, swapAt_self a k hk, List.head?_append,
      ih a (k + 1) (by omega)]
    rfl

/-- C22. For every list `p` of `N` pairwise distinct callees, `parallelPermutations`
returns exactly `N!` lists, pairwise distinct, each a permutation of `p`. -/
theorem parallelPermutations_all (p : List String) (hp : p.Nodup) :
    (parallelPermutations p).length = Nat.factorial p.length ∧
      (parallelPermutations p).Nodup ∧
      ∀ q ∈ parallelPermutations p, q.Perm p := by
  rw [parallelPermutations_eq]
  exact ⟨length_swapOrder _ _ _, swapOrder_nodup _ p 0 (by simp) hp,
    swapOrder_perm _ p 0 (by simp)⟩

/-- C22 (witness). Three callees give six pairwise distinct permutations. -/
theorem parallelPermutations_all_witness :
    ["a", "b", "c"].Nodup ∧
    (parallelPermutations ["a", "b", "c"]).length = Nat.factorial ["a", "b", "c"].length ∧
      (parallelPermutations ["a", "b", "c"]).Nodup ∧
      ∀ q ∈ parallelPermutations ["a", "b", "c"], q.Perm ["a", "b", "c"] :=
  ⟨by decide, parallelPermutations_all ["a", "b", "c"] (by decide)⟩

/-- C23 (amended). `parallelPermutations` enumerates the permutations in the order of
its exchange recursion: the sequence is `S(p, 0)`, where `S(a, k)` is `a` alone
when no entry is left to place and otherwise the concatenation, for
`i = k, k+1, ..` in turn, of `S(a with the entries k and i exchanged, k+1)`. The
first permutation is `p` itself, and for three callees the order is
`abc, acb, bac, bca, cba, cab`. -/
theorem parallelPermutations_order (p : List String) (a b c : String) :
    parallelPermutations p = swapOrder p.length p 0 ∧
      (parallelPermutations p).head? = some p ∧
      parallelPermutations [a, b, c] =
        [[a, b, c], [a, c, b], [b, a, c], [b, c, a], [c, b, a], [c, a, b]] := by
  refine ⟨parallelPermutations_eq p, ?_, ?_⟩
  · rw [parallelPermutations_eq]
    exact head_swapOrder _ p 0 (by simp)
  · rw [parallelPermutations_eq]
    simp [swapOrder, swapAt, List.range'_succ]

/-- C23 (counterexample). For the sorted list `a, b, c` the permutation `cba` comes
before `cab`: the sequence is not the lexicographic one. -/
theorem parallelPermutations_order_counterexample :
    parallelPermutations ["a", "b", "c"] =
      [["a", "b", "c"], ["a", "c", "b"], ["b", "a", "c"], ["b", "c", "a"], ["c", "b", "a"],
        ["c", "a", "b"]] ∧
    parallelPermutations ["a", "b", "c"] ≠
      [["a", "b", "c"], ["a", "c", "b"], ["b", "a", "c"], ["b", "c", "a"], ["c", "a", "b"],
        ["c", "b", "a"]] := by
  decide

/-! ### Forks -/

/-- C25 (amended). `newFork` appends one empty fork when the fork list is empty or the
generator is outside a phi state: the forks recorded before are all still
present, unchanged and in order, and the list grows by one. Inside a phi state
with a non-empty fork list it replaces the last fork by an empty one: the forks
before the last one stay, the last one is dropped and the length of the list
does not change. -/
theorem newFork_forks (g : Generator) :
    (newFork false g).forks = g.forks ++ [[]] ∧
      (g.forks = [] → (newFork true g).forks = [[]]) ∧
      (g.forks ≠ [] → (newFork true g).forks = g.forks.dropLast ++ [[]] ∧
        (newFork true g).forks.length = g.forks.length) := by
  refine ⟨?_, ?_, ?_⟩
  · unfold newFork
    split <;> simp
  · intro h
    simp [newFork, h]
  · intro h
    have hlen : ¬ g.forks.length = 0 := by
      intro h0
      exact h (List.length_eq_zero.1 h0)
    have hpos : 0 < g.forks.length := Nat.pos_of_ne_zero hlen
    constructor
    · simp [newFork, hlen]
    · simp [newFork, hlen]
      omega

/-- C25 (witness). The fork of a conditional is replaced by an empty fork when a new
fork is opened inside a phi state. -/
theorem newFork_forks_witness :
    joinExample.forks ≠ [] ∧
    (newFork true joinExample).forks = joinExample.forks.dropLast ++ [[]] ∧
      (newFork true joinExample).forks.length = joinExample.forks.length :=
  ⟨by decide, (newFork_forks joinExample).2.2 (by decide)⟩

/-- C25 (counterexample). Inside a phi state `newFork` on a generator with one
recorded fork leaves the empty fork alone: the recorded fork is gone and the
list did not grow. -/
theorem newFork_forks_counterexample :
    (newFork true joinExample).forks = [[]] ∧
    (newFork true joinExample).forks ≠ joinExample.forks ++ [[]] ∧
    (newFork true joinExample).forks.length = joinExample.forks.length := by
  decide

/-! ### States allocated and states recorded -/

/-- C21 (failing input). `fetchIdent` on the temporary `%1` that loads `a_b_c`, whose
state 0 is recorded in round 0: the state `a_b_c_1` is allocated and returned,
but the pair recorded in the round log is `(%1, 1)`; index 1 of `a_b_c` is in no
round. -/
theorem fetchIdent_records_temporary :
    (fetchIdent 0 (loadedTemp, []) "%1" (.Wrap "%1")).map
        (fun r => (wrapValue r.2, r.1.1.vars.SSA)) =
      .ok ("a_b_c_1", [("a_b_c", 1)]) ∧
    (fetchIdent 0 (loadedTemp, []) "%1" (.Wrap "%1")).map
        (fun r => (lookupBase r.1.1 "a_b_c", lookupBase r.1.1 "%1")) =
      .ok ([⟨0, 0, 0⟩], [⟨1, 0, 1⟩]) ∧
    (fetchIdent 0 (loadedTemp, []) "%1" (.Wrap "%1")).map (fun r => r.1.1.RoundVars) =
      .ok [[["a_b_c", "0"], ["%1", "1"]]] := by
  decide

/-! ### The join of a conditional gives every base of the fork its phi state in both branches -/

theorem declareVar_vars (g : Generator) (id t : String) :
    (declareVar g id t).vars = g.vars ∧ (declareVar g id t).forks = g.forks := ⟨rfl, rfl⟩

theorem addVarToRound_vars (g : Generator) (b : String) (n : Int) :
    (addVarToRound g b n).vars = g.vars ∧ (addVarToRound g b n).forks = g.forks := by
  unfold addVarToRound
  split <;> exact ⟨rfl, rfl⟩

theorem lookup_cons_str {β : Type} (m : List (String × β)) (j k : String) (w : β) :
    List.lookup j ((k, w) :: m) = if j = k then some w else List.lookup j m := by
  by_cases h : j = k
  · subst h
    simp [List.lookup]
  · have h2 : (j == k) = false := by simpa using h
    simp [List.lookup, h2, h]

theorem lookup_setSSA (m : List (String × Int)) (k : String) (n : Int) (j : String) :
    (setSSA m k n).lookup j = if j = k then some n else m.lookup j := by
  induction m with
  | nil => simp [setSSA, lookup_cons_str]
  | cons p rest ih =>
    obtain ⟨a, b⟩ := p
    unfold setSSA
    by_cases h : a = k
    · subst h
      simp only [if_true, lookup_cons_str]
      by_cases hj : j = a <;> simp [hj]
    · simp only [h, if_false, lookup_cons_str, ih]
      by_cases hj : j = a
      · subst hj
        simp [h]
      · simp [hj]

/-- The index that `AdvanceSSA` allocates for a base. -/
theorem AdvanceSSA_eq (vd : VarData) (k : String) :
    (AdvanceSSA vd k).2 =
        k ++ "_" ++ toString ((vd.SSA.lookup k).elim (0 : Int) (fun n => n + 1)) ∧
      ∀ j, (AdvanceSSA vd k).1.SSA.lookup j =
        if j = k then some ((vd.SSA.lookup k).elim (0 : Int) (fun n => n + 1))
        else vd.SSA.lookup j := by
  unfold AdvanceSSA
  cases h : vd.SSA.lookup k with
  | none => exact ⟨rfl, fun j => by simp [lookup_setSSA]⟩
  | some n => exact ⟨rfl, fun j => by simp [lookup_setSSA]⟩

theorem phiState_congr (vd1 vd2 : VarData) (k : String)
    (h : vd1.SSA.lookup k = vd2.SSA.lookup k) : phiState vd1 k = phiState vd2 k := by
  unfold phiState
  rw [(AdvanceSSA_eq vd1 k).1, (AdvanceSSA_eq vd2 k).1, h]

theorem capCondLoop_fresh (lookupType : String → String) (b : String) :
    ∀ (fork : Fork) (g : Generator) (phis : List (String × Int)),
    (fork.map Prod.fst).Nodup → (∀ kc ∈ fork, phis.lookup kc.1 = none) →
    (capCondLoop lookupType b fork g phis).2.2 =
        fork.flatMap (fun kc => (kc.2.filter (fun c => c.Branch = b)).flatMap
          (fun c => capRule lookupType kc.1 [c.GetEnd] (phiState g.vars kc.1))) ∧
      (capCondLoop lookupType b fork g phis).2.1 =
        phis ++ fork.map (fun kc => (kc.1, (GetVarBase (phiState g.vars kc.1)).2)) ∧
      (∀ j, (capCondLoop lookupType b fork g phis).1.vars.SSA.lookup j =
        if j ∈ fork.map Prod.fst then
          some ((g.vars.SSA.lookup j).elim (0 : Int) (fun n => n + 1))
        else g.vars.SSA.lookup j) ∧
      (capCondLoop lookupType b fork g phis).1.forks = g.forks := by
  intro fork
  induction fork with
  | nil => intro g phis _ _; simp [capCondLoop]
  | cons kc rest ih =>
    intro g phis hnd hphis
    obtain ⟨k, v⟩ := kc
    have hk : phis.lookup k = none := hphis (k, v) (List.mem_cons_self _ _)
    rw [List.map_cons, List.nodup_cons] at hnd
    obtain ⟨hknot, hnd2⟩ := hnd
    have hvars : (addVarToRound (declareVar { g with vars := (AdvanceSSA g.vars k).1 }
        (AdvanceSSA g.vars k).2 (lookupType k)) k
        (GetVarBase (AdvanceSSA g.vars k).2).2).vars = (AdvanceSSA g.vars k).1 :=
      (addVarToRound_vars _ _ _).1
    have hforks : (addVarToRound (declareVar { g with vars := (AdvanceSSA g.vars k).1 }
        (AdvanceSSA g.vars k).2 (lookupType k)) k
        (GetVarBase (AdvanceSSA g.vars k).2).2).forks = g.forks :=
      (addVarToRound_vars _ _ _).2
    have hrest : ∀ kc ∈ rest, (phis ++ [(k, (GetVarBase (AdvanceSSA g.vars k).2).2)]).lookup
        kc.1 = none := by
      intro kc hkc
      have hne : kc.1 ≠ k := by
        intro h
        apply hknot
        rw [← h]
        exact List.mem_map.2 ⟨kc, hkc, rfl⟩
      have h1 := hphis kc (List.mem_cons_of_mem _ hkc)
      rw [List.lookup_append, h1]
      simp [lookup_cons_str, hne]
    obtain ⟨i1, i2, i3, i4⟩ := ih (addVarToRound (declareVar
      { g with vars := (AdvanceSSA g.vars k).1 } (AdvanceSSA g.vars k).2 (lookupType k)) k
      (GetVarBase (AdvanceSSA g.vars k).2).2)
      (phis ++ [(k, (GetVarBase (AdvanceSSA g.vars k).2).2)]) hnd2 hrest
    have hcongr : ∀ kc ∈ rest, phiState (AdvanceSSA g.vars k).1 kc.1 = phiState g.vars kc.1 := by
      intro kc hkc
      have hne : kc.1 ≠ k := by
        intro h
        apply hknot
        rw [← h]
        exact List.mem_map.2 ⟨kc, hkc, rfl⟩
      apply phiState_congr
      rw [(AdvanceSSA_eq g.vars k).2]
      simp [hne]
    unfold capCondLoop
    simp only [hk]
    rw [hvars] at i1 i2 i3
    refine ⟨?_, ?_, ?_, ?_⟩
    · rw [i1, List.flatMap_cons]
      congr 1
      apply List.flatMap_congr
      intro kc hkc
      rw [hcongr kc hkc]
    · rw [i2, List.map_cons, List.append_assoc]
      congr 1
      simp only [List.singleton_append, phiState]
      congr 1
      apply List.map_congr_left
      intro kc hkc
      have := hcongr kc hkc
      simp only [phiState] at this
      rw [this]
    · intro j
      have hknot2 : k ∉ List.map Prod.fst rest := hknot
      rw [i3 j, (AdvanceSSA_eq g.vars k).2 j]
      by_cases hj : j = k
      · subst hj
        simp [hknot2]
      · simp only [hj, if_false, List.map_cons, List.mem_cons, false_or]
    · rw [i4, hforks]

theorem capCondLoop_known (lookupType : String → String) (b : String) (P : String → Int) :
    ∀ (fork : Fork) (g : Generator) (phis : List (String × Int)),
    (∀ kc ∈ fork, phis.lookup kc.1 = some (P kc.1)) →
    capCondLoop lookupType b fork g phis =
      (g, phis, fork.flatMap (fun kc => (kc.2.filter (fun c => c.Branch = b)).flatMap
        (fun c => capRule lookupType kc.1 [c.GetEnd] (kc.1 ++ "_" ++ toString (P kc.1))))) := by
  intro fork
  induction fork with
  | nil => intro g phis _; simp [capCondLoop]
  | cons kc rest ih =>
    intro g phis hphis
    obtain ⟨k, v⟩ := kc
    have hk : phis.lookup k = some (P k) := hphis (k, v) (List.mem_cons_self _ _)
    unfold capCondLoop
    simp only [hk]
    rw [ih g phis (fun kc hkc => hphis kc (List.mem_cons_of_mem _ hkc))]
    simp

theorem lookup_map_keys {α : Type} (Q : String → α) (fork : Fork) (k : String)
    (hk : k ∈ fork.map Prod.fst) :
    (fork.map (fun kc => (kc.1, Q kc.1))).lookup k = some (Q k) := by
  induction fork with
  | nil => simp at hk
  | cons kc rest ih =>
    rw [List.map_cons, lookup_cons_str]
    by_cases h : k = kc.1
    · simp [h]
    · simp only [h, if_false]
      apply ih
      simpa [h] using hk

theorem capCondSyncRules_two (lookupType : String → String) (getStartState : String → Int)
    (g : Generator) (fork : Fork) (hf : getCurrentFork g = .ok fork) :
    capCondSyncRules lookupType getStartState g ["true", "false"] =
      .ok [("false", syncEnds lookupType getStartState g fork "true"),
           ("true", syncEnds lookupType getStartState g fork "false")] := by
  simp [capCondSyncRules, capCondSyncLoop, hf, Intersection, addEnds]

theorem capRule_left (lookupType : String → String) (k : String) (n : Int) (id : String) :
    (capRule lookupType k [n] id).map (fun r => (equalitySides r).1) = [id] ∧
      (capRule lookupType k [n] id).map (fun r => (equalitySides r).2) =
        [k ++ "_" ++ toString n] := by
  unfold capRule
  by_cases h : lookupType k = "Bool" <;> simp [h, equalitySides, wrapValue]

theorem perm_split {α β : Type} (f : α → β) (m n : α → Nat) (L : List α)
    (h : ∀ x ∈ L, (m x = 1 ∧ n x = 0) ∨ (m x = 0 ∧ n x = 1)) :
    (L.flatMap (fun x => List.replicate (m x) (f x)) ++
      L.flatMap (fun x => List.replicate (n x) (f x))).Perm (L.map f) := by
  induction L with
  | nil => simp
  | cons x rest ih =>
    have ih2 := ih (fun y hy => h y (List.mem_cons_of_mem _ hy))
    simp only [List.flatMap_cons, List.map_cons]
    rcases h x (List.mem_cons_self _ _) with ⟨h1, h2⟩ | ⟨h1, h2⟩
    · simp only [h1, h2, List.replicate_succ, List.replicate_zero, List.nil_append,
        List.singleton_append, List.cons_append]
      exact ih2.cons _
    · simp only [h1, h2, List.replicate_succ, List.replicate_zero, List.nil_append,
        List.singleton_append]
      exact List.perm_middle.trans (ih2.cons _)

theorem getCurrentFork_congr (g1 g2 : Generator) (h : g1.forks = g2.forks) :
    getCurrentFork g1 = getCurrentFork g2 := by
  unfold getCurrentFork
  rw [h]

theorem syncEnds_eq (lookupType : String → String) (getStartState : String → Int)
    (g : Generator) (vd : VarData) (fork : Fork) (b : String)
    (h : ∀ kc ∈ fork, GetSSA g.vars kc.1 = phiState vd kc.1) :
    syncEnds lookupType getStartState g fork b =
      fork.flatMap (fun kc =>
        if onlyIn b kc then capRule lookupType kc.1 [getStartState kc.1] (phiState vd kc.1)
        else []) := by
  unfold syncEnds
  apply List.flatMap_congr
  intro kc hkc
  rw [h kc hkc]
  unfold onlyIn
  split <;> simp

theorem parseTermConEnds_eq (lookupType : String → String) (getStartState : String → Int)
    (g : Generator) (fork : Fork) (hf : getCurrentFork g = .ok fork)
    (hnd : (fork.map Prod.fst).Nodup)
    (hgv : ∀ kc ∈ fork,
      kc.1 ++ "_" ++ toString (GetVarBase (phiState g.vars kc.1)).2 = phiState g.vars kc.1) :
    (parseTermConEnds lookupType getStartState g).map (fun r => r.2) =
      .ok (joinEnds lookupType getStartState g.vars fork "true" "false",
        joinEnds lookupType getStartState g.vars fork "false" "true") := by
  obtain ⟨i1, i2, i3, i4⟩ := capCondLoop_fresh lookupType "true" fork g [] hnd (by simp)
  have hf1 : getCurrentFork (capCondLoop lookupType "true" fork g []).1 = .ok fork := by
    rw [getCurrentFork_congr _ g i4, hf]
  have hknown : ∀ kc ∈ fork, (capCondLoop lookupType "true" fork g []).2.1.lookup kc.1 =
      some ((GetVarBase (phiState g.vars kc.1)).2) := by
    intro kc hkc
    rw [i2, List.nil_append]
    exact lookup_map_keys (fun k => (GetVarBase (phiState g.vars k)).2) fork kc.1
      (List.mem_map.2 ⟨kc, hkc, rfl⟩)
  have h2 := capCondLoop_known lookupType "false"
    (fun k => (GetVarBase (phiState g.vars k)).2) fork
    (capCondLoop lookupType "true" fork g []).1 (capCondLoop lookupType "true" fork g []).2.1
    hknown
  have hssa : ∀ kc ∈ fork,
      GetSSA (capCondLoop lookupType "true" fork g []).1.vars kc.1 = phiState g.vars kc.1 := by
    intro kc hkc
    have hmem : kc.1 ∈ fork.map Prod.fst := List.mem_map.2 ⟨kc, hkc, rfl⟩
    unfold GetSSA ssaOf phiState
    rw [i3 kc.1, (AdvanceSSA_eq g.vars kc.1).1]
    simp [hmem]
  unfold parseTermConEnds capCond
  simp only [hf, hf1, h2]
  rw [capCondSyncRules_two lookupType getStartState _ fork hf1]
  simp only [Except.map, endsOf, lookup_cons_str, joinEnds]
  rw [i1, syncEnds_eq lookupType getStartState _ g.vars fork "false" hssa,
    syncEnds_eq lookupType getStartState _ g.vars fork "true" hssa]
  simp only [if_true, Option.getD_some]
  have hne : ¬ ("true" = "false") := by decide
  simp only [hne, if_false, Option.getD_some]
  have hfl : (fork.flatMap fun kc => (kc.2.filter (fun c => c.Branch = "false")).flatMap
      fun c => capRule lookupType kc.1 [c.GetEnd]
        (kc.1 ++ "_" ++ toString (GetVarBase (phiState g.vars kc.1)).2)) =
      (fork.flatMap fun kc => (kc.2.filter (fun c => c.Branch = "false")).flatMap
        fun c => capRule lookupType kc.1 [c.GetEnd] (phiState g.vars kc.1)) := by
    apply List.flatMap_congr
    intro kc hkc
    rw [hgv kc hkc]
  rw [hfl]

theorem lookup_some_mem {β : Type} (m : List (String × β)) (k : String) (v : β)
    (h : m.lookup k = some v) : (k, v) ∈ m := by
  induction m with
  | nil => simp at h
  | cons p rest ih =>
    obtain ⟨a, b⟩ := p
    rw [lookup_cons_str] at h
    by_cases hk : k = a
    · simp only [hk, if_true, Option.some.injEq] at h
      simp [hk, h]
    · simp only [hk, if_false] at h
      exact List.mem_cons_of_mem _ (ih h)

theorem keys_setFork (f : Fork) (k : String) (cs : List Choice) :
    (setFork f k cs).map Prod.fst =
      if k ∈ f.map Prod.fst then f.map Prod.fst else f.map Prod.fst ++ [k] := by
  induction f with
  | nil => simp [setFork]
  | cons p rest ih =>
    obtain ⟨a, b⟩ := p
    unfold setFork
    by_cases h : a = k
    · simp [h]
    · have h2 : ¬ k = a := fun h3 => h h3.symm
      simp only [h, if_false, List.map_cons, ih, List.mem_cons, h2, false_or]
      split <;> simp

theorem mem_setFork (f : Fork) (k : String) (cs : List Choice) (kc : String × List Choice)
    (hnd : (f.map Prod.fst).Nodup)
    (h : kc ∈ setFork f k cs) : kc = (k, cs) ∨ (kc ∈ f ∧ kc.1 ≠ k) := by
  induction f with
  | nil =>
    simp only [setFork, List.mem_singleton] at h
    exact Or.inl h
  | cons p rest ih =>
    obtain ⟨a, b⟩ := p
    rw [List.map_cons, List.nodup_cons] at hnd
    unfold setFork at h
    by_cases hk : a = k
    · simp only [hk, if_true, List.mem_cons] at h
      rcases h with h | h
      · exact Or.inl h
      · right
        refine ⟨List.mem_cons_of_mem _ h, ?_⟩
        intro h3
        apply hnd.1
        show a ∈ List.map Prod.fst rest
        rw [hk, ← h3]
        exact List.mem_map.2 ⟨kc, h, rfl⟩
    · simp only [hk, if_false, List.mem_cons] at h
      rcases h with h | h
      · right
        rw [h]
        exact ⟨List.mem_cons_self _ _, hk⟩
      · rcases ih hnd.2 h with h1 | ⟨h1, h2⟩
        · exact Or.inl h1
        · exact Or.inr ⟨List.mem_cons_of_mem _ h1, h2⟩

theorem nodup_setFork (f : Fork) (k : String) (cs : List Choice)
    (hnd : (f.map Prod.fst).Nodup) : ((setFork f k cs).map Prod.fst).Nodup := by
  rw [keys_setFork]
  split
  · exact hnd
  · rename_i h
    rw [List.nodup_append]
    refine ⟨hnd, by simp, ?_⟩
    intro x hx hx2
    simp only [List.mem_singleton] at hx2
    exact h (hx2 ▸ hx)

theorem buildForkLoop_true (changes : List String) :
    ∀ (fork : Fork) (seen : List String), (fork.map Prod.fst).Nodup →
    (∀ kc ∈ fork, (∃ c, kc.2 = [c] ∧ c.Branch = "true") ∧ kc.1 ∈ seen) →
    ((buildForkLoop "true" changes fork seen).map Prod.fst).Nodup ∧
      ∀ kc ∈ buildForkLoop "true" changes fork seen, ∃ c, kc.2 = [c] ∧ c.Branch = "true" := by
  induction changes with
  | nil =>
    intro fork seen hnd h
    exact ⟨hnd, fun kc hkc => (h kc hkc).1⟩
  | cons s rest ih =>
    intro fork seen hnd h
    unfold buildForkLoop
    simp only []
    cases hl : fork.lookup (GetVarBase s).1 with
    | none =>
      simp only []
      apply ih _ _ (nodup_setFork _ _ _ hnd)
      intro kc hkc
      rcases mem_setFork _ _ _ kc hnd hkc with h1 | ⟨h1, _⟩
      · rw [h1]
        exact ⟨⟨_, rfl, rfl⟩, List.mem_cons_self _ _⟩
      · exact ⟨(h kc h1).1, List.mem_cons_of_mem _ (h kc h1).2⟩
    | some cs =>
      have hmem := lookup_some_mem _ _ _ hl
      obtain ⟨⟨c, hc1, hc2⟩, hseen⟩ := h _ hmem
      simp only [] at hc1 hseen
      subst hc1
      have hcont : seen.contains (GetVarBase s).1 = true := by simpa using hseen
      simp only [List.getLast?_singleton, hcont, hc2, and_self, if_true, List.dropLast_single,
        List.nil_append]
      apply ih _ _ (nodup_setFork _ _ _ hnd)
      intro kc hkc
      rcases mem_setFork _ _ _ kc hnd hkc with h1 | ⟨h1, _⟩
      · rw [h1]
        exact ⟨⟨_, rfl, hc2⟩, hseen⟩
      · exact h kc h1

theorem buildForkLoop_false (changes : List String) :
    ∀ (fork : Fork) (seen : List String), (fork.map Prod.fst).Nodup →
    (∀ kc ∈ fork, ((∃ c, kc.2 = [c] ∧ c.Branch = "true") ∧ kc.1 ∉ seen) ∨
      (((∃ c, kc.2 = [c] ∧ c.Branch = "false") ∨
        (∃ c d, kc.2 = [c, d] ∧ c.Branch = "true" ∧ d.Branch = "false")) ∧ kc.1 ∈ seen)) →
    ((buildForkLoop "false" changes fork seen).map Prod.fst).Nodup ∧
      ∀ kc ∈ buildForkLoop "false" changes fork seen, joinShape kc = true := by
  induction changes with
  | nil =>
    intro fork seen hnd h
    refine ⟨hnd, fun kc hkc => ?_⟩
    rcases h kc hkc with ⟨⟨c, h1, h2⟩, _⟩ | ⟨⟨c, h1, h2⟩ | ⟨c, d, h1, h2, h3⟩, _⟩
    · simp [joinShape, h1, h2]
    · simp [joinShape, h1, h2]
    · simp [joinShape, h1, h2, h3]
  | cons s rest ih =>
    intro fork seen hnd h
    unfold buildForkLoop
    simp only []
    cases hl : fork.lookup (GetVarBase s).1 with
    | none =>
      simp only []
      apply ih _ _ (nodup_setFork _ _ _ hnd)
      intro kc hkc
      rcases mem_setFork _ _ _ kc hnd hkc with h1 | ⟨h1, h2⟩
      · rw [h1]
        exact Or.inr ⟨Or.inl ⟨_, rfl, rfl⟩, List.mem_cons_self _ _⟩
      · rcases h kc h1 with ⟨h3, h4⟩ | ⟨h3, h4⟩
        · left
          refine ⟨h3, ?_⟩
          simp only [List.mem_cons, not_or]
          exact ⟨h2, h4⟩
        · exact Or.inr ⟨h3, List.mem_cons_of_mem _ h4⟩
    | some cs =>
      have hmem := lookup_some_mem _ _ _ hl
      have hstep : ∀ (cs2 : List Choice) (seen2 : List String),
          (((∃ c, cs2 = [c] ∧ c.Branch = "false") ∨
            (∃ c d, cs2 = [c, d] ∧ c.Branch = "true" ∧ d.Branch = "false")) ∧
            (GetVarBase s).1 ∈ seen2) →
          (∀ x, x ∈ seen → x ∈ seen2) → (∀ x, x ∈ seen2 → x = (GetVarBase s).1 ∨ x ∈ seen) →
          ((buildForkLoop "false" rest (setFork fork (GetVarBase s).1 cs2) seen2).map
              Prod.fst).Nodup ∧
            ∀ kc ∈ buildForkLoop "false" rest (setFork fork (GetVarBase s).1 cs2) seen2,
              joinShape kc = true := by
        intro cs2 seen2 hcs2 hsub hsup
        apply ih _ _ (nodup_setFork _ _ _ hnd)
        intro kc hkc
        rcases mem_setFork _ _ _ kc hnd hkc with h1 | ⟨h1, h2⟩
        · rw [h1]
          exact Or.inr hcs2
        · rcases h kc h1 with ⟨h3, h4⟩ | ⟨h3, h4⟩
          · left
            refine ⟨h3, ?_⟩
            intro h5
            rcases hsup _ h5 with h6 | h6
            · exact h2 h6
            · exact h4 h6
          · exact Or.inr ⟨h3, hsub _ h4⟩
      rcases h _ hmem with ⟨⟨c, h1, h2⟩, h4⟩ | ⟨⟨c, h1, h2⟩ | ⟨c, d, h1, h2, h3⟩, h4⟩
      · simp only [] at h1 h4
        subst h1
        have hcont : seen.contains (GetVarBase s).1 = false := by simpa using h4
        simp only [List.getLast?_singleton, hcont, Bool.false_eq_true, false_and, if_false]
        exact hstep _ _ ⟨Or.inr ⟨c, _, rfl, h2, rfl⟩, List.mem_cons_self _ _⟩
          (fun x hx => List.mem_cons_of_mem _ hx) (fun x hx => List.mem_cons.1 hx)
      · simp only [] at h1 h4
        subst h1
        have hcont : seen.contains (GetVarBase s).1 = true := by simpa using h4
        simp only [List.getLast?_singleton, hcont, h2, and_self, if_true, List.dropLast_single,
          List.nil_append]
        exact hstep _ _ ⟨Or.inl ⟨_, rfl, h2⟩, h4⟩ (fun x hx => hx) (fun x hx => Or.inr hx)
      · simp only [] at h1 h4
        subst h1
        have hcont : seen.contains (GetVarBase s).1 = true := by simpa using h4
        have hlast : [c, d].getLast? = some d := rfl
        have hdrop : [c, d].dropLast = [c] := rfl
        simp only [hlast, hcont, h3, and_self, if_true, hdrop]
        exact hstep _ _ ⟨Or.inr ⟨c, _, rfl, h2, h3⟩, h4⟩ (fun x hx => hx) (fun x hx => Or.inr hx)

theorem branchFork_shape (ct cf : List String) :
    ((branchFork ct cf).map Prod.fst).Nodup ∧ ∀ kc ∈ branchFork ct cf, joinShape kc = true := by
  obtain ⟨h1, h2⟩ := buildForkLoop_true ct [] [] (by simp) (by simp)
  unfold branchFork
  apply buildForkLoop_false cf _ [] h1
  intro kc hkc
  exact Or.inl ⟨h2 kc hkc, by simp⟩

theorem capRule_sides (lookupType : String → String) (k : String) (n : Int) (id : String) :
    ∃ ty, capRule lookupType k [n] id =
      [.Infix (.Wrap id) (.Wrap (k ++ "_" ++ toString n)) ty "="] := by
  unfold capRule
  by_cases h : lookupType k = "Bool"
  · exact ⟨"Bool", by simp [h]⟩
  · exact ⟨"Real", by simp [h]⟩

theorem joinEnds_left (lookupType : String → String) (getStartState : String → Int)
    (vd : VarData) (b other : String) (fork : Fork) :
    (joinEnds lookupType getStartState vd fork b other).map (fun r => (equalitySides r).1) =
      fork.flatMap (fun kc => List.replicate (kc.2.filter (fun c => c.Branch = b)).length
          (phiState vd kc.1)) ++
        fork.flatMap (fun kc => List.replicate (if onlyIn other kc then 1 else 0)
          (phiState vd kc.1)) := by
  unfold joinEnds
  rw [List.map_append]
  congr 1
  · induction fork with
    | nil => rfl
    | cons kc rest ih =>
      simp only [List.flatMap_cons, List.map_append, ih]
      congr 1
      generalize kc.2.filter (fun c => c.Branch = b) = cs
      induction cs with
      | nil => rfl
      | cons c cs ih2 =>
        simp only [List.flatMap_cons, List.map_append, ih2, List.length_cons,
          List.replicate_succ, (capRule_left lookupType kc.1 c.GetEnd (phiState vd kc.1)).1]
        rfl
  · induction fork with
    | nil => rfl
    | cons kc rest ih =>
      simp only [List.flatMap_cons, List.map_append, ih]
      congr 1
      by_cases h : onlyIn other kc = true
      · simp only [h, if_true,
          (capRule_left lookupType kc.1 (getStartState kc.1) (phiState vd kc.1)).1]
        rfl
      · simp only [h, Bool.false_eq_true, if_false]
        rfl

theorem joinShape_true_false (kc : String × List Choice) (h : joinShape kc = true) :
    (((kc.2.filter (fun c => c.Branch = "true")).length = 1 ∧
        (if onlyIn "false" kc then 1 else 0) = 0) ∨
      ((kc.2.filter (fun c => c.Branch = "true")).length = 0 ∧
        (if onlyIn "false" kc then 1 else 0) = 1)) ∧
    (((kc.2.filter (fun c => c.Branch = "false")).length = 1 ∧
        (if onlyIn "true" kc then 1 else 0) = 0) ∨
      ((kc.2.filter (fun c => c.Branch = "false")).length = 0 ∧
        (if onlyIn "true" kc then 1 else 0) = 1)) := by
  obtain ⟨k, cs⟩ := kc
  have hne : ("true" : String) ≠ "false" := by decide
  match cs, h with
  | [c], h =>
    simp only [joinShape, Bool.or_eq_true, decide_eq_true_eq] at h
    rcases h with h | h
    · have h2 : c.Branch ≠ "false" := by rw [h]; exact hne
      simp [onlyIn, h, hne]
    · have h2 : c.Branch ≠ "true" := by rw [h]; exact hne.symm
      simp [onlyIn, h, hne.symm]
  | [c, d], h =>
    simp only [joinShape, Bool.and_eq_true, decide_eq_true_eq] at h
    obtain ⟨h1, h2⟩ := h
    simp [onlyIn, h1, h2, hne, hne.symm]
  | [], h => simp [joinShape] at h
  | _ :: _ :: _ :: _, h => simp [joinShape] at h

theorem joinEnds_perm (lookupType : String → String) (getStartState : String → Int)
    (vd : VarData) (fork : Fork) (h : ∀ kc ∈ fork, joinShape kc = true) :
    ((joinEnds lookupType getStartState vd fork "true" "false").map
        (fun r => (equalitySides r).1)).Perm (fork.map (fun kc => phiState vd kc.1)) ∧
      ((joinEnds lookupType getStartState vd fork "false" "true").map
        (fun r => (equalitySides r).1)).Perm (fork.map (fun kc => phiState vd kc.1)) := by
  constructor
  · rw [joinEnds_left]
    exact perm_split _ _ _ fork (fun kc hkc => (joinShape_true_false kc (h kc hkc)).1)
  · rw [joinEnds_left]
    exact perm_split _ _ _ fork (fun kc hkc => (joinShape_true_false kc (h kc hkc)).2)

theorem joinEnds_start (lookupType : String → String) (getStartState : String → Int)
    (vd : VarData) (fork : Fork) (b other : String) (kc : String × List Choice)
    (hkc : kc ∈ fork) (h : onlyIn other kc = true) :
    ∃ r ∈ joinEnds lookupType getStartState vd fork b other,
      ∃ ty, r = .Infix (.Wrap (phiState vd kc.1))
        (.Wrap (kc.1 ++ "_" ++ toString (getStartState kc.1))) ty "=" := by
  obtain ⟨ty, hty⟩ := capRule_sides lookupType kc.1 (getStartState kc.1) (phiState vd kc.1)
  refine ⟨_, ?_, ty, rfl⟩
  unfold joinEnds
  apply List.mem_append_right
  rw [List.mem_flatMap]
  refine ⟨kc, hkc, ?_⟩
  simp only [h, if_true, hty, List.mem_singleton]

theorem joinEnds_equalities (lookupType : String → String) (getStartState : String → Int)
    (vd : VarData) (fork : Fork) (b other : String) :
    ∀ r ∈ joinEnds lookupType getStartState vd fork b other,
      ∃ x y ty, r = .Infix (.Wrap x) (.Wrap y) ty "=" := by
  intro r hr
  unfold joinEnds at hr
  rcases List.mem_append.1 hr with h | h
  · rw [List.mem_flatMap] at h
    obtain ⟨kc, _, h⟩ := h
    rw [List.mem_flatMap] at h
    obtain ⟨c, _, h⟩ := h
    obtain ⟨ty, hty⟩ := capRule_sides lookupType kc.1 c.GetEnd (phiState vd kc.1)
    rw [hty, List.mem_singleton] at h
    exact ⟨_, _, ty, h⟩
  · rw [List.mem_flatMap] at h
    obtain ⟨kc, _, h⟩ := h
    by_cases ho : onlyIn other kc = true
    · obtain ⟨ty, hty⟩ := capRule_sides lookupType kc.1 (getStartState kc.1) (phiState vd kc.1)
      simp only [ho, if_true, hty, List.mem_singleton] at h
      exact ⟨_, _, ty, h⟩
    · simp [ho] at h

/-- C24. At the join of a conditional whose fork was built from the state changes `ct`
of the true branch and then `cf` of the false branch, `parseTermCon` returns the
two branch lists of the `Ite`; every rule of either list is an equality between
two plain operands; the phi states on the left of the true list are, up to order,
the phi states of the bases of the fork, one for each base, and so are those of
the false list; a base written in the true branch only has, in the false list,
the equality of its phi state with its start state, and a base written in the
false branch only has that equality in the true list. The state indices of the
phi states are taken to read back through `GetVarBase`. -/
theorem parseTermConEnds_bases (lookupType : String → String) (getStartState : String → Int)
    (g : Generator) (ct cf : List String)
    (hf : getCurrentFork g = .ok (branchFork ct cf))
    (hgv : ∀ kc ∈ branchFork ct cf,
      kc.1 ++ "_" ++ toString (GetVarBase (phiState g.vars kc.1)).2 = phiState g.vars kc.1) :
    ∃ T F, (parseTermConEnds lookupType getStartState g).map (fun r => r.2) = .ok (T, F) ∧
      (∀ r ∈ T ++ F, ∃ x y ty, r = .Infix (.Wrap x) (.Wrap y) ty "=") ∧
      (T.map (fun r => (equalitySides r).1)).Perm
        ((branchFork ct cf).map (fun kc => phiState g.vars kc.1)) ∧
      (F.map (fun r => (equalitySides r).1)).Perm
        ((branchFork ct cf).map (fun kc => phiState g.vars kc.1)) ∧
      (∀ kc ∈ branchFork ct cf, onlyIn "true" kc = true →
        ∃ r ∈ F, ∃ ty, r = .Infix (.Wrap (phiState g.vars kc.1))
          (.Wrap (kc.1 ++ "_" ++ toString (getStartState kc.1))) ty "=") ∧
      (∀ kc ∈ branchFork ct cf, onlyIn "false" kc = true →
        ∃ r ∈ T, ∃ ty, r = .Infix (.Wrap (phiState g.vars kc.1))
          (.Wrap (kc.1 ++ "_" ++ toString (getStartState kc.1))) ty "=") := by
  obtain ⟨hnd, hshape⟩ := branchFork_shape ct cf
  refine ⟨_, _, parseTermConEnds_eq lookupType getStartState g _ hf hnd hgv, ?_,
    (joinEnds_perm lookupType getStartState g.vars _ hshape).1,
    (joinEnds_perm lookupType getStartState g.vars _ hshape).2,
    fun kc hkc h => joinEnds_start lookupType getStartState g.vars _ "false" "true" kc hkc h,
    fun kc hkc h => joinEnds_start lookupType getStartState g.vars _ "true" "false" kc hkc h⟩
  intro r hr
  rcases List.mem_append.1 hr with h | h
  · exact joinEnds_equalities lookupType getStartState g.vars _ "true" "false" r h
  · exact joinEnds_equalities lookupType getStartState g.vars _ "false" "true" r h

theorem parseTermConEnds_bases_witness :
    getCurrentFork joinExample = .ok (branchFork ["x_1", "y_1", "x_2"] ["y_2", "z_1"]) ∧
    (∀ kc ∈ branchFork ["x_1", "y_1", "x_2"] ["y_2", "z_1"],
      kc.1 ++ "_" ++ toString (GetVarBase (phiState joinExample.vars kc.1)).2 =
        phiState joinExample.vars kc.1) ∧
    ∃ T F, (parseTermConEnds (fun _ => "Real") (fun _ => 0) joinExample).map (fun r => r.2) =
        .ok (T, F) ∧
      (∀ r ∈ T ++ F, ∃ x y ty, r = .Infix (.Wrap x) (.Wrap y) ty "=") ∧
      (T.map (fun r => (equalitySides r).1)).Perm
        ((branchFork ["x_1", "y_1", "x_2"] ["y_2", "z_1"]).map
          (fun kc => phiState joinExample.vars kc.1)) ∧
      (F.map (fun r => (equalitySides r).1)).Perm
        ((branchFork ["x_1", "y_1", "x_2"] ["y_2", "z_1"]).map
          (fun kc => phiState joinExample.vars kc.1)) ∧
      (∀ kc ∈ branchFork ["x_1", "y_1", "x_2"] ["y_2", "z_1"], onlyIn "true" kc = true →
        ∃ r ∈ F, ∃ ty, r = .Infix (.Wrap (phiState joinExample.vars kc.1))
          (.Wrap (kc.1 ++ "_" ++ toString ((fun _ => (0 : Int)) kc.1))) ty "=") ∧
      (∀ kc ∈ branchFork ["x_1", "y_1", "x_2"] ["y_2", "z_1"], onlyIn "false" kc = true →
        ∃ r ∈ T, ∃ ty, r = .Infix (.Wrap (phiState joinExample.vars kc.1))
          (.Wrap (kc.1 ++ "_" ++ toString ((fun _ => (0 : Int)) kc.1))) ty "=") :=
  ⟨by decide, by decide,
    parseTermConEnds_bases (fun _ => "Real") (fun _ => 0) joinExample
      ["x_1", "y_1", "x_2"] ["y_2", "z_1"] (by decide) (by decide)⟩

/-! ### The preamble of the solver output (execute.go) -/

theorem cleanLoop_paren (fuel : Nat) (rest : List Char) :
    cleanLoop fuel ('(' :: rest) = .ok (some ('(' :: rest)) := by
  cases fuel <;> simp [cleanLoop]

theorem cleanLoop_step (fuel : Nat) (cs : List Char) (h1 : ¬ (cs.length < 1))
    (h2 : ¬ (cs.take 1 = ['('])) :
    cleanLoop (fuel + 1) cs = cleanLoop fuel (cs.drop (indexNewline cs + 1).toNat) := by
  rw [cleanLoop, if_neg h1, if_neg h2]

theorem cleanLoop_lines : ∀ (fuel : Nat) (pre rest : List Char), '(' ∉ pre →
    (pre = [] ∨ pre.getLast? = some '\n') → pre.length ≤ fuel →
    cleanLoop fuel (pre ++ '(' :: rest) = .ok (some ('(' :: rest)) := by
  intro fuel
  induction fuel with
  | zero =>
    intro pre rest _ _ hlen
    have : pre = [] := List.eq_nil_of_length_eq_zero (Nat.le_zero.1 hlen)
    subst this
    exact cleanLoop_paren 0 rest
  | succ f ih =>
    intro pre rest hno hline hlen
    cases pre with
    | nil => exact cleanLoop_paren (f + 1) rest
    | cons c p =>
      have hc : c ≠ '(' := fun h => hno (by rw [h]; exact List.mem_cons_self _ _)
      have hlast : (c :: p).getLast? = some '\n' := by
        rcases hline with h | h
        · exact absurd h (List.cons_ne_nil _ _)
        · exact h
      have hmem : '\n' ∈ c :: p := List.mem_of_getLast?_eq_some hlast
      have hmem2 : '\n' ∈ c :: p ++ '(' :: rest := List.mem_append_left _ hmem
      have hidx : List.indexOf '\n' (c :: p) < (c :: p).length := List.indexOf_lt_length.2 hmem
      have hstep : cleanLoop (f + 1) (c :: p ++ '(' :: rest) =
          cleanLoop f ((c :: p).drop (List.indexOf '\n' (c :: p) + 1) ++ '(' :: rest) := by
        have hdrop : (c :: p ++ '(' :: rest).drop (List.indexOf '\n' (c :: p) + 1) =
            (c :: p).drop (List.indexOf '\n' (c :: p) + 1) ++ '(' :: rest :=
          List.drop_append_of_le_length hidx
        have hi : indexNewline (c :: p ++ '(' :: rest) = (List.indexOf '\n' (c :: p) : Int) := by
          unfold indexNewline
          rw [if_pos hmem2, List.indexOf_append_of_mem hmem]
        have htake : ¬ ((c :: p ++ '(' :: rest).take 1 = ['(']) := by
          simp [hc]
        have hlen1 : ¬ ((c :: p ++ '(' :: rest).length < 1) := by simp
        rw [cleanLoop, if_neg hlen1, if_neg htake, hi]
        have : ((List.indexOf '\n' (c :: p) : Int) + 1).toNat = List.indexOf '\n' (c :: p) + 1 := by
          omega
        rw [this, hdrop]
      rw [hstep]
      apply ih
      · intro h
        exact hno (List.mem_of_mem_drop h)
      · by_cases hd : (c :: p).length ≤ List.indexOf '\n' (c :: p) + 1
        · left
          exact List.drop_eq_nil_of_le hd
        · right
          rw [List.getLast?_drop, if_neg hd, hlast]
      · rw [List.length_drop]
        simp only [List.length_cons] at hlen ⊢
        omega

/-- C31 (amended). For every solver output whose first `(` is the first character of
a line (the text before it is empty or ends with a newline), `cleanExtraOutputs`
returns exactly the suffix of the output that starts at its first `(`; as many
runs of the loop body as there are characters before it suffice. -/
theorem cleanExtraOutputs_line_start (fuel : Nat) (pre suf : String)
    (hpre : '(' ∉ pre.data) (hline : pre = "" ∨ pre.data.getLast? = some '\n')
    (hfuel : pre.length ≤ fuel) :
    cleanExtraOutputs fuel (pre ++ "(" ++ suf) = .ok (some ("(" ++ suf)) := by
  have hl : pre.data = [] ∨ pre.data.getLast? = some '\n' := by
    rcases hline with h | h
    · left
      rw [h]
    · exact Or.inr h
  have h := cleanLoop_lines fuel pre.data suf.data hpre hl hfuel
  unfold cleanExtraOutputs
  have hd : (pre ++ "(" ++ suf).data = pre.data ++ '(' :: suf.data := by
    simp [String.data_append]
  rw [hd, h]
  rfl

/-- C31 (witness). The output `sat`, a newline, and a model of two lines. -/
theorem cleanExtraOutputs_line_start_witness :
    cleanExtraOutputs 4 ("sat\n" ++ "(" ++ "model\n (x 1))") = .ok (some ("(" ++ "model\n (x 1))")) :=
  cleanExtraOutputs_line_start 4 "sat\n" "model\n (x 1))" (by decide) (by decide) (by decide)

/-- C31 (counterexample). In the output `sat (x`, newline, `(y)` the first `(` stands
in the middle of the first line: the whole line is dropped and the result is
`(y)`, not the suffix `(x`, newline, `(y)` that starts at the first `(`. -/
theorem cleanExtraOutputs_counterexample :
    (∀ fuel, cleanExtraOutputs (fuel + 1) "sat (x\n(y)" = .ok (some "(y)")) ∧
      cleanExtraOutputs 1 "sat (x\n(y)" ≠ .ok (some "(x\n(y)") := by
  refine ⟨fun fuel => ?_, by decide⟩
  unfold cleanExtraOutputs
  rw [cleanLoop_step fuel _ (by decide) (by decide)]
  have h : "sat (x\n(y)".data.drop (indexNewline "sat (x\n(y)".data + 1).toNat =
      '(' :: ['y', ')'] := by decide
  rw [h, cleanLoop_paren]
  rfl

theorem cleanLoop_stuck (cs : List Char) (h1 : ¬ (cs.length < 1)) (h2 : ¬ (cs.take 1 = ['(']))
    (h3 : '\n' ∉ cs) : ∀ fuel, cleanLoop fuel cs = .ok none := by
  intro fuel
  induction fuel with
  | zero => rw [cleanLoop, if_neg h1, if_neg h2]
  | succ f ih =>
    rw [cleanLoop, if_neg h1, if_neg h2]
    have : indexNewline cs = -1 := by
      unfold indexNewline
      rw [if_neg h3]
    rw [this]
    exact ih

/-- C37 (evaluation at the failing input). On the output `sat (x)`, which contains a
`(` and no newline, the loop of `cleanExtraOutputs` is still running after every
number of runs of its body: the call never returns. On the output `a(`, newline,
the first line is dropped and the slice of the empty rest panics. -/
theorem cleanExtraOutputs_no_newline :
    (∀ fuel, cleanExtraOutputs fuel "sat (x)" = .ok none) ∧
      (∀ fuel, cleanExtraOutputs (fuel + 1) "a(\n" =
        .error "runtime error: slice bounds out of range [:1] with length 0") := by
  constructor
  · intro fuel
    unfold cleanExtraOutputs
    rw [cleanLoop_stuck "sat (x)".data (by decide) (by decide) (by decide) fuel]
    rfl
  · intro fuel
    unfold cleanExtraOutputs
    rw [cleanLoop_step fuel _ (by decide) (by decide)]
    have h : "a(\n".data.drop (indexNewline "a(\n".data + 1).toNat = [] := by decide
    rw [h]
    cases fuel <;> rfl

/-! ### Reweighting keeps the results and the keys (execute.go) -/

theorem lookup_setResult {F : Type} (m : List (String × Option (Scenario F))) (k : String)
    (s : Option (Scenario F)) (j : String) :
    (setResult m k s).lookup j = if j = k then some s else m.lookup j := by
  induction m with
  | nil => simp [setResult, lookup_cons_str]
  | cons p rest ih =>
    obtain ⟨a, b⟩ := p
    unfold setResult
    by_cases h : a = k
    · subst h
      simp only [if_true, lookup_cons_str]
      by_cases hj : j = a <;> simp [hj]
    · simp only [h, if_false, lookup_cons_str, ih]
      by_cases hj : j = a
      · subst hj
        simp [h]
      · simp [hj]

theorem keys_setResult {F : Type} (m : List (String × Option (Scenario F))) (k : String)
    (s : Option (Scenario F)) (h : m.lookup k ≠ none) :
    (setResult m k s).map Prod.fst = m.map Prod.fst := by
  induction m with
  | nil => simp at h
  | cons p rest ih =>
    obtain ⟨a, b⟩ := p
    unfold setResult
    by_cases hk : a = k
    · simp [hk]
    · have hk2 : ¬ (k = a) := fun e => hk e.symm
      rw [lookup_cons_str, if_neg hk2] at h
      simp [hk, ih h]

theorem AddWeight_fresh {F : Type} (ws : List (Int × F)) (idx : Int) (w : F)
    (h : idx ∉ ws.map Prod.fst) : AddWeight ws idx w = ws ++ [(idx, w)] := by
  induction ws with
  | nil => rfl
  | cons p rest ih =>
    obtain ⟨a, b⟩ := p
    rw [List.map_cons, List.mem_cons, not_or] at h
    have ha : ¬ (a = idx) := fun e => h.1 e.symm
    simp [AddWeight, ha, ih h.2]

theorem foldl_AddWeight {F V : Type} (f : V → F) :
    ∀ (rs : List (Int × V)) (acc : List (Int × F)), (rs.map Prod.fst).Nodup →
    (∀ s ∈ rs, s.1 ∉ acc.map Prod.fst) →
    rs.foldl (fun w s => AddWeight w s.1 (f s.2)) acc = acc ++ rs.map (fun s => (s.1, f s.2)) := by
  intro rs
  induction rs with
  | nil => intro acc _ _; simp
  | cons s rest ih =>
    intro acc hnd hacc
    rw [List.map_cons, List.nodup_cons] at hnd
    rw [List.foldl_cons, AddWeight_fresh acc s.1 (f s.2) (hacc s (List.mem_cons_self _ _)),
      ih _ hnd.2, List.map_cons, List.append_assoc, List.singleton_append]
    intro t ht
    rw [List.map_append, List.mem_append, not_or]
    refine ⟨hacc t (List.mem_cons_of_mem _ ht), ?_⟩
    simp only [List.map_cons, List.map_nil, List.mem_singleton]
    intro e
    exact hnd.1 (e ▸ List.mem_map.2 ⟨t, ht, rfl⟩)

theorem stateAssessment_float {F : Type} (prob : Normal F → F → F) (ofInt : Int → F)
    (dist : Normal F) (rs ws : List (Int × F)) (hnd : (rs.map Prod.fst).Nodup) :
    stateAssessment prob ofInt dist (.FloatTrace rs ws) =
      some (.FloatTrace rs (rs.map (fun s => (s.1, prob dist s.2)))) := by
  have h := foldl_AddWeight (prob dist) rs [] hnd (by simp)
  rw [List.nil_append] at h
  simp only [stateAssessment, h]

theorem stateAssessment_int {F : Type} (prob : Normal F → F → F) (ofInt : Int → F)
    (dist : Normal F) (rs : List (Int × Int)) (ws : List (Int × F))
    (hnd : (rs.map Prod.fst).Nodup) :
    stateAssessment prob ofInt dist (.IntTrace rs ws) =
      some (.IntTrace rs (rs.map (fun s => (s.1, prob dist (ofInt s.2))))) := by
  have h := foldl_AddWeight (fun v => prob dist (ofInt v)) rs [] hnd (by simp)
  rw [List.nil_append] at h
  simp only [stateAssessment, h]

theorem filterLoop_spec {F : Type} (prob : Normal F → F → F) (ofInt : Int → F) :
    ∀ (us : List (String × List F)) (results : List (String × Option (Scenario F))),
    (∀ u ∈ us, 2 ≤ u.2.length) →
    ∃ r, filterLoop prob ofInt us results = .ok r ∧
      r.map Prod.fst = results.map Prod.fst ∧
      (∀ j, j ∉ us.map Prod.fst → r.lookup j = results.lookup j) ∧
      (∀ j, (results.lookup j = none ∨ results.lookup j = some none) →
        r.lookup j = results.lookup j) ∧
      ((us.map Prod.fst).Nodup → ∀ j mu sigma tail s, (j, mu :: sigma :: tail) ∈ us →
        results.lookup j = some (some s) →
        r.lookup j = some (stateAssessment prob ofInt ⟨mu, sigma⟩ s)) := by
  intro us
  induction us with
  | nil =>
    intro results _
    exact ⟨results, rfl, rfl, fun _ _ => rfl, fun _ _ => rfl,
      fun _ j mu sigma tail s h _ => absurd h (List.not_mem_nil _)⟩
  | cons ku rest ih =>
    intro results hp
    obtain ⟨k, u⟩ := ku
    have hp2 : ∀ u ∈ rest, 2 ≤ u.2.length := fun u hu => hp u (List.mem_cons_of_mem _ hu)
    cases hl : results.lookup k with
    | none =>
      obtain ⟨r, h1, h2, h3, h4, h5⟩ := ih results hp2
      refine ⟨r, ?_, h2, ?_, h4, ?_⟩
      · rw [filterLoop, hl]
        exact h1
      · intro j hj
        exact h3 j (fun h => hj (List.mem_cons_of_mem _ h))
      · intro hnd j mu sigma tail s hmem hs
        rw [List.map_cons, List.nodup_cons] at hnd
        rcases List.mem_cons.1 hmem with e | e
        · have : j = k := congrArg Prod.fst e
          rw [this, hl] at hs
          exact absurd hs (by simp)
        · exact h5 hnd.2 j mu sigma tail s e hs
    | some v =>
      cases v with
      | none =>
        obtain ⟨r, h1, h2, h3, h4, h5⟩ := ih results hp2
        refine ⟨r, ?_, h2, ?_, h4, ?_⟩
        · rw [filterLoop, hl]
          exact h1
        · intro j hj
          exact h3 j (fun h => hj (List.mem_cons_of_mem _ h))
        · intro hnd j mu sigma tail s hmem hs
          rw [List.map_cons, List.nodup_cons] at hnd
          rcases List.mem_cons.1 hmem with e | e
          · have : j = k := congrArg Prod.fst e
            rw [this, hl] at hs
            exact absurd hs (by simp)
          · exact h5 hnd.2 j mu sigma tail s e hs
      | some s0 =>
        have hu := hp (k, u) (List.mem_cons_self _ _)
        match u, hu with
        | m0 :: s1 :: tl, _ =>
          obtain ⟨r, h1, h2, h3, h4, h5⟩ := ih
            (setResult results k (stateAssessment prob ofInt ⟨m0, s1⟩ s0)) hp2
          have hkeys := keys_setResult results k (stateAssessment prob ofInt ⟨m0, s1⟩ s0)
            (by rw [hl]; simp)
          refine ⟨r, ?_, ?_, ?_, ?_, ?_⟩
          · rw [filterLoop, hl]
            exact h1
          · rw [h2, hkeys]
          · intro j hj
            rw [List.map_cons, List.mem_cons, not_or] at hj
            rw [h3 j hj.2, lookup_setResult, if_neg hj.1]
          · intro j hj
            have hjk : j ≠ k := by
              intro e
              rw [e, hl] at hj
              rcases hj with h | h <;> simp at h
            have e1 : (setResult results k (stateAssessment prob ofInt ⟨m0, s1⟩ s0)).lookup j =
                results.lookup j := by
              rw [lookup_setResult, if_neg hjk]
            rw [← e1]
            apply h4
            rw [e1]
            exact hj
          · intro hnd j mu sigma tail s hmem hs
            rw [List.map_cons, List.nodup_cons] at hnd
            rcases List.mem_cons.1 hmem with e | e
            · have ej : j = k := congrArg Prod.fst e
              have eu : mu :: sigma :: tail = m0 :: s1 :: tl := congrArg Prod.snd e
              have emu : mu = m0 := by injection eu
              have esig : sigma = s1 := by
                injection eu with _ h
                injection h
              subst ej emu esig
              rw [hl] at hs
              have es : s0 = s := by
                injection hs with h
                injection h
              subst es
              rw [h3 j hnd.1, lookup_setResult, if_pos rfl]
            · have hjk : j ≠ k := by
                intro e2
                apply hnd.1
                rw [← e2]
                exact List.mem_map.2 ⟨_, e, rfl⟩
              apply h5 hnd.2 j mu sigma tail s e
              rw [lookup_setResult, if_neg hjk]
              exact hs

/-- C32. For every base `k` declared uncertain with parameters `mu`, `sigma` whose
entry in the results is a `FloatTrace` or an `IntTrace` `s` (the state indices of
its results pairwise distinct, as the keys of a map are), `Filter` returns, and
the trace `t` it returns under `k` has the kind and the results of `s` and one
weight for each result, under the same state indices, so that the weights are
as many as the results. The bases of `Uncertains` are pairwise distinct and each
has at least two parameters. -/
theorem Filter_weights {F : Type} (prob : Normal F → F → F) (ofInt : Int → F)
    (mc : ModelChecker F) (results : List (String × Option (Scenario F)))
    (k : String) (mu sigma : F) (tail : List F) (s : Scenario F)
    (hnd : (mc.Uncertains.map Prod.fst).Nodup)
    (hp : ∀ u ∈ mc.Uncertains, 2 ≤ u.2.length)
    (hk : (k, mu :: sigma :: tail) ∈ mc.Uncertains)
    (hs : results.lookup k = some (some s))
    (hkind : s.isBool = false)
    (hkeys : s.resultKeys.Nodup) :
    ∃ t, (mc.Filter prob ofInt results).map (fun r => r.lookup k) = .ok (some (some t)) ∧
      t.dropWeights = s.dropWeights ∧
      t.weightKeys = s.resultKeys ∧
      t.weightKeys.length = s.resultKeys.length := by
  obtain ⟨r, h1, _, _, _, h5⟩ := filterLoop_spec prob ofInt mc.Uncertains results hp
  have h6 := h5 hnd k mu sigma tail s hk hs
  unfold ModelChecker.Filter
  rw [h1]
  cases s with
  | FloatTrace rs ws =>
    rw [stateAssessment_float prob ofInt _ rs ws hkeys] at h6
    refine ⟨_, congrArg Except.ok h6, rfl, ?_, ?_⟩
    · simp [Scenario.weightKeys, Scenario.resultKeys]
    · simp [Scenario.weightKeys, Scenario.resultKeys]
  | IntTrace rs ws =>
    rw [stateAssessment_int prob ofInt _ rs ws hkeys] at h6
    refine ⟨_, congrArg Except.ok h6, rfl, ?_, ?_⟩
    · simp [Scenario.weightKeys, Scenario.resultKeys]
    · simp [Scenario.weightKeys, Scenario.resultKeys]
  | BoolTrace rs ws => simp [Scenario.isBool] at hkind

/-- C32 (witness). The float trace of `rate`, declared uncertain with parameters 2
and 3. -/
theorem Filter_weights_witness :
    (uncertainModel.Uncertains.map Prod.fst).Nodup ∧
    (∀ u ∈ uncertainModel.Uncertains, 2 ≤ u.2.length) ∧
    ("rate", (2 : Int) :: 3 :: []) ∈ uncertainModel.Uncertains ∧
    solvedResults.lookup "rate" = some (some (.FloatTrace [(0, 5), (1, 7)] [])) ∧
    ∃ t, (uncertainModel.Filter exampleDensity id solvedResults).map
        (fun r => r.lookup "rate") = .ok (some (some t)) ∧
      t.dropWeights = (Scenario.FloatTrace [(0, 5), (1, 7)] []).dropWeights ∧
      t.weightKeys = (Scenario.FloatTrace [(0, 5), (1, 7)] ([] : List (Int × Int))).resultKeys ∧
      t.weightKeys.length =
        (Scenario.FloatTrace [(0, 5), (1, 7)] ([] : List (Int × Int))).resultKeys.length :=
  ⟨by decide, by decide, by decide, by decide,
    Filter_weights exampleDensity id uncertainModel solvedResults "rate" 2 3 []
      (.FloatTrace [(0, 5), (1, 7)] []) (by decide) (by decide) (by decide) (by decide)
      (by decide) (by decide)⟩

/-- C33 (evaluation at the failing input). For every base declared uncertain whose
entry in the results is a `BoolTrace`, `stateAssessment` returns the nil `Scenario`
and `Filter` stores it under the base: the trace and its results are gone from
the mapping returned. -/
theorem Filter_bool_trace {F : Type} (prob : Normal F → F → F) (ofInt : Int → F)
    (k : String) (mu sigma : F) (rs : List (Int × Bool)) (ws : List (Int × F)) :
    stateAssessment prob ofInt ⟨mu, sigma⟩ (.BoolTrace rs ws) = none ∧
      ModelChecker.Filter prob ofInt { Uncertains := [(k, [mu, sigma])] }
        [(k, some (.BoolTrace rs ws))] = .ok [(k, none)] ∧
      (uncertainModel.Filter exampleDensity id solvedResults).map
        (fun r => r.lookup "flag") = .ok (some none) := by
  refine ⟨rfl, ?_, by decide⟩
  simp [ModelChecker.Filter, filterLoop, lookup_cons_str, setResult, stateAssessment]

/-- C39. `Filter` returns for every results mapping (each base of `Uncertains` having
at least two parameters), and the mapping it returns has the keys of the
results, in the same order: no key is added and none is removed; every entry
whose key is not a base of `Uncertains` is unchanged, and so is every entry that
is absent or nil. -/
theorem Filter_frame {F : Type} (prob : Normal F → F → F) (ofInt : Int → F)
    (mc : ModelChecker F) (results : List (String × Option (Scenario F)))
    (hp : ∀ u ∈ mc.Uncertains, 2 ≤ u.2.length) :
    ∃ r, mc.Filter prob ofInt results = .ok r ∧
      r.map Prod.fst = results.map Prod.fst ∧
      (∀ j, j ∉ mc.Uncertains.map Prod.fst → r.lookup j = results.lookup j) ∧
      (∀ j, (results.lookup j = none ∨ results.lookup j = some none) →
        r.lookup j = results.lookup j) := by
  obtain ⟨r, h1, h2, h3, h4, _⟩ := filterLoop_spec prob ofInt mc.Uncertains results hp
  exact ⟨r, h1, h2, h3, h4⟩

/-- C39 (witness). The results of `rate`, `count` and `flag` with `rate` and `flag`
declared uncertain. -/
theorem Filter_frame_witness :
    (∀ u ∈ uncertainModel.Uncertains, 2 ≤ u.2.length) ∧
    ∃ r, uncertainModel.Filter exampleDensity id solvedResults = .ok r ∧
      r.map Prod.fst = solvedResults.map Prod.fst ∧
      (∀ j, j ∉ uncertainModel.Uncertains.map Prod.fst →
        r.lookup j = solvedResults.lookup j) ∧
      (∀ j, (solvedResults.lookup j = none ∨ solvedResults.lookup j = some none) →
        r.lookup j = solvedResults.lookup j) :=
  ⟨by decide, Filter_frame exampleDensity id uncertainModel solvedResults (by decide)⟩

/-! ### Operand order, prefix expressions and leaf conditions -/

/-- C35 (evaluation at the failing input). With states 0 and 1 of `a_b_c` recorded,
the assert `0 < a_b_c`, whose left operand is the constant, renders the terms
`(< a_b_c_0 0)` and `(< a_b_c_1 0)`, the operands exchanged: the same text as the
assert `a_b_c < 0`. The rule of `mergeByRound` for a constant left side hands
the sides to `balance` with the variable first. -/
theorem parseAssert_constant_left :
    parseAssert DiffStrSets (logTwoRounds "a_b_c")
        (plainStatement (.IntegerLiteral 0) "<" (.AssertVar ["a_b_c"]) false) =
      .ok "(or (< a_b_c_0 0) (< a_b_c_1 0))" ∧
    parseAssert DiffStrSets (logTwoRounds "a_b_c")
        (plainStatement (.AssertVar ["a_b_c"]) "<" (.IntegerLiteral 0) false) =
      .ok "(or (< a_b_c_0 0) (< a_b_c_1 0))" ∧
    (mergeByRound (logTwoRounds "a_b_c")
        { Base := "__int", States := [(0, ["0"])], Constant := true }
        { Base := "a_b_c", Terminal := true,
          States := [(0, ["a_b_c_0"]), (1, ["a_b_c_1"])] } "<").map (fun s => s.States) =
      .ok [(0, ["(< a_b_c_0 0)"]), (1, ["(< a_b_c_1 0)"])] := by
  decide

/-- C36 (evaluation at the failing input). For every prefix expression, whatever its
operator and its operand, `parseInvariantNode` panics; so does `parseAssert` on
the assert `!a_b_c == true`. -/
theorem parseInvariantNode_prefix_panics :
    (∀ (g : Generator) (op : String) (r : Expression) (stateRange : Bool),
      ∃ e, parseInvariantNode g (.PrefixExpression op r) stateRange = .error e) ∧
    parseInvariantNode (logTwoRounds "a_b_c")
        (.PrefixExpression "!" (.AssertVar ["a_b_c"])) false =
      .error "interface conversion: rules.Rule is not *rules.StateGroup" ∧
    parseAssert DiffStrSets (logTwoRounds "a_b_c")
        (plainStatement (.PrefixExpression "!" (.AssertVar ["a_b_c"])) "=="
          (.Boolean true) false) =
      .error "interface conversion: rules.Rule is not *rules.StateGroup" := by
  refine ⟨fun g op r sr => ?_, by decide, by decide⟩
  unfold parseInvariantNode
  cases parseInvariantPanic r with
  | none => exact ⟨_, rfl⟩
  | some e => exact ⟨_, rfl⟩

/-- C40 (evaluation at the failing input). For every `Ite` rule whose condition is a
bare `Wrap` leaf, whatever its branches, `writeRule` panics on the type assertion
of the condition; `unpackCondRule` on the same leaf returns its value. -/
theorem writeRule_wrap_condition (lookupType : String → String) (g : Generator)
    (v : String) (T F : List Rule) :
    writeRule lookupType g (.Ite (.Wrap v) T F) =
        .error "interface conversion: rules.Rule is not *rules.Infix" ∧
      unpackCondRule (.Wrap v) = .ok v := by
  constructor
  · simp [writeRule, writeCond]
  · simp [unpackCondRule]

/-! ### Consistency of the round log and its reverse index -/

theorem addVarToRound_shape (g : Generator) (base : String) (num : Int) :
    addVarToRound g base num =
      { g with
        RoundVars :=
          if g.RoundVars = [] then [[[base, toString num]]]
          else g.RoundVars.set (g.RoundVars.length - 1)
            (g.RoundVars.getD (g.RoundVars.length - 1) [] ++ [[base, toString num]]),
        RVarLookup := appendLookup g.RVarLookup base
          ⟨num, g.RoundVars.length - 1,
            (g.RoundVars.getD (g.RoundVars.length - 1) []).length⟩ } := by
  by_cases h : g.RoundVars = []
  · unfold addVarToRound
    simp [currentRound, h, initVarRound, addVarToRoundLookup]
  · have hpos : 0 < g.RoundVars.length := List.length_pos.2 h
    have hcur : currentRound g = ((g.RoundVars.length - 1 : Nat) : Int) := by
      unfold currentRound
      omega
    have hne : ¬ (((g.RoundVars.length - 1 : Nat) : Int) = -1) := by omega
    have hlt : g.RoundVars.length - 1 < g.RoundVars.length := by omega
    unfold addVarToRound
    simp only [hcur, hne, if_false, Int.toNat_ofNat, h, addVarToRoundLookup]
    congr 2
    simp [List.getD_eq_getElem?_getD, hlt]

theorem recordAt_addVarToRound (g : Generator) (base : String) (num : Int) (r p : Nat) :
    recordAt (addVarToRound g base num) r p =
      if r = g.RoundVars.length - 1 ∧
          p = (g.RoundVars.getD (g.RoundVars.length - 1) []).length then
        some [base, toString num]
      else recordAt g r p := by
  rw [addVarToRound_shape]
  unfold recordAt
  by_cases h : g.RoundVars = []
  · simp only [h, if_true, List.length_nil, List.getD_eq_getElem?_getD,
      List.getElem?_nil, Option.getD_none]
    match r, p with
    | 0, 0 => simp
    | 0, p + 1 => simp
    | r + 1, p => simp
  · have hpos : 0 < g.RoundVars.length := List.length_pos.2 h
    have hlt : g.RoundVars.length - 1 < g.RoundVars.length := by omega
    simp only [h, if_false, List.getD_eq_getElem?_getD, List.getElem?_set]
    by_cases hr : r = g.RoundVars.length - 1
    · subst hr
      simp only [if_true, hlt, Option.getD_some, true_and]
      rw [List.getElem?_append]
      by_cases hp : p = (g.RoundVars[g.RoundVars.length - 1]?.getD []).length
      · simp [hp]
      · simp only [hp, if_false]
        by_cases hp2 : p < (g.RoundVars[g.RoundVars.length - 1]?.getD []).length
        · simp [hp2]
        · have hp3 : (g.RoundVars[g.RoundVars.length - 1]?.getD []).length < p := by omega
          have hp4 : (g.RoundVars[g.RoundVars.length - 1]?.getD []).length ≤ p := by omega
          simp only [hp2, if_false]
          rw [List.getElem?_eq_none_iff.2 hp4]
          have : 0 < p - (g.RoundVars[g.RoundVars.length - 1]?.getD []).length := by omega
          match hq : p - (g.RoundVars[g.RoundVars.length - 1]?.getD []).length with
          | 0 => omega
          | q + 1 => simp
    · have hr2 : ¬ (g.RoundVars.length - 1 = r) := fun e => hr e.symm
      simp [hr, hr2]

theorem recordAt_fresh (g : Generator) :
    recordAt g (g.RoundVars.length - 1)
      (g.RoundVars.getD (g.RoundVars.length - 1) []).length = none := by
  unfold recordAt
  exact List.getElem?_eq_none_iff.2 (Nat.le_refl _)

theorem recordAt_newRound (g : Generator) (r p : Nat) :
    recordAt (newRound g) r p = recordAt g r p := by
  unfold recordAt newRound
  simp only [List.getD_eq_getElem?_getD]
  rw [List.getElem?_append]
  by_cases h : r < g.RoundVars.length
  · simp [h]
  · have h2 : g.RoundVars.length ≤ r := by omega
    simp only [h, if_false, List.getElem?_eq_none_iff.2 h2, Option.getD_none]
    match hq : r - g.RoundVars.length with
    | 0 => simp
    | q + 1 => simp

theorem entries_appendLookup (m : List (String × List VarRound)) (base : String)
    (e : VarRound) :
    ((appendLookup m base e).flatMap (fun be => be.2.map (fun x => (be.1, x)))).Perm
      (m.flatMap (fun be => be.2.map (fun x => (be.1, x))) ++ [(base, e)]) := by
  induction m with
  | nil => simp [appendLookup]
  | cons p rest ih =>
    obtain ⟨k, es⟩ := p
    unfold appendLookup
    by_cases h : k = base
    · subst h
      simp only [if_true, List.flatMap_cons, List.map_append, List.map_cons, List.map_nil,
        List.append_assoc]
      exact List.Perm.append_left _ List.perm_append_comm
    · simp only [h, if_false, List.flatMap_cons, List.append_assoc]
      exact List.Perm.append_left _ ih

theorem keys_appendLookup (m : List (String × List VarRound)) (base : String) (e : VarRound) :
    (appendLookup m base e).map Prod.fst =
      if base ∈ m.map Prod.fst then m.map Prod.fst else m.map Prod.fst ++ [base] := by
  induction m with
  | nil => simp [appendLookup]
  | cons p rest ih =>
    obtain ⟨k, es⟩ := p
    unfold appendLookup
    by_cases h : k = base
    · simp [h]
    · have h2 : ¬ (base = k) := fun e => h e.symm
      simp only [h, if_false, List.map_cons, ih, List.mem_cons, h2, false_or]
      split <;> simp

theorem nodup_appendLookup (m : List (String × List VarRound)) (base : String) (e : VarRound)
    (h : (m.map Prod.fst).Nodup) : ((appendLookup m base e).map Prod.fst).Nodup := by
  rw [keys_appendLookup]
  split
  · exact h
  · rename_i hb
    rw [List.nodup_append]
    refine ⟨h, by simp, ?_⟩
    intro a ha hb2
    simp only [List.mem_singleton] at hb2
    subst hb2
    exact hb ha

theorem lookupBase_appendLookup_ne (m : List (String × List VarRound)) (base b : String)
    (e : VarRound) (h : b ≠ base) :
    ((appendLookup m base e).lookup b).getD [] = (m.lookup b).getD [] := by
  induction m with
  | nil => simp [appendLookup, lookup_cons_str, h]
  | cons p rest ih =>
    obtain ⟨k, es⟩ := p
    unfold appendLookup
    by_cases hk : k = base
    · subst hk
      simp [lookup_cons_str, h]
    · simp only [hk, if_false, lookup_cons_str]
      split
      · rfl
      · exact ih

theorem lookupEntries_addVarToRound (g : Generator) (base : String) (num : Int) :
    (lookupEntries (addVarToRound g base num)).Perm
      (lookupEntries g ++ [(base, ⟨num, g.RoundVars.length - 1,
        (g.RoundVars.getD (g.RoundVars.length - 1) []).length⟩)]) := by
  rw [addVarToRound_shape]
  exact entries_appendLookup _ _ _

theorem tracker_step (g : Generator) (c : TrackerCall)
    (h1 : (g.RVarLookup.map Prod.fst).Nodup)
    (h2 : ∀ be ∈ lookupEntries g,
      recordAt g be.2.round be.2.pos = some [be.1, toString be.2.num])
    (h3 : ((lookupEntries g).map (fun be => (be.2.round, be.2.pos))).Nodup)
    (h4 : ∀ r p, (recordAt g r p).isSome →
      (r, p) ∈ (lookupEntries g).map (fun be => (be.2.round, be.2.pos))) :
    ((c.run g).RVarLookup.map Prod.fst).Nodup ∧
    (∀ be ∈ lookupEntries (c.run g),
      recordAt (c.run g) be.2.round be.2.pos = some [be.1, toString be.2.num]) ∧
    ((lookupEntries (c.run g)).map (fun be => (be.2.round, be.2.pos))).Nodup ∧
    (∀ r p, (recordAt (c.run g) r p).isSome →
      (r, p) ∈ (lookupEntries (c.run g)).map (fun be => (be.2.round, be.2.pos))) := by
  cases c with
  | round =>
    have he : lookupEntries (newRound g) = lookupEntries g := rfl
    have hk : (newRound g).RVarLookup = g.RVarLookup := rfl
    simp only [TrackerCall.run, he, hk, recordAt_newRound]
    exact ⟨h1, h2, h3, h4⟩
  | record base num =>
    simp only [TrackerCall.run]
    have hperm := lookupEntries_addVarToRound g base num
    have hfresh := recordAt_fresh g
    have hold : ∀ be ∈ lookupEntries g,
        ¬ (be.2.round = g.RoundVars.length - 1 ∧
          be.2.pos = (g.RoundVars.getD (g.RoundVars.length - 1) []).length) := by
      intro be hbe hc
      have := h2 be hbe
      rw [hc.1, hc.2, hfresh] at this
      exact absurd this (by simp)
    refine ⟨?_, ?_, ?_, ?_⟩
    · rw [addVarToRound_shape]
      exact nodup_appendLookup _ _ _ h1
    · intro be hbe
      rw [recordAt_addVarToRound]
      rcases List.mem_append.1 (hperm.mem_iff.1 hbe) with h | h
      · rw [if_neg (hold be h)]
        exact h2 be h
      · rw [List.mem_singleton] at h
        subst h
        simp
    · have hp2 := hperm.map (fun be => (be.2.round, be.2.pos))
      rw [hp2.nodup_iff, List.map_append, List.nodup_append]
      refine ⟨h3, by simp, ?_⟩
      intro a ha hb
      simp only [List.map_cons, List.map_nil, List.mem_singleton] at hb
      obtain ⟨be, hbe, e⟩ := List.mem_map.1 ha
      apply hold be hbe
      rw [hb] at e
      exact ⟨congrArg Prod.fst e, congrArg Prod.snd e⟩
    · intro r p hs
      have hp2 := hperm.map (fun be => (be.2.round, be.2.pos))
      rw [hp2.mem_iff, List.map_append, List.mem_append]
      rw [recordAt_addVarToRound] at hs
      by_cases hc : r = g.RoundVars.length - 1 ∧
          p = (g.RoundVars.getD (g.RoundVars.length - 1) []).length
      · right
        simp [hc.1, hc.2]
      · rw [if_neg hc] at hs
        exact Or.inl (h4 r p hs)

theorem filter_length_one {α β : Type} [DecidableEq β] (f : α → β) (l : List α) (x : β)
    (hnd : (l.map f).Nodup) (hm : x ∈ l.map f) :
    (l.filter (fun a => f a = x)).length = 1 := by
  induction l with
  | nil => simp at hm
  | cons a rest ih =>
    rw [List.map_cons, List.nodup_cons] at hnd
    by_cases h : f a = x
    · have hnone : rest.filter (fun a => decide (f a = x)) = [] := by
        rw [List.filter_eq_nil_iff]
        intro b hb hfb
        apply hnd.1
        have : f b = x := by simpa using hfb
        rw [h, ← this]
        exact List.mem_map.2 ⟨b, hb, rfl⟩
      simp [List.filter_cons, h, hnone]
    · have hx : x ∈ rest.map f := by
        rcases List.mem_cons.1 hm with e | e
        · exact absurd e.symm h
        · exact e
      simp [List.filter_cons, h, ih hnd.2 hx]

theorem tracker_invariant : ∀ (calls : List TrackerCall) (g : Generator),
    (g.RVarLookup.map Prod.fst).Nodup →
    (∀ be ∈ lookupEntries g,
      recordAt g be.2.round be.2.pos = some [be.1, toString be.2.num]) →
    ((lookupEntries g).map (fun be => (be.2.round, be.2.pos))).Nodup →
    (∀ r p, (recordAt g r p).isSome →
      (r, p) ∈ (lookupEntries g).map (fun be => (be.2.round, be.2.pos))) →
    ((runTracker g calls).RVarLookup.map Prod.fst).Nodup ∧
    (∀ be ∈ lookupEntries (runTracker g calls),
      recordAt (runTracker g calls) be.2.round be.2.pos = some [be.1, toString be.2.num]) ∧
    ((lookupEntries (runTracker g calls)).map (fun be => (be.2.round, be.2.pos))).Nodup ∧
    (∀ r p, (recordAt (runTracker g calls) r p).isSome →
      (r, p) ∈ (lookupEntries (runTracker g calls)).map
        (fun be => (be.2.round, be.2.pos))) := by
  intro calls
  induction calls with
  | nil => intro g h1 h2 h3 h4; exact ⟨h1, h2, h3, h4⟩
  | cons c rest ih =>
    intro g h1 h2 h3 h4
    obtain ⟨i1, i2, i3, i4⟩ := tracker_step g c h1 h2 h3 h4
    exact ih (c.run g) i1 i2 i3 i4

theorem addVarToRound_frame (g : Generator) (base : String) (num : Int) :
    addVarToRound g base num =
      { g with RoundVars := (addVarToRound g base num).RoundVars,
               RVarLookup := (addVarToRound g base num).RVarLookup } ∧
    (addVarToRound g base num).RoundVars.length = max 1 g.RoundVars.length ∧
    (∀ r, r ≠ g.RoundVars.length - 1 →
      (addVarToRound g base num).RoundVars.getD r [] = g.RoundVars.getD r []) ∧
    (addVarToRound g base num).RoundVars.getD (g.RoundVars.length - 1) [] =
      g.RoundVars.getD (g.RoundVars.length - 1) [] ++ [[base, toString num]] ∧
    (∀ b, b ≠ base → lookupBase (addVarToRound g base num) b = lookupBase g b) ∧
    lookupBase (addVarToRound g base num) base =
      lookupBase g base ++ [⟨num, g.RoundVars.length - 1,
        (g.RoundVars.getD (g.RoundVars.length - 1) []).length⟩] := by
  refine ⟨?_, ?_, ?_, ?_, ?_, ?_⟩
  · rw [addVarToRound_shape]
  · rw [addVarToRound_shape]
    by_cases h : g.RoundVars = []
    · simp [h]
    · have hpos : 0 < g.RoundVars.length := List.length_pos.2 h
      simp only [h, if_false, List.length_set]
      omega
  · intro r hr
    rw [addVarToRound_shape]
    by_cases h : g.RoundVars = []
    · simp only [h, if_true, List.length_nil] at hr ⊢
      match r, hr with
      | r + 1, _ => simp
    · have hr2 : ¬ (g.RoundVars.length - 1 = r) := fun e => hr e.symm
      simp [h, List.getElem?_set, hr2]
  · rw [addVarToRound_shape]
    by_cases h : g.RoundVars = []
    · simp [h]
    · have hpos : 0 < g.RoundVars.length := List.length_pos.2 h
      have hlt : g.RoundVars.length - 1 < g.RoundVars.length := by omega
      simp [h, List.getElem?_set, hlt]
  · intro b hb
    rw [addVarToRound_shape]
    exact lookupBase_appendLookup_ne _ _ _ _ hb
  · rw [addVarToRound_shape]
    exact lookup_appendLookup _ _ _

/-- C38. In every state that a sequence of `newRound` and `addVarToRound` calls
reaches from a fresh generator (empty round log, empty reverse index): each
entry `[n, r, p]` of the reverse index under a base `b` has the record `[b, n]` at
position `p` of round `r`; each record of the round log is the position of
exactly one entry of the reverse index; the bases of the reverse index are
pairwise distinct. A further `addVarToRound(base, num)` changes the round log and
the reverse index only: the number of rounds stays (the first record of an
empty log creates round 0), every round but the last is unchanged, the last
gets the one record `[base, num]` appended, the list of every other base is
unchanged and the list of `base` gets the one entry of that record appended. -/
theorem runTracker_consistent (g0 : Generator) (calls : List TrackerCall) :
    (∀ b e, e ∈ lookupBase (runTracker { g0 with RoundVars := [], RVarLookup := [] } calls) b →
      recordAt (runTracker { g0 with RoundVars := [], RVarLookup := [] } calls) e.round e.pos =
        some [b, toString e.num]) ∧
    (∀ r p, (recordAt (runTracker { g0 with RoundVars := [], RVarLookup := [] } calls)
        r p).isSome →
      ((lookupEntries (runTracker { g0 with RoundVars := [], RVarLookup := [] } calls)).filter
        (fun be => (be.2.round, be.2.pos) = (r, p))).length = 1) ∧
    ((runTracker { g0 with RoundVars := [], RVarLookup := [] } calls).RVarLookup.map
      Prod.fst).Nodup ∧
    (∀ base num,
      addVarToRound (runTracker { g0 with RoundVars := [], RVarLookup := [] } calls) base num =
        { runTracker { g0 with RoundVars := [], RVarLookup := [] } calls with
          RoundVars := (addVarToRound
            (runTracker { g0 with RoundVars := [], RVarLookup := [] } calls) base num).RoundVars,
          RVarLookup := (addVarToRound
            (runTracker { g0 with RoundVars := [], RVarLookup := [] } calls) base num).RVarLookup } ∧
      (addVarToRound (runTracker { g0 with RoundVars := [], RVarLookup := [] } calls)
          base num).RoundVars.length =
        max 1 (runTracker { g0 with RoundVars := [], RVarLookup := [] } calls).RoundVars.length ∧
      (∀ r, r ≠ (runTracker { g0 with RoundVars := [], RVarLookup := [] }
            calls).RoundVars.length - 1 →
        (addVarToRound (runTracker { g0 with RoundVars := [], RVarLookup := [] } calls)
            base num).RoundVars.getD r [] =
          (runTracker { g0 with RoundVars := [], RVarLookup := [] } calls).RoundVars.getD r []) ∧
      (addVarToRound (runTracker { g0 with RoundVars := [], RVarLookup := [] } calls)
          base num).RoundVars.getD
          ((runTracker { g0 with RoundVars := [], RVarLookup := [] } calls).RoundVars.length - 1)
          [] =
        (runTracker { g0 with RoundVars := [], RVarLookup := [] } calls).RoundVars.getD
          ((runTracker { g0 with RoundVars := [], RVarLookup := [] } calls).RoundVars.length - 1)
          [] ++ [[base, toString num]] ∧
      (∀ b, b ≠ base →
        lookupBase (addVarToRound
          (runTracker { g0 with RoundVars := [], RVarLookup := [] } calls) base num) b =
        lookupBase (runTracker { g0 with RoundVars := [], RVarLookup := [] } calls) b) ∧
      lookupBase (addVarToRound
          (runTracker { g0 with RoundVars := [], RVarLookup := [] } calls) base num) base =
        lookupBase (runTracker { g0 with RoundVars := [], RVarLookup := [] } calls) base ++
          [⟨num, (runTracker { g0 with RoundVars := [], RVarLookup := [] }
              calls).RoundVars.length - 1,
            ((runTracker { g0 with RoundVars := [], RVarLookup := [] } calls).RoundVars.getD
              ((runTracker { g0 with RoundVars := [], RVarLookup := [] }
                calls).RoundVars.length - 1) []).length⟩]) := by
  obtain ⟨i1, i2, i3, i4⟩ := tracker_invariant calls
    { g0 with RoundVars := [], RVarLookup := [] } (by simp)
    (by simp [lookupEntries]) (by simp [lookupEntries])
    (by intro r p h; simp [recordAt] at h)
  refine ⟨?_, ?_, i1, fun base num => addVarToRound_frame _ base num⟩
  · intro b e he
    have hmem : (b, e) ∈ lookupEntries
        (runTracker { g0 with RoundVars := [], RVarLookup := [] } calls) := by
      unfold lookupBase at he
      cases hl : (runTracker { g0 with RoundVars := [], RVarLookup := [] }
          calls).RVarLookup.lookup b with
      | none => rw [hl] at he; simp at he
      | some es =>
        rw [hl] at he
        unfold lookupEntries
        rw [List.mem_flatMap]
        exact ⟨(b, es), lookup_some_mem _ _ _ hl, List.mem_map.2 ⟨e, he, rfl⟩⟩
    exact i2 (b, e) hmem
  · intro r p h
    exact filter_length_one _ _ _ i3 (i4 r p h)

/-! ### The order of enumeration of a fork -/

theorem addVarToRound_inits (g : Generator) (b : String) (n : Int) :
    (addVarToRound g b n).inits = g.inits := by
  rw [addVarToRound_shape]

theorem capCondLoop_inits (lookupType : String → String) (b : String) :
    ∀ (fork : Fork) (g : Generator) (phis : List (String × Int)),
    (fork.map Prod.fst).Nodup → (∀ kc ∈ fork, phis.lookup kc.1 = none) →
    (capCondLoop lookupType b fork g phis).1.inits =
      g.inits ++ fork.map (fun kc => declaration (phiState g.vars kc.1) (lookupType kc.1)) := by
  intro fork
  induction fork with
  | nil => intro g phis _ _; simp [capCondLoop]
  | cons kc rest ih =>
    intro g phis hnd hphis
    obtain ⟨k, v⟩ := kc
    have hk : phis.lookup k = none := hphis (k, v) (List.mem_cons_self _ _)
    rw [List.map_cons, List.nodup_cons] at hnd
    obtain ⟨hknot, hnd2⟩ := hnd
    have hvars : (addVarToRound (declareVar { g with vars := (AdvanceSSA g.vars k).1 }
        (AdvanceSSA g.vars k).2 (lookupType k)) k
        (GetVarBase (AdvanceSSA g.vars k).2).2).vars = (AdvanceSSA g.vars k).1 :=
      (addVarToRound_vars _ _ _).1
    have hrest : ∀ kc ∈ rest, (phis ++ [(k, (GetVarBase (AdvanceSSA g.vars k).2).2)]).lookup
        kc.1 = none := by
      intro kc hkc
      have hne : kc.1 ≠ k := by
        intro h
        apply hknot
        rw [← h]
        exact List.mem_map.2 ⟨kc, hkc, rfl⟩
      have h1 := hphis kc (List.mem_cons_of_mem _ hkc)
      rw [List.lookup_append, h1]
      simp [lookup_cons_str, hne]
    have i1 := ih (addVarToRound (declareVar
      { g with vars := (AdvanceSSA g.vars k).1 } (AdvanceSSA g.vars k).2 (lookupType k)) k
      (GetVarBase (AdvanceSSA g.vars k).2).2)
      (phis ++ [(k, (GetVarBase (AdvanceSSA g.vars k).2).2)]) hnd2 hrest
    have hcongr : ∀ kc ∈ rest, phiState (AdvanceSSA g.vars k).1 kc.1 = phiState g.vars kc.1 := by
      intro kc hkc
      have hne : kc.1 ≠ k := by
        intro h
        apply hknot
        rw [← h]
        exact List.mem_map.2 ⟨kc, hkc, rfl⟩
      apply phiState_congr
      rw [(AdvanceSSA_eq g.vars k).2]
      simp [hne]
    unfold capCondLoop
    simp only [hk]
    rw [hvars, addVarToRound_inits] at i1
    rw [i1, List.map_cons]
    simp only [declareVar, List.append_assoc, List.singleton_append]
    congr 1
    congr 1
    apply List.map_congr_left
    intro kc hkc
    rw [hcongr kc hkc]

theorem capParallelLoop_eq :
    ∀ (fork : Fork) (g : Generator), (fork.map Prod.fst).Nodup →
    (capParallelLoop fork g).2 =
        fork.map (fun kc => Rule.Phi kc.1 (phiState g.vars kc.1) (kc.2.map Choice.GetEnd)) ∧
      (∀ j, (capParallelLoop fork g).1.vars.SSA.lookup j =
        if j ∈ fork.map Prod.fst then
          some ((g.vars.SSA.lookup j).elim (0 : Int) (fun n => n + 1))
        else g.vars.SSA.lookup j) ∧
      (capParallelLoop fork g).1.inits = g.inits := by
  intro fork
  induction fork with
  | nil => intro g _; simp [capParallelLoop]
  | cons kc rest ih =>
    intro g hnd
    obtain ⟨k, v⟩ := kc
    rw [List.map_cons, List.nodup_cons] at hnd
    obtain ⟨hknot, hnd2⟩ := hnd
    have hvars : (addVarToRound { g with vars := (AdvanceSSA g.vars k).1 } k
        (ssaOf (AdvanceSSA g.vars k).1 k)).vars = (AdvanceSSA g.vars k).1 :=
      (addVarToRound_vars _ _ _).1
    obtain ⟨i1, i2, i3⟩ := ih (addVarToRound { g with vars := (AdvanceSSA g.vars k).1 } k
        (ssaOf (AdvanceSSA g.vars k).1 k)) hnd2
    have hcongr : ∀ kc ∈ rest, phiState (AdvanceSSA g.vars k).1 kc.1 = phiState g.vars kc.1 := by
      intro kc hkc
      have hne : kc.1 ≠ k := by
        intro h
        apply hknot
        rw [← h]
        exact List.mem_map.2 ⟨kc, hkc, rfl⟩
      apply phiState_congr
      rw [(AdvanceSSA_eq g.vars k).2]
      simp [hne]
    unfold capParallelLoop
    simp only []
    rw [hvars] at i1 i2
    rw [addVarToRound_inits] at i3
    refine ⟨?_, ?_, i3⟩
    · rw [i1, List.map_cons]
      congr 1
      apply List.map_congr_left
      intro kc hkc
      rw [hcongr kc hkc]
    · intro j
      have hknot2 : k ∉ List.map Prod.fst rest := hknot
      rw [i2 j, (AdvanceSSA_eq g.vars k).2 j]
      by_cases hj : j = k
      · subst hj
        simp [hknot2]
      · simp only [hj, if_false, List.map_cons, List.mem_cons, false_or]

/-- C34 (amended). For two orders `f1`, `f2` of enumeration of the entries of one
fork (the bases pairwise distinct), `capCond` on empty `phis`, the rules that
`capCondSyncRules` collects for a branch and `capParallel` emit the same
declarations and the same rules up to their order: the lists of declarations
are permutations of each other, so are the lists of rules, and every base is left
with the same current state. -/
theorem capCond_enumeration (lookupType : String → String) (getStartState : String → Int)
    (b : String) (g : Generator) (f1 f2 : Fork)
    (hp : f1.Perm f2) (hnd : (f1.map Prod.fst).Nodup) :
    ((capCondLoop lookupType b f1 g []).2.2).Perm (capCondLoop lookupType b f2 g []).2.2 ∧
    ((capCondLoop lookupType b f1 g []).1.inits).Perm (capCondLoop lookupType b f2 g []).1.inits ∧
    (∀ j, (capCondLoop lookupType b f1 g []).1.vars.SSA.lookup j =
      (capCondLoop lookupType b f2 g []).1.vars.SSA.lookup j) ∧
    (syncEnds lookupType getStartState g f1 b).Perm (syncEnds lookupType getStartState g f2 b) ∧
    ((capParallelLoop f1 g).2).Perm (capParallelLoop f2 g).2 ∧
    (capParallelLoop f1 g).1.inits = (capParallelLoop f2 g).1.inits ∧
    (∀ j, (capParallelLoop f1 g).1.vars.SSA.lookup j =
      (capParallelLoop f2 g).1.vars.SSA.lookup j) := by
  have hnd2 : (f2.map Prod.fst).Nodup := (hp.map Prod.fst).nodup_iff.1 hnd
  have hmem : ∀ j, j ∈ f1.map Prod.fst ↔ j ∈ f2.map Prod.fst :=
    fun j => (hp.map Prod.fst).mem_iff
  obtain ⟨a1, _, a3, _⟩ := capCondLoop_fresh lookupType b f1 g [] hnd (by simp)
  obtain ⟨b1, _, b3, _⟩ := capCondLoop_fresh lookupType b f2 g [] hnd2 (by simp)
  have a4 := capCondLoop_inits lookupType b f1 g [] hnd (by simp)
  have b4 := capCondLoop_inits lookupType b f2 g [] hnd2 (by simp)
  obtain ⟨c1, c2, c3⟩ := capParallelLoop_eq f1 g hnd
  obtain ⟨d1, d2, d3⟩ := capParallelLoop_eq f2 g hnd2
  refine ⟨?_, ?_, ?_, ?_, ?_, ?_, ?_⟩
  · rw [a1, b1]
    exact hp.flatMap_right _
  · rw [a4, b4]
    exact List.Perm.append_left _ (hp.map _)
  · intro j
    rw [a3 j, b3 j]
    by_cases h : j ∈ f1.map Prod.fst
    · rw [if_pos h, if_pos ((hmem j).1 h)]
    · rw [if_neg h, if_neg (fun h2 => h ((hmem j).2 h2))]
  · unfold syncEnds
    exact hp.flatMap_right _
  · rw [c1, d1]
    exact hp.map _
  · rw [c3, d3]
  · intro j
    rw [c2 j, d2 j]
    by_cases h : j ∈ f1.map Prod.fst
    · rw [if_pos h, if_pos ((hmem j).1 h)]
    · rw [if_neg h, if_neg (fun h2 => h ((hmem j).2 h2))]

/-- C34 (witness). The fork of the bases `x` and `y`, enumerated `x` first and `y`
first. -/
theorem capCond_enumeration_witness :
    forkXY.Perm forkYX ∧ (forkXY.map Prod.fst).Nodup ∧
    ((capCondLoop (fun _ => "Real") "true" forkXY forkVars []).2.2).Perm
      (capCondLoop (fun _ => "Real") "true" forkYX forkVars []).2.2 ∧
    ((capCondLoop (fun _ => "Real") "true" forkXY forkVars []).1.inits).Perm
      (capCondLoop (fun _ => "Real") "true" forkYX forkVars []).1.inits ∧
    (∀ j, (capCondLoop (fun _ => "Real") "true" forkXY forkVars []).1.vars.SSA.lookup j =
      (capCondLoop (fun _ => "Real") "true" forkYX forkVars []).1.vars.SSA.lookup j) ∧
    (syncEnds (fun _ => "Real") (fun _ => 0) forkVars forkXY "true").Perm
      (syncEnds (fun _ => "Real") (fun _ => 0) forkVars forkYX "true") ∧
    ((capParallelLoop forkXY forkVars).2).Perm (capParallelLoop forkYX forkVars).2 ∧
    (capParallelLoop forkXY forkVars).1.inits = (capParallelLoop forkYX forkVars).1.inits ∧
    (∀ j, (capParallelLoop forkXY forkVars).1.vars.SSA.lookup j =
      (capParallelLoop forkYX forkVars).1.vars.SSA.lookup j) :=
  ⟨List.Perm.swap _ _ [], by decide,
    capCond_enumeration (fun _ => "Real") (fun _ => 0) "true" forkVars forkXY forkYX
      (List.Perm.swap _ _ []) (by decide)⟩

/-- C34 (counterexample). The fork of the bases `x` and `y`, each written once in the
true branch: enumerated `x` first, `capCond` declares `x_2` before `y_2` and emits
the rule of `x` first; enumerated `y` first, it declares `y_2` before `x_2` and
emits the rule of `y` first. The two texts of `SMT` differ. -/
theorem capCond_enumeration_counterexample :
    forkYX = forkXY.reverse ∧
    SMT (capCondLoop (fun _ => "Real") "true" forkXY forkVars []).1 =
      "(set-logic QF_NRA)(declare-fun x_2 () Real)\n(declare-fun y_2 () Real)" ∧
    SMT (capCondLoop (fun _ => "Real") "true" forkYX forkVars []).1 =
      "(set-logic QF_NRA)(declare-fun y_2 () Real)\n(declare-fun x_2 () Real)" ∧
    SMT (capCondLoop (fun _ => "Real") "true" forkXY forkVars []).1 ≠
      SMT (capCondLoop (fun _ => "Real") "true" forkYX forkVars []).1 ∧
    (capCondLoop (fun _ => "Real") "true" forkXY forkVars []).2.2.map equalitySides =
      [("x_2", "x_1"), ("y_2", "y_1")] ∧
    (capCondLoop (fun _ => "Real") "true" forkYX forkVars []).2.2.map equalitySides =
      [("y_2", "y_1"), ("x_2", "x_1")] := by
  decide

/-! ### The joined assertion of newAsserts and the assumes of newAssumes -/

theorem varRounds_asserts (g : Generator) (x : List String) (b n : String) :
    varRounds { g with asserts := x } b n = varRounds g b n := rfl

theorem flattenStates_asserts (g : Generator) (x : List String) (sg : StateGroup) :
    flattenStates { g with asserts := x } sg = flattenStates g sg := rfl

theorem joinStates_asserts (g : Generator) (x : List String) (sg : StateGroup) (op : String) :
    joinStates { g with asserts := x } sg op = joinStates g sg op := rfl

theorem mergeByRound_asserts (g : Generator) (x : List String) (l r : States) (op : String) :
    mergeByRound { g with asserts := x } l r op = mergeByRound g l r op := rfl

theorem mergeWrapsRight_asserts (g : Generator) (x : List String) (l : States) (op : String)
    (rs : List States) :
    mergeWrapsRight { g with asserts := x } l op rs = mergeWrapsRight g l op rs := by
  induction rs with
  | nil => rfl
  | cons r rest ih => simp only [mergeWrapsRight, mergeByRound_asserts, ih]

theorem mergeWraps_asserts (g : Generator) (x : List String) (right : Option StateGroup)
    (op : String) (ls : List States) :
    mergeWraps { g with asserts := x } right op ls = mergeWraps g right op ls := by
  induction ls with
  | nil => rfl
  | cons l rest ih => simp only [mergeWraps, mergeWrapsRight_asserts, ih]

theorem mergeInvariantInfix_asserts (g : Generator) (x : List String)
    (left right : Option StateGroup) (op : String) :
    mergeInvariantInfix { g with asserts := x } left right op =
      mergeInvariantInfix g left right op := by
  simp only [mergeInvariantInfix, mergeWraps_asserts]

theorem assertVarWraps_asserts (g : Generator) (x : List String) (vs : List String) :
    ∀ wg, assertVarWraps { g with asserts := x } vs wg = assertVarWraps g vs wg := by
  induction vs with
  | nil => intro wg; rfl
  | cons v rest ih => intro wg; simp only [assertVarWraps, varRounds_asserts, ih]

theorem indexWraps_asserts (g : Generator) (x : List String) (index : String)
    (vs : List String) :
    ∀ wg, indexWraps { g with asserts := x } index vs wg = indexWraps g index vs wg := by
  induction vs with
  | nil => intro wg; rfl
  | cons v rest ih => intro wg; simp only [indexWraps, varRounds_asserts, ih]

theorem parseInvariantNode_asserts (g : Generator) (x : List String) (e : Expression)
    (sr : Bool) :
    parseInvariantNode { g with asserts := x } e sr = parseInvariantNode g e sr := by
  induction e with
  | InfixExpression l op r ihl ihr =>
    simp only [parseInvariantNode, ihl, ihr, mergeInvariantInfix_asserts]
  | AssertVar instances => simp only [parseInvariantNode, assertVarWraps_asserts]
  | IndexExpression l index _ =>
    cases l <;> simp only [parseInvariantNode, indexWraps_asserts]
  | _ => simp only [parseInvariantNode]

theorem parseAssert_asserts (diff : List String → List String → List String) (g : Generator)
    (x : List String) (a : AssertionStatement) :
    parseAssert diff { g with asserts := x } a = parseAssert diff g a := by
  simp only [parseAssert, parseInvariantNode_asserts, mergeInvariantInfix_asserts,
    joinStates_asserts, flattenStates_asserts]

theorem intercalate_go_empty (as : List String) (acc : String) :
    String.intercalate.go acc "" as = as.foldl (fun r s => r ++ s) acc := by
  induction as generalizing acc with
  | nil => rfl
  | cons a rest ih =>
    rw [String.intercalate.go, ih, List.foldl_cons]
    simp

theorem strJoin_empty (as : List String) : strJoin as "" = String.join as := by
  unfold strJoin String.join
  cases as with
  | nil => rfl
  | cons a rest =>
    show String.intercalate.go a "" rest = _
    rw [intercalate_go_empty, List.foldl_cons]
    simp

theorem assertRules_ok (diff : List String → List String → List String) (g : Generator) :
    ∀ (asserts : List AssertionStatement) (as : List String),
    asserts.map (parseAssert diff g) = as.map Except.ok →
    assertRules diff g asserts = .ok as := by
  intro asserts
  induction asserts with
  | nil =>
    intro as h
    cases as with
    | nil => rfl
    | cons a rest => simp at h
  | cons v rest ih =>
    intro as h
    cases as with
    | nil => simp at h
    | cons a more =>
      simp only [List.map_cons, List.cons.injEq] at h
      simp only [assertRules, h.1, ih more h.2]

theorem newAssumes_ok (diff : List String → List String → List String) (g : Generator) :
    ∀ (asserts : List AssertionStatement) (as acc : List String),
    asserts.map (parseAssert diff g) = as.map Except.ok →
    newAssumes diff { g with asserts := acc } asserts =
      .ok { g with asserts := acc ++ as.map (fun a => "(assert " ++ a ++ ")") } := by
  intro asserts
  induction asserts with
  | nil =>
    intro as acc h
    cases as with
    | nil => simp [newAssumes]
    | cons a rest => simp at h
  | cons v rest ih =>
    intro as acc h
    cases as with
    | nil => simp at h
    | cons a more =>
      simp only [List.map_cons, List.cons.injEq] at h
      simp only [newAssumes, parseAssert_asserts, h.1]
      have := ih more (acc ++ [writeAssert "" a]) h.2
      simp only [writeAssert, if_true, List.append_assoc, List.singleton_append] at this ⊢
      exact this

/-- C6 (amended). For assertion statements whose `parseAssert` results are
`a_1 .. a_n`, `newAsserts` appends to the property assertions: nothing for
`n = 0`; the one string `(assert a_1)` for `n = 1`; for `n >= 2` the one string
`(assert (or a_1a_2..a_n))`, the results written back to back without a
separator. `newAssumes` appends for every statement its own `(assert a_i)`, in
input order. -/
theorem newAsserts_assertion (diff : List String → List String → List String)
    (g : Generator) (asserts : List AssertionStatement) (as : List String)
    (h : asserts.map (parseAssert diff g) = as.map Except.ok) :
    newAsserts diff g asserts =
        .ok { g with asserts := g.asserts ++
          (match as with
            | [] => []
            | [a] => ["(assert " ++ a ++ ")"]
            | _ => ["(assert (or " ++ String.join as ++ "))"]) } ∧
      newAssumes diff g asserts =
        .ok { g with asserts := g.asserts ++ as.map (fun a => "(assert " ++ a ++ ")") } := by
  constructor
  · unfold newAsserts
    rw [assertRules_ok diff g asserts as h]
    match as with
    | [] => simp
    | [a] => simp [writeAssert]
    | a :: b :: rest =>
      simp only [writeAssert, strJoin_empty]
      have : ¬ ("or" = "") := by decide
      simp only [this, if_false, String.append_assoc]
      rfl
  · exact newAssumes_ok diff g asserts as g.asserts h

/-- C6 (witness). The asserts `a_b_c <= 0` and `a_b_c > 10` over two rounds. -/
theorem newAsserts_assertion_witness :
    [plainStatement (.AssertVar ["a_b_c"]) "<=" (.IntegerLiteral 0) false,
      plainStatement (.AssertVar ["a_b_c"]) ">" (.IntegerLiteral 10) false].map
        (parseAssert DiffStrSets (logTwoRounds "a_b_c")) =
      ["(or (<= a_b_c_0 0) (<= a_b_c_1 0))", "(or (> a_b_c_0 10) (> a_b_c_1 10))"].map
        Except.ok ∧
    newAsserts DiffStrSets (logTwoRounds "a_b_c")
        [plainStatement (.AssertVar ["a_b_c"]) "<=" (.IntegerLiteral 0) false,
          plainStatement (.AssertVar ["a_b_c"]) ">" (.IntegerLiteral 10) false] =
      .ok { logTwoRounds "a_b_c" with asserts := (logTwoRounds "a_b_c").asserts ++
        ["(assert (or " ++ String.join
          ["(or (<= a_b_c_0 0) (<= a_b_c_1 0))", "(or (> a_b_c_0 10) (> a_b_c_1 10))"] ++
          "))"] } :=
  ⟨by decide,
    (newAsserts_assertion DiffStrSets (logTwoRounds "a_b_c")
      [plainStatement (.AssertVar ["a_b_c"]) "<=" (.IntegerLiteral 0) false,
        plainStatement (.AssertVar ["a_b_c"]) ">" (.IntegerLiteral 10) false]
      ["(or (<= a_b_c_0 0) (<= a_b_c_1 0))", "(or (> a_b_c_0 10) (> a_b_c_1 10))"]
      (by decide)).1⟩

/-! ### The round a state lands in -/

theorem runTracker_rounds : ∀ (calls : List TrackerCall) (g : Generator), g.RoundVars ≠ [] →
    (runTracker g calls).RoundVars.length = g.RoundVars.length + newRoundCalls calls := by
  intro calls
  induction calls with
  | nil => intro g _; simp [runTracker, newRoundCalls]
  | cons c rest ih =>
    intro g hg
    have hpos : 0 < g.RoundVars.length := List.length_pos.2 hg
    cases c with
    | round =>
      have h1 : (newRound g).RoundVars ≠ [] := by simp [newRound]
      have h2 := ih (newRound g) h1
      have h3 : (newRound g).RoundVars.length = g.RoundVars.length + 1 := by simp [newRound]
      have h4 : newRoundCalls (TrackerCall.round :: rest) = newRoundCalls rest + 1 := by
        simp [newRoundCalls]
      show (runTracker (newRound g) rest).RoundVars.length = _
      rw [h2, h3, h4]
      omega
    | record base num =>
      have hlen := (addVarToRound_frame g base num).2.1
      have h3 : (addVarToRound g base num).RoundVars.length = g.RoundVars.length := by
        rw [hlen]
        omega
      have h1 : (addVarToRound g base num).RoundVars ≠ [] := by
        apply List.ne_nil_of_length_pos
        omega
      have h2 := ih (addVarToRound g base num) h1
      have h4 : newRoundCalls (TrackerCall.record base num :: rest) = newRoundCalls rest := by
        simp [newRoundCalls]
      show (runTracker (addVarToRound g base num) rest).RoundVars.length = _
      rw [h2, h3, h4]

theorem runTracker_last_round (g0 : Generator) (calls : List TrackerCall) :
    (runTracker { g0 with RoundVars := [], RVarLookup := [] } calls).RoundVars.length - 1 =
      if recordsFirst calls then newRoundCalls calls else newRoundCalls calls - 1 := by
  cases calls with
  | nil => simp [runTracker, recordsFirst, newRoundCalls]
  | cons c rest =>
    cases c with
    | round =>
      have h1 : (newRound { g0 with RoundVars := [], RVarLookup := [] }).RoundVars ≠ [] := by
        simp [newRound]
      have h2 := runTracker_rounds rest _ h1
      have h3 : (newRound { g0 with RoundVars := [], RVarLookup := [] }).RoundVars.length = 1 := by
        simp [newRound]
      have h4 : newRoundCalls (TrackerCall.round :: rest) = newRoundCalls rest + 1 := by
        simp [newRoundCalls]
      show (runTracker (newRound _) rest).RoundVars.length - 1 = _
      rw [h2, h3, h4]
      simp [recordsFirst]
    | record base num =>
      have hlen := (addVarToRound_frame { g0 with RoundVars := [], RVarLookup := [] }
        base num).2.1
      have h3 : (addVarToRound { g0 with RoundVars := [], RVarLookup := [] }
          base num).RoundVars.length = 1 := by
        rw [hlen]
        simp
      have h1 : (addVarToRound { g0 with RoundVars := [], RVarLookup := [] }
          base num).RoundVars ≠ [] := by
        apply List.ne_nil_of_length_pos
        omega
      have h2 := runTracker_rounds rest _ h1
      have h4 : newRoundCalls (TrackerCall.record base num :: rest) = newRoundCalls rest := by
        simp [newRoundCalls]
      show (runTracker (addVarToRound _ base num) rest).RoundVars.length - 1 = _
      rw [h2, h3, h4]
      simp [recordsFirst]

/-- C20 (amended). Rounds are created when they are first needed: on a generator with
an empty round log, after any sequence of `newRound` and `addVarToRound` calls
with `k` calls of `newRound`, a state recorded by `addVarToRound` lands in round
`k` when a state was recorded before the first `newRound` (that record created
round 0), and in round `k - 1` when none was (the first `newRound` itself created
round 0); with no call of `newRound` at all it lands in round 0. The entry
appended to the reverse index of the base carries that round and the next free
position in it. -/
theorem addVarToRound_lands (g0 : Generator) (calls : List TrackerCall) (base : String)
    (n : Int) :
    lookupBase (addVarToRound
        (runTracker { g0 with RoundVars := [], RVarLookup := [] } calls) base n) base =
      lookupBase (runTracker { g0 with RoundVars := [], RVarLookup := [] } calls) base ++
        [⟨n, if recordsFirst calls then newRoundCalls calls else newRoundCalls calls - 1,
          ((runTracker { g0 with RoundVars := [], RVarLookup := [] } calls).RoundVars.getD
            (if recordsFirst calls then newRoundCalls calls else newRoundCalls calls - 1)
            []).length⟩] := by
  rw [← runTracker_last_round g0 calls]
  exact (addVarToRound_frame _ base n).2.2.2.2.2

/-- C20 (counterexample). On a fresh generator the first `newRound` creates round 0: a
state recorded after it lands in round 0, not in round 1. -/
theorem addVarToRound_lands_counterexample :
    lookupBase (addVarToRound (newRound {}) "a_b_c" 1) "a_b_c" = [⟨1, 0, 0⟩] ∧
      lookupBase (addVarToRound (newRound {}) "a_b_c" 1) "a_b_c" ≠ [⟨1, 1, 0⟩] ∧
      (newRound {}).RoundVars.length = 1 := by
  decide

/-! ### Staged invariants merge their sides under or -/

theorem packageOne_or (p : List String) (h : 2 ≤ p.length) :
    ∃ a b, packageOne p "or" = .ok ("(or " ++ a ++ " " ++ b ++ ")") := by
  match p, h with
  | a0 :: a1 :: rest, _ =>
    refine ⟨a0, a1, ?_⟩
    have hne : ¬ ("or" = "not") := by decide
    simp only [packageOne, hne, false_and, if_false, String.append_assoc]
    rfl

theorem packageStateGraph_or : ∀ (pairs : List (List String)) (ts : List String),
    (∀ p ∈ pairs, 2 ≤ p.length) → packageStateGraph pairs "or" = .ok ts →
    ∀ t ∈ ts, ∃ a b, t = "(or " ++ a ++ " " ++ b ++ ")" := by
  intro pairs
  induction pairs with
  | nil =>
    intro ts _ h t ht
    simp only [packageStateGraph] at h
    injection h with h
    subst h
    simp at ht
  | cons p rest ih =>
    intro ts hp h t ht
    obtain ⟨a, b, hab⟩ := packageOne_or p (hp p (List.mem_cons_self _ _))
    unfold packageStateGraph at h
    rw [hab] at h
    simp only at h
    cases hr : packageStateGraph rest "or" with
    | error e => rw [hr] at h; simp at h
    | ok product =>
      rw [hr] at h
      simp only at h
      injection h with h
      subst h
      rcases List.mem_cons.1 ht with e | e
      · exact ⟨a, b, e⟩
      · exact ih product (fun q hq => hp q (List.mem_cons_of_mem _ hq)) hr t e

theorem PairCombinations_pairs (l r : List String) :
    ∀ p ∈ PairCombinations l r, 2 ≤ p.length := by
  intro p hp
  unfold PairCombinations at hp
  obtain ⟨a, _, h⟩ := List.mem_flatMap.1 hp
  obtain ⟨b, _, rfl⟩ := List.mem_map.1 h
  simp

theorem sameBasePairs_pairs (short : Option (List String)) (leftLead : Bool) :
    ∀ (long : List String) (idx : Nat) (pairs : List (List String)),
    sameBasePairs short leftLead idx long = .ok pairs → ∀ p ∈ pairs, 2 ≤ p.length := by
  intro long
  induction long with
  | nil =>
    intro idx pairs h p hp
    simp only [sameBasePairs] at h
    injection h with h
    subst h
    simp at hp
  | cons s rest ih =>
    intro idx pairs h p hp
    unfold sameBasePairs at h
    simp only at h
    split at h
    · simp at h
    · rename_i pr hpr
      split at h
      · simp at h
      · rename_i more hmore
        injection h with h
        subst h
        rcases List.mem_cons.1 hp with e | e
        · subst e
          have hmp : ∀ (x y : String), (mergePairs x y leftLead).length = 2 := by
            intro x y
            unfold mergePairs
            split <;> rfl
          revert hpr
          split
          · split_ifs
            · intro h2
              injection h2 with h2
              rw [← h2, hmp]
            · split
              · intro h2
                injection h2 with h2
                rw [← h2, hmp]
              · simp
          · simp
        · exact ih _ _ hmore p e

theorem forRounds_entries (f : Nat → Except String (Option (List String)))
    (Q : List String → Prop) (hf : ∀ i t, f i = .ok (some t) → Q t) :
    ∀ (is : List Nat) (m : RoundMap), forRounds f is = .ok m → ∀ e ∈ m, Q e.2 := by
  intro is
  induction is with
  | nil =>
    intro m h e he
    simp only [forRounds] at h
    injection h with h
    subst h
    simp at he
  | cons i rest ih =>
    intro m h e he
    unfold forRounds at h
    split at h
    · simp at h
    · rename_i v hv
      split at h
      · simp at h
      · rename_i m2 hm2
        injection h with h
        subst h
        cases v with
        | none => exact ih m2 hm2 e he
        | some x =>
          rcases List.mem_cons.1 he with e1 | e1
          · subst e1
            exact hf i x hv
          · exact ih m2 hm2 e e1

theorem balance_or (g : Generator) (vr con : States) (st : RoundMap)
    (h : balance g vr con "or" = .ok st) :
    ∀ e ∈ st, ∀ t ∈ e.2, ∃ a b, t = "(or " ++ a ++ " " ++ b ++ ")" := by
  unfold balance at h
  refine forRounds_entries _ (fun ts => ∀ t ∈ ts, ∃ a b, t = "(or " ++ a ++ " " ++ b ++ ")")
    ?_ _ st h
  intro i ts hi
  split at hi
  · simp at hi
  · rename_i v hv
    split at hi
    · simp at hi
    · rename_i t2 ht2
      injection hi with hi
      injection hi with hi
      subst hi
      exact packageStateGraph_or _ _ (PairCombinations_pairs _ _) ht2

theorem termCombosRound_pairs (lbase rbase : String) :
    ∀ (rs : List (List String)) (llast rlast : String)
      (r : List (List String) × String × String),
    termCombosRound lbase rbase rs llast rlast = .ok r → ∀ p ∈ r.1, 2 ≤ p.length := by
  intro rs
  induction rs with
  | nil =>
    intro llast rlast r h p hp
    simp only [termCombosRound] at h
    injection h with h
    subst h
    simp at hp
  | cons vr rest ih =>
    intro llast rlast r h p hp
    unfold termCombosRound at h
    split at h
    · simp at h
    · simp only at h
      split at h
      · simp at h
      · rename_i c st hc
        injection h with h
        subst h
        have hsing : ∀ (c : Prop) [Decidable c] (x y : String) (q : List String),
            q ∈ (if c then [[x, y]] else []) → 2 ≤ q.length := by
          intro c _ x y q hq
          by_cases hcc : c
          · rw [if_pos hcc, List.mem_singleton] at hq
            subst hq
            simp
          · rw [if_neg hcc] at hq
            simp at hq
        simp only [List.mem_append] at hp
        rcases hp with (hp | hp) | hp
        · exact hsing _ _ _ p hp
        · exact hsing _ _ _ p hp
        · exact ih _ _ _ hc p hp

theorem termCombosFrom_pairs (lbase rbase : String) :
    ∀ (rs : List (List (List String))) (llast rlast : String)
      (cs : List (List (List String))),
    termCombosFrom lbase rbase rs llast rlast = .ok cs →
    ∀ c ∈ cs, ∀ p ∈ c, 2 ≤ p.length := by
  intro rs
  induction rs with
  | nil =>
    intro llast rlast cs h c hc
    simp only [termCombosFrom] at h
    injection h with h
    subst h
    simp at hc
  | cons vr rest ih =>
    intro llast rlast cs h c hc
    unfold termCombosFrom at h
    split at h
    · simp at h
    · rename_i c1 l1 r1 h1
      split at h
      · simp at h
      · rename_i cs2 h2
        injection h with h
        subst h
        rcases List.mem_cons.1 hc with e | e
        · subst e
          exact termCombosRound_pairs lbase rbase vr llast rlast _ h1
        · exact ih _ _ _ h2 c e

theorem packageRounds_or : ∀ (cs : List (List (List String))) (i : Nat) (st : RoundMap),
    (∀ c ∈ cs, ∀ p ∈ c, 2 ≤ p.length) → packageRounds "or" i cs = .ok st →
    ∀ e ∈ st, ∀ t ∈ e.2, ∃ a b, t = "(or " ++ a ++ " " ++ b ++ ")" := by
  intro cs
  induction cs with
  | nil =>
    intro i st _ h e he
    simp only [packageRounds] at h
    injection h with h
    subst h
    simp at he
  | cons c rest ih =>
    intro i st hc h e he
    unfold packageRounds at h
    split at h
    · simp at h
    · rename_i t ht
      split at h
      · simp at h
      · rename_i m hm
        injection h with h
        subst h
        rcases List.mem_cons.1 he with e1 | e1
        · subst e1
          exact packageStateGraph_or _ _ (hc c (List.mem_cons_self _ _)) ht
        · exact ih _ _ (fun c2 hc2 => hc c2 (List.mem_cons_of_mem _ hc2)) hm e e1

theorem crossRounds_or (left right : States) :
    ∀ (is : List Nat) (llast rlast : Option (List String)) (st : RoundMap),
    crossRounds left right "or" is llast rlast = .ok st →
    ∀ e ∈ st, ∀ t ∈ e.2, ∃ a b, t = "(or " ++ a ++ " " ++ b ++ ")" := by
  intro is
  induction is with
  | nil =>
    intro llast rlast st h e he
    simp only [crossRounds] at h
    injection h with h
    subst h
    simp at he
  | cons i rest ih =>
    intro llast rlast st h e he
    unfold crossRounds at h
    split at h
    · simp at h
    · split at h
      · simp at h
      · split at h
        · simp at h
        · rename_i t ht
          split at h
          · split at h
            · simp at h
            · rename_i m hm
              injection h with h
              subst h
              rcases List.mem_cons.1 he with e1 | e1
              · subst e1
                exact packageStateGraph_or _ _ (PairCombinations_pairs _ _) ht
              · exact ih _ _ _ hm e e1
          · simp at h

theorem mergeByRound_or (g : Generator) (left right : States) (s : States)
    (h : mergeByRound g left right "or" = .ok s) :
    ∀ e ∈ s.States, ∀ t ∈ e.2, ∃ a b, t = "(or " ++ a ++ " " ++ b ++ ")" := by
  unfold mergeByRound at h
  split_ifs at h
  · split at h
    · simp at h
    · rename_i t ht
      injection h with h
      subst h
      intro e he
      simp only [List.mem_singleton] at he
      subst he
      exact packageStateGraph_or _ _ (PairCombinations_pairs _ _) ht
  · simp only at h
    split at h
    · simp at h
    · rename_i st hst
      injection h with h
      subst h
      refine forRounds_entries _
        (fun ts => ∀ t ∈ ts, ∃ a b, t = "(or " ++ a ++ " " ++ b ++ ")") ?_ _ st hst
      intro i ts hi
      split at hi
      · simp at hi
      · rename_i pairs hpairs
        split at hi
        · simp at hi
        · rename_i t2 ht2
          injection hi with hi
          injection hi with hi
          subst hi
          exact packageStateGraph_or _ _ (sameBasePairs_pairs _ _ _ _ _ hpairs) ht2
  · split at h
    · simp at h
    · rename_i st hst
      injection h with h
      subst h
      exact balance_or g right left st hst
  · split at h
    · simp at h
    · rename_i st hst
      injection h with h
      subst h
      exact balance_or g left right st hst
  · split at h
    · simp at h
    · rename_i combos hcombos
      split at h
      · simp at h
      · rename_i st hst
        injection h with h
        subst h
        exact packageRounds_or combos 0 st
          (termCombosFrom_pairs _ _ _ _ _ _ hcombos) hst
  · split at h
    · simp at h
    · rename_i st hst
      injection h with h
      subst h
      exact crossRounds_or left right _ _ _ st hst

theorem mergeWrapsRight_pairs (g : Generator) (l : States) (op : String) :
    ∀ (rs : List States) (ws : List States), mergeWrapsRight g l op rs = .ok ws →
    List.Forall₂ (fun w p => mergeByRound g p.1 p.2 op = .ok w) ws (rs.map (Prod.mk l)) := by
  intro rs
  induction rs with
  | nil =>
    intro ws h
    simp only [mergeWrapsRight] at h
    injection h with h
    subst h
    exact List.Forall₂.nil
  | cons r rest ih =>
    intro ws h
    unfold mergeWrapsRight at h
    split at h
    · simp at h
    · rename_i state hstate
      split at h
      · simp at h
      · rename_i states hstates
        injection h with h
        subst h
        exact List.Forall₂.cons hstate (ih states hstates)

theorem mergeWraps_pairs (g : Generator) (R : StateGroup) (op : String) :
    ∀ (ls : List States) (ws : List States), mergeWraps g (some R) op ls = .ok ws →
    List.Forall₂ (fun w p => mergeByRound g p.1 p.2 op = .ok w) ws (ls.product R.Wraps) := by
  intro ls
  induction ls with
  | nil =>
    intro ws h
    simp only [mergeWraps] at h
    injection h with h
    subst h
    exact List.Forall₂.nil
  | cons l rest ih =>
    intro ws h
    unfold mergeWraps at h
    simp only at h
    split at h
    · simp at h
    · rename_i states hstates
      split at h
      · simp at h
      · rename_i more hmore
        injection h with h
        subst h
        have hprod : (l :: rest).product R.Wraps =
            R.Wraps.map (Prod.mk l) ++ rest.product R.Wraps := List.product_cons l rest R.Wraps
        rw [hprod]
        exact List.rel_append (mergeWrapsRight_pairs g l op _ _ hstates) (ih more hmore)

theorem forall₂_mem_left {α β : Type} (Q : α → β → Prop) :
    ∀ (xs : List α) (ys : List β), List.Forall₂ Q xs ys → ∀ x ∈ xs, ∃ y ∈ ys, Q x y := by
  intro xs ys h
  induction h with
  | nil => intro x hx; simp at hx
  | cons hq _ ih =>
    intro x hx
    rcases List.mem_cons.1 hx with e | e
    · subst e
      exact ⟨_, List.mem_cons_self _ _, hq⟩
    · obtain ⟨y, hy, hxy⟩ := ih x e
      exact ⟨y, List.mem_cons_of_mem _ hy, hxy⟩

theorem lookup_mem_nat (m : RoundMap) (i : Nat) (v : List String) (h : m.lookup i = some v) :
    (i, v) ∈ m := by
  induction m with
  | nil => simp at h
  | cons p rest ih =>
    obtain ⟨k, w⟩ := p
    rw [lookup_cons_nat] at h
    by_cases hk : i = k
    · rw [if_pos hk] at h
      injection h with h
      subst h hk
      exact List.mem_cons_self _ _
    · rw [if_neg hk] at h
      exact List.mem_cons_of_mem _ (ih h)

theorem flattenStates_mem (g : Generator) (sg : StateGroup) (t : String)
    (h : t ∈ flattenStates g sg) : ∃ w ∈ sg.Wraps, ∃ e ∈ w.States, t ∈ e.2 := by
  unfold flattenStates at h
  obtain ⟨w, hw, h2⟩ := List.mem_flatMap.1 h
  obtain ⟨i, _, h3⟩ := List.mem_flatMap.1 h2
  unfold RoundMap.getD at h3
  cases hl : w.States.lookup i with
  | none => rw [hl] at h3; simp at h3
  | some v =>
    rw [hl] at h3
    exact ⟨w, hw, (i, v), lookup_mem_nat _ _ _ hl, h3⟩

/-- C13 (amended). For every staged invariant `when X then Y` whose sides lower to the
state groups `L` and `R`, whatever the expressions `X` and `Y`, `parseAssert`
merges the two sides with `mergeInvariantInfix` under the operator `or` and
joins the flattened result with `and`: it returns exactly when the merge does,
and then the text is `(and t_1 ... t_k)` over the merged per-round terms (a single
term is returned bare); the merged group holds one state list for every pair of
a when-side and a then-side state list, merged by `mergeByRound`, and every term
`t_i` is a disjunction `(or a b)` of two terms: the then-side is paired with the
when-side term by term, it is not one disjunction over all then-side states. -/
theorem parseAssert_staged (diff : List String → List String → List String)
    (g : Generator) (X Y : Expression) (assume : Bool) (n : Int) (L R : StateGroup)
    (hL : parseInvariantNode g X true = .ok (some L))
    (hR : parseInvariantNode g Y true = .ok (some R)) :
    parseAssert diff g { Constraint := ⟨X, "then", Y⟩, Assume := assume, TemporalN := n } =
        (mergeInvariantInfix g (some L) (some R) "or").map
          (fun sg => groupOrSingle "and" (flattenStates g sg)) ∧
      ∀ sg, mergeInvariantInfix g (some L) (some R) "or" = .ok sg →
        List.Forall₂ (fun w p => mergeByRound g p.1 p.2 "or" = .ok w) sg.Wraps
          (L.Wraps.product R.Wraps) ∧
        ∀ t ∈ flattenStates g sg, ∃ a b, t = "(or " ++ a ++ " " ++ b ++ ")" := by
  constructor
  · unfold parseAssert
    simp only [decide_True, ne_eq, not_true_eq_false, or_self, and_false, if_false, hL, hR,
      if_true]
    cases hm : mergeInvariantInfix g (some L) (some R) "or" with
    | error e => rfl
    | ok sg =>
      simp only [Except.map]
      congr 1
      unfold joinStates groupOrSingle
      split
      · rfl
      · simp [writeAssertlessRule]
  · intro sg hsg
    unfold mergeInvariantInfix at hsg
    simp only at hsg
    split at hsg
    · simp at hsg
    · rename_i states hstates
      injection hsg with hsg
      subst hsg
      have hp := mergeWraps_pairs g R "or" L.Wraps states hstates
      refine ⟨hp, ?_⟩
      intro t ht
      obtain ⟨w, hw, e, he, hte⟩ := flattenStates_mem g _ t ht
      obtain ⟨p, _, hmerge⟩ := forall₂_mem_left _ _ _ hp w hw
      exact mergeByRound_or g p.1 p.2 w hmerge e he t hte

/-- C13 (witness). The invariant `when a_b_c > 0 then d_e_f < 5` over two rounds in
which both variables are written: the sides lower to one state list each, and
the result is `(and (or (> a_b_c_0 0) (< d_e_f_0 5)) (or (> a_b_c_1 0) (< d_e_f_1 5)))`. -/
theorem parseAssert_staged_witness :
    parseInvariantNode (logBothTwoRounds "a_b_c" "d_e_f")
        (.InfixExpression (.AssertVar ["a_b_c"]) ">" (.IntegerLiteral 0)) true =
      .ok (some whenSideGroup) ∧
    parseInvariantNode (logBothTwoRounds "a_b_c" "d_e_f")
        (.InfixExpression (.AssertVar ["d_e_f"]) "<" (.IntegerLiteral 5)) true =
      .ok (some thenSideGroup) ∧
    parseAssert DiffStrSets (logBothTwoRounds "a_b_c" "d_e_f")
        ⟨⟨.InfixExpression (.AssertVar ["a_b_c"]) ">" (.IntegerLiteral 0), "then",
          .InfixExpression (.AssertVar ["d_e_f"]) "<" (.IntegerLiteral 5)⟩, false, "", "", 0⟩ =
      (mergeInvariantInfix (logBothTwoRounds "a_b_c" "d_e_f")
        (some whenSideGroup) (some thenSideGroup) "or").map
        (fun sg => groupOrSingle "and" (flattenStates (logBothTwoRounds "a_b_c" "d_e_f") sg)) ∧
    (mergeInvariantInfix (logBothTwoRounds "a_b_c" "d_e_f")
        (some whenSideGroup) (some thenSideGroup) "or").map
        (fun sg => groupOrSingle "and" (flattenStates (logBothTwoRounds "a_b_c" "d_e_f") sg)) =
      .ok "(and (or (> a_b_c_0 0) (< d_e_f_0 5)) (or (> a_b_c_1 0) (< d_e_f_1 5)))" :=
  ⟨by decide, by decide,
    (parseAssert_staged DiffStrSets (logBothTwoRounds "a_b_c" "d_e_f")
      (.InfixExpression (.AssertVar ["a_b_c"]) ">" (.IntegerLiteral 0))
      (.InfixExpression (.AssertVar ["d_e_f"]) "<" (.IntegerLiteral 5)) false 0
      whenSideGroup thenSideGroup (by decide) (by decide)).1,
    by decide⟩

end Fault
